import Mathlib

/-! Spatial subdivision of the guiding field: kd-tree builder and Field driver.

A shallow embedding of `rkguide/kdtree/KDTreeBuilder.h` and `rkguide/field/Field.h`.

* Coordinates are values of a linearly ordered type `α` (exact arithmetic, no NaN);
  sample counts are rationals, and the arithmetic of the count type in the split test
  (the conversion of a size and the addition) is a parameter, exact or rounding.
* Iterators into the sample buffer are offsets (`Range.start`, `Range.stop`).
* References into the node pool and into the region storage are indices.
* The recursive update step is executed sequentially (left child, then right child)
  and is driven by a fuel argument; `none` stands for "no result" (fuel exhausted,
  an access outside a container, a division by zero).
* `SampleStatistics`, `KDTree`/`KDNode`, `Range`, the nearest-neighbour search tree and the
  two fitting hooks are not part of the translated sources; they enter as parameters or
  are modelled from the specification, as stated at each definition.
-/

set_option autoImplicit false

namespace rkguide

/-! ## Geometry -/

/-- A triple of coordinates (`Point3`, `Vector3`). -/
structure Vec3 (α : Type) where
  x : α
  y : α
  z : α
deriving DecidableEq

/-- Component access `v[i]` for `i ∈ {0,1,2}`. -/
def Vec3.get {α : Type} (v : Vec3 α) (i : Fin 3) : α :=
  match i with
  | ⟨0, _⟩ => v.x
  | ⟨1, _⟩ => v.y
  | ⟨_ + 2, _⟩ => v.z

/-- Axis-aligned bounding box. -/
structure BBox (α : Type) where
  lower : Vec3 α
  upper : Vec3 α
deriving DecidableEq

/-- The containment test `embree::inside(bounds, p)`: `lower ≤ p ≤ upper` on every axis. -/
def inside {α : Type} [LinearOrder α] (b : BBox α) (p : Vec3 α) : Bool :=
  decide (b.lower.x ≤ p.x) && decide (p.x ≤ b.upper.x) &&
  decide (b.lower.y ≤ p.y) && decide (p.y ≤ b.upper.y) &&
  decide (b.lower.z ≤ p.z) && decide (p.z ≤ b.upper.z)

/-! ## Sample statistics (parameter) -/

/-- The operations of `SampleStatistics` that the builder uses. The class itself is not
among the translated sources, so its operations are a parameter of the development. -/
structure SampleStatisticsOps (α S : Type) where
  /-- a default-constructed statistics object -/
  init : S
  /-- the effect of `clear()` -/
  clear : S → S
  /-- the effect of `addSample(position)` -/
  addSample : S → Vec3 α → S
  /-- the member `numSamples` / `getNumSamples()`, as the number it holds -/
  numSamples : S → ℚ
  /-- the conversion of an unsigned integer (`size_t`) to the arithmetic type of
  `numSamples`, as the number it yields -/
  sizeToCount : Nat → ℚ
  /-- the addition of the arithmetic type of `numSamples` -/
  addCounts : ℚ → ℚ → ℚ
  /-- the effect of `decay(alpha)` -/
  decay : S → ℚ → S
  /-- the result of `getMean()` -/
  getMean : S → Vec3 α
  /-- the result of `getVaraince()` -/
  getVaraince : S → Vec3 α

/-! ## Ranges, regions, tree nodes -/

/-- A sample range `TRange`: the iterators `start` and `end` as offsets into the buffer. -/
structure Range where
  start : Nat
  stop : Nat
deriving DecidableEq

/-- The number of samples `size()` of a range. -/
def Range.size (r : Range) : Nat := r.stop - r.start

/-- A region `TRegion`: the member `sampleStatistics` and the remaining (opaque) state. -/
structure Region (S D : Type) where
  sampleStatistics : S
  payload : D
deriving DecidableEq

/-- Modelled from the spec: `KDNode` (declared in `KDTree.h`, not among the translated
sources). A node is tagged as leaf (holding `dataIndex`) or inner (holding `splitAxis`,
`splitPosition` and `leftChildIndex`; the right child is `leftChildIndex + 1`). -/
inductive KDNode (α : Type) where
  | leaf (dataIdx : Nat)
  | inner (splitDim : Fin 3) (splitPos : α) (leftChildIdx : Nat)
deriving DecidableEq

/-- The test `isLeaf()`. -/
def KDNode.isLeaf {α : Type} : KDNode α → Bool
  | .leaf _ => true
  | .inner _ _ _ => false

/-- Modelled from the spec: `KDTree` (declared in `KDTree.h`, not among the translated
sources): the bounding volume and the growable node pool `m_nodes`; the root is node 0. -/
structure KDTree (α : Type) where
  bounds : BBox α
  m_nodes : List (KDNode α)
deriving DecidableEq

/-- Modelled from the spec: `KDTree::init(bounds, capacityHint)` resets the tree to a single
root leaf over `bounds`; the root leaf refers to storage slot 0. -/
def KDTree.init {α : Type} (bound : BBox α) : KDTree α :=
  { bounds := bound, m_nodes := [KDNode.leaf 0] }

/-- Modelled from the spec: `KDTree::addChildrenPair()` appends two adjacent leaf nodes and
returns the index of the left one. -/
def KDTree.addChildrenPair {α : Type} (t : KDTree α) : KDTree α × Nat :=
  ({ t with m_nodes := t.m_nodes ++ [KDNode.leaf 0, KDNode.leaf 0] }, t.m_nodes.length)

/-- Modelled from the spec: the descent of `KDTree::getDataIdxAtPos` from node `i`: at an
inner node turn left if `p[splitAxis] < splitPosition`, else right; at a leaf return its
data index. `fuel` bounds the number of inner nodes passed. -/
def descend {α : Type} [LinearOrder α] (nodes : List (KDNode α)) (p : Vec3 α) :
    Nat → Nat → Option Nat
  | fuel, i =>
    match nodes[i]? with
    | none => none
    | some (KDNode.leaf d) => some d
    | some (KDNode.inner dim pos l) =>
      match fuel with
      | 0 => none
      | f + 1 => if p.get dim < pos then descend nodes p f l else descend nodes p f (l + 1)

/-- Modelled from the spec: `KDTree::getDataIdxAtPos(p, bounds)`, the data index of the leaf
that the descent from the root reaches. No descent in a tree passes more inner nodes than
the pool holds, which is the fuel given. -/
def KDTree.getDataIdxAtPos {α : Type} [LinearOrder α] (t : KDTree α) (p : Vec3 α) :
    Option Nat :=
  descend t.m_nodes p t.m_nodes.length 0

/-! ## KDTreePartitionBuilder -/

/-- The builder settings `KDTreePartitionBuilder::Settings`. -/
structure Settings where
  minSamples : Nat := 100
  maxSamples : Nat := 32000
  maxDepth : Nat := 32
deriving DecidableEq

/-- The state the builder works on: the tree, the region storage
(`concurrent_vector<pair<TRegion, TRange>>`) and the sample buffer. -/
structure BuildState (α S D σ : Type) where
  kdTree : KDTree α
  dataStorage : List (Region S D × Range)
  samples : List σ
deriving DecidableEq

section Builder

variable {α S D σ : Type} [LinearOrder α]

/-- The predicate `pivotSplitPredicate` of `pivotSplitSamplesWithStats`: tells whether the
sample goes left and adds its position to the left or to the right statistics. -/
def pivotSplitPredicate (ops : SampleStatisticsOps α S) (position : σ → Vec3 α)
    (splitDimension : Fin 3) (pivot : α) (sample : σ) (stats : S × S) : Bool × (S × S) :=
  let left := decide ((position sample).get splitDimension < pivot)
  if left then (left, (ops.addSample stats.1 (position sample), stats.2))
  else (left, (stats.1, ops.addSample stats.2 (position sample)))

/-- The library algorithm `std::partition` for bidirectional iterators with a predicate that
threads a state `T`. The buffer between the iterators reads `L ++ hole ++ mid ++ R`:
`L` holds the examined elements that satisfy the predicate, `R` those that do not, `mid`
the unexamined ones, and `hole` is the front element found not to satisfy the predicate
while the scan from the back looks for an element to exchange it with. The predicate is
applied to every element once. -/
def stdPartition {T : Type} (pred : σ → T → Bool × T) :
    Nat → Option σ → List σ → List σ → List σ → T → List σ × List σ × T
  | 0, hole, mid, L, R, t => (L, hole.toList ++ mid ++ R, t)
  | _ + 1, none, [], L, R, t => (L, R, t)
  | n + 1, none, x :: rest, L, R, t =>
    if (pred x t).1 then stdPartition pred n none rest (L ++ [x]) R (pred x t).2
    else stdPartition pred n (some x) rest L R (pred x t).2
  | n + 1, some x, mid, L, R, t =>
    match mid.getLast? with
    | none => (L, x :: R, t)
    | some y =>
      if (pred y t).1 then stdPartition pred n none mid.dropLast (L ++ [y]) (x :: R) (pred y t).2
      else stdPartition pred n (some x) mid.dropLast L (y :: R) (pred y t).2

/-- The result of `pivotSplitSamplesWithStats`: the buffer after the in-place partition of
`[begin, end)`, the offset of the returned iterator, and the two statistics. -/
def pivotSplitSamplesWithStats (ops : SampleStatisticsOps α S) (position : σ → Vec3 α)
    (samples : List σ) (first last : Nat) (splitDimension : Fin 3) (pivot : α)
    (statsLeft statsRight : S) : List σ × Nat × S × S :=
  let slice := (samples.drop first).take (last - first)
  let res := stdPartition (pivotSplitPredicate ops position splitDimension pivot)
    (slice.length + 1) none slice [] [] (statsLeft, statsRight)
  (samples.take first ++ (res.1 ++ res.2.1) ++ samples.drop (first + slice.length),
    first + res.1.length, res.2.2.1, res.2.2.2)

/-- The lambda `maxDimension`: `v[v[1] > v[0]] > v[2] ? v[1] > v[0] : 2`. -/
def maxDimension (v : Vec3 α) : Fin 3 :=
  let b : Fin 3 := if v.get 1 > v.get 0 then 1 else 0
  if v.get b > v.get 2 then b else 2

/-- The split plane `getSplitDimensionAndPosition`: the axis chosen by `maxDimension` on the
variance and the mean along it. -/
def getSplitDimensionAndPosition (ops : SampleStatisticsOps α S) (sampleStats : S) :
    Fin 3 × α :=
  let sampleVariance := ops.getVaraince sampleStats
  let sampleMean := ops.getMean sampleStats
  let splitDim := maxDimension sampleVariance
  (splitDim, sampleMean.get splitDim)

/-- The split test of `updateTreeNode` for a leaf whose region statistics are `stats`:
`depth < maxDepth && numSamples + sampleRange.size() > maxSamples`. The sum and the
comparison are those of the arithmetic type of `numSamples`: the size of the range and
`maxSamples` are converted to that type, and the sum is the sum of that type (rounded, if
the type is a floating-point type). -/
def splitCondition (ops : SampleStatisticsOps α S) (buildSettings : Settings) (depth : Nat)
    (stats : S) (sampleRange : Range) : Bool :=
  decide (depth < buildSettings.maxDepth) &&
    decide (ops.addCounts (ops.numSamples stats) (ops.sizeToCount sampleRange.size) >
      ops.sizeToCount buildSettings.maxSamples)

/-- The state after the split branch of `updateTreeNode` (before the samples are
partitioned): the region is decayed by `0.5f`, a copy of the entry is appended to the
storage, a child pair is added, the node becomes an inner node and the two children get the
data indices. Returns the state with the split plane and the left child index. -/
def splitLeaf (ops : SampleStatisticsOps α S) (st : BuildState α S D σ) (node : Nat)
    (dataIdx : Nat) (entry : Region S D × Range) (sampleStats : S) :
    BuildState α S D σ × Fin 3 × α × Nat :=
  let decayed : Region S D × Range :=
    ({ entry.1 with sampleStatistics := ops.decay entry.1.sampleStatistics (1 / 2) }, entry.2)
  let storage1 := st.dataStorage.set dataIdx decayed
  let rightDataIdx := storage1.length
  let storage2 := storage1 ++ [decayed]
  let split := getSplitDimensionAndPosition ops sampleStats
  let added := st.kdTree.addChildrenPair
  let left := added.2
  let nodes1 := added.1.m_nodes.set node (KDNode.inner split.1 split.2 left)
  let nodes2 := nodes1.set left (KDNode.leaf dataIdx)
  let nodes3 := nodes2.set (left + 1) (KDNode.leaf rightDataIdx)
  ({ st with kdTree := { added.1 with m_nodes := nodes3 }, dataStorage := storage2 },
    split.1, split.2, left)

/-- What the first part of `updateTreeNode` (the `if (node.isLeaf())` statement) leaves
behind: the step is over (`done`, the non-split leaf has recorded its range), or the step
goes on with a split plane and the index of the left child (`descend`), or there is no
result (`fail`: the node or the storage slot does not exist). -/
inductive Visit (α S D σ : Type) where
  | fail
  | done (st : BuildState α S D σ)
  | descend (st : BuildState α S D σ) (splitDim : Fin 3) (splitPos : α) (left : Nat)

/-- The `if (node.isLeaf()) ... else ...` statement of `updateTreeNode` for a non-empty
sample range. -/
def visitNode (ops : SampleStatisticsOps α S) (buildSettings : Settings)
    (st : BuildState α S D σ) (node depth : Nat) (sampleRange : Range) (sampleStats : S) :
    Visit α S D σ :=
  match st.kdTree.m_nodes[node]? with
  | none => Visit.fail
  | some (KDNode.leaf dataIdx) =>
    match st.dataStorage[dataIdx]? with
    | none => Visit.fail
    | some entry =>
      if splitCondition ops buildSettings depth entry.1.sampleStatistics sampleRange then
        let s := splitLeaf ops st node dataIdx entry sampleStats
        Visit.descend s.1 s.2.1 s.2.2.1 s.2.2.2
      else
        Visit.done { st with dataStorage := st.dataStorage.set dataIdx (entry.1, sampleRange) }
  | some (KDNode.inner splitDim splitPos left) => Visit.descend st splitDim splitPos left

/-- The recursive update step `updateTreeNode` on the node with index `node`, executed
sequentially (left child first). `none`: the fuel is used up, or a node or storage slot
does not exist. -/
def updateTreeNode (ops : SampleStatisticsOps α S) (position : σ → Vec3 α)
    (buildSettings : Settings) :
    Nat → BuildState α S D σ → Nat → Nat → Range → S → Option (BuildState α S D σ)
  | fuel, st, node, depth, sampleRange, sampleStats =>
    if sampleRange.size = 0 then some st
    else
      match fuel with
      | 0 => none
      | fuel + 1 =>
        match visitNode ops buildSettings st node depth sampleRange sampleStats with
        | Visit.fail => none
        | Visit.done st1 => some st1
        | Visit.descend st1 splitDim splitPos left =>
          let part := pivotSplitSamplesWithStats ops position st1.samples sampleRange.start
            sampleRange.stop splitDim splitPos (ops.clear ops.init) (ops.clear ops.init)
          match updateTreeNode ops position buildSettings fuel
              { st1 with samples := part.1 } left (depth + 1)
              ⟨sampleRange.start, part.2.1⟩ part.2.2.1 with
          | none => none
          | some st2 =>
            updateTreeNode ops position buildSettings fuel st2 (left + 1) (depth + 1)
              ⟨part.2.1, sampleRange.stop⟩ part.2.2.2

/-- The statistics `updateTree` computes before the recursion: all samples added to cleared
statistics when the root is a leaf, cleared statistics otherwise. -/
def rootStatistics (ops : SampleStatisticsOps α S) (position : σ → Vec3 α)
    (root : KDNode α) (samples : List σ) : S :=
  if root.isLeaf then
    samples.foldl (fun s sample => ops.addSample s (position sample)) (ops.clear ops.init)
  else ops.clear ops.init

/-- The pass `updateTree` over the whole sample buffer: the recursive step on the root at
depth 1. A recursion of the step passes at most the nodes of the pool and then splits at
most `maxDepth` times, which is the fuel given. `none` also stands for a pool without a
root. The local sums `x`, `y`, `z` and the output to `std::cout` have no effect on the
state and are left out. -/
def updateTree (ops : SampleStatisticsOps α S) (position : σ → Vec3 α)
    (buildSettings : Settings) (st : BuildState α S D σ) : Option (BuildState α S D σ) :=
  match st.kdTree.m_nodes[0]? with
  | none => none
  | some root =>
    updateTreeNode ops position buildSettings
      (st.kdTree.m_nodes.length + buildSettings.maxDepth + 1) st 0 1
      ⟨0, st.samples.length⟩ (rootStatistics ops position root st.samples)

/-- The effect of `dataStorage.resize(1)`: an empty storage gets one default-constructed
entry, any other storage keeps its first entry only. -/
def resizeOne (dflt : Region S D × Range) : List (Region S D × Range) →
    List (Region S D × Range)
  | [] => [dflt]
  | e :: _ => [e]

/-- The first pass `build`: the tree is initialised over `bound`, the storage resized to one
entry, and `updateTree` runs. The leaf estimate divides by `maxSamples`, so there is no
result for `maxSamples = 0`; the estimate itself only reserves capacity. -/
def build (ops : SampleStatisticsOps α S) (position : σ → Vec3 α) (dflt : Region S D)
    (bound : BBox α) (buildSettings : Settings) (st : BuildState α S D σ) :
    Option (BuildState α S D σ) :=
  if buildSettings.maxSamples = 0 then none
  else
    updateTree ops position buildSettings
      { st with kdTree := KDTree.init bound,
                dataStorage := resizeOne (dflt, ⟨0, 0⟩) st.dataStorage }

end Builder

/-! ## Field -/

/-- The collaborators of `Field` that are not among the translated sources, as parameters:
the statistics operations, the member `position` of a sample, the comparison `operator<`
of samples used by `std::sort`, a default-constructed region, the two pure virtual hooks
`fitRegions` and `updateRegions` (they see the region storage and, through the recorded
ranges, the sample buffer, and leave a region storage behind), and the nearest-neighbour
search tree `KNearestRegionsSearchTree`. -/
structure FieldOps (α S D σ K : Type) where
  stats : SampleStatisticsOps α S
  position : σ → Vec3 α
  less : σ → σ → Bool
  defaultRegion : Region S D
  fitRegions : List (Region S D × Range) → List σ → List (Region S D × Range)
  updateRegions : List (Region S D × Range) → List σ → List (Region S D × Range)
  emptySearchTree : K
  buildRegionSearchTree : List (Region S D × Range) → K
  sampleClosestRegionIdx : K → Vec3 α → α → Nat

/-- The settings `Field::Settings`. -/
structure FieldSettings where
  spatialSubdivBuilderSettings : Settings := {}
  useStochasticNNLookUp : Bool := false
  deterministic : Bool := false
  decayOnSpatialSplit : ℚ := 1 / 4

/-- The members of `Field`. -/
structure Field (α S D K : Type) where
  m_iteration : Nat
  m_totalSPP : Nat
  m_nCores : Nat
  m_regionStorageContainer : List (Region S D × Range)
  m_decayOnSpatialSplit : ℚ
  m_deterministic : Bool
  m_useStochasticNNLookUp : Bool
  m_spatialSubdivBuilderSettings : Settings
  m_spatialSubdiv : KDTree α
  m_regionKNNSearchTree : K
deriving DecidableEq

/-- A pointer to a region of the storage, the result type of `getGuidingRegion`:
`nullptr`, or the address of `m_regionStorageContainer[idx].first`. -/
inductive RegionPtr where
  | null
  | region (idx : Nat)
deriving DecidableEq

/-- The random number source; only its next variate `next1D()` is used. -/
structure Sampler (α : Type) where
  next1D : α

section FieldOperations

variable {α S D σ K : Type} [LinearOrder α]

/-- The constructor `Field(settings)`; the spatial structure starts as `tree`. -/
def Field.create (ops : FieldOps α S D σ K) (settings : FieldSettings) (tree : KDTree α) :
    Field α S D K :=
  { m_iteration := 0
    m_totalSPP := 0
    m_nCores := 20
    m_regionStorageContainer := []
    m_decayOnSpatialSplit := settings.decayOnSpatialSplit
    m_deterministic := settings.deterministic
    m_useStochasticNNLookUp := settings.useStochasticNNLookUp
    m_spatialSubdivBuilderSettings := settings.spatialSubdivBuilderSettings
    m_spatialSubdiv := tree
    m_regionKNNSearchTree := ops.emptySearchTree }

/-- The lookup `getClosestRegion`: the region index sampled from the search tree, or
`nullptr` when that index is `-1` as a 32-bit unsigned number. -/
def Field.getClosestRegion (ops : FieldOps α S D σ K) (f : Field α S D K) (p : Vec3 α)
    (sample : α) : RegionPtr :=
  let regionIdx := ops.sampleClosestRegionIdx f.m_regionKNNSearchTree p sample
  if regionIdx ≠ 2 ^ 32 - 1 then RegionPtr.region regionIdx else RegionPtr.null

/-- The query `getGuidingRegion`. `none`: the descent of the tree reaches no leaf. -/
def Field.getGuidingRegion (ops : FieldOps α S D σ K) (f : Field α S D K) (p : Vec3 α)
    (sampler : Sampler α) : Option RegionPtr :=
  if decide (f.m_iteration > 0) && inside f.m_spatialSubdiv.bounds p then
    if f.m_useStochasticNNLookUp then
      some (f.getClosestRegion ops p sampler.next1D)
    else
      match f.m_spatialSubdiv.getDataIdxAtPos p with
      | none => none
      | some dataIdx => some (RegionPtr.region dataIdx)
  else some RegionPtr.null

/-- The library algorithm `std::sort` with `operator<`: a sorted rearrangement of the
buffer (`a` stands before `b` unless `b < a`). -/
def stdSort (less : σ → σ → Bool) (samples : List σ) : List σ :=
  samples.insertionSort (fun a b => less b a = false)

/-- The buffer as the build sees it: sorted when `m_deterministic` is set. -/
def Field.prepare (ops : FieldOps α S D σ K) (f : Field α S D K) (samples : List σ) :
    List σ :=
  if f.m_deterministic then stdSort ops.less samples else samples

/-- The step `buildSpatialStructure`: the builder's `build`, then the search tree is
rebuilt when the stochastic lookup is enabled. Returns the field and the sample buffer.
The call in `Field.h` passes `m_nCores` as one more argument than the builder's `build`
declares; the five declared arguments are passed here. -/
def Field.buildSpatialStructure (ops : FieldOps α S D σ K) (f : Field α S D K)
    (bounds : BBox α) (samples : List σ) : Option (Field α S D K × List σ) :=
  match build ops.stats ops.position ops.defaultRegion bounds f.m_spatialSubdivBuilderSettings
      ⟨f.m_spatialSubdiv, f.m_regionStorageContainer, samples⟩ with
  | none => none
  | some st =>
    some ({ f with
            m_spatialSubdiv := st.kdTree
            m_regionStorageContainer := st.dataStorage
            m_regionKNNSearchTree :=
              if f.m_useStochasticNNLookUp then ops.buildRegionSearchTree st.dataStorage
              else f.m_regionKNNSearchTree },
          st.samples)

/-- The step `updateSpatialStructure`: the builder's `updateTree` (called without the
additional argument `m_nCores` of the call in `Field.h`), then the search tree is rebuilt
when the stochastic lookup is enabled. -/
def Field.updateSpatialStructure (ops : FieldOps α S D σ K) (f : Field α S D K)
    (samples : List σ) : Option (Field α S D K × List σ) :=
  match updateTree ops.stats ops.position f.m_spatialSubdivBuilderSettings
      ⟨f.m_spatialSubdiv, f.m_regionStorageContainer, samples⟩ with
  | none => none
  | some st =>
    some ({ f with
            m_spatialSubdiv := st.kdTree
            m_regionStorageContainer := st.dataStorage
            m_regionKNNSearchTree :=
              if f.m_useStochasticNNLookUp then ops.buildRegionSearchTree st.dataStorage
              else f.m_regionKNNSearchTree },
          st.samples)

/-- The call `buildField(bounds, samples)`: both counters are reset, the buffer is sorted in
deterministic mode, the spatial structure is built and `fitRegions` runs. -/
def Field.buildField (ops : FieldOps α S D σ K) (f : Field α S D K) (bounds : BBox α)
    (samples : List σ) : Option (Field α S D K × List σ) :=
  let f1 := { f with m_iteration := 0, m_totalSPP := 0 }
  match f1.buildSpatialStructure ops bounds (f1.prepare ops samples) with
  | none => none
  | some (f2, buf) =>
    some ({ f2 with m_regionStorageContainer := ops.fitRegions f2.m_regionStorageContainer buf },
          buf)

/-- The call `updateField(samples)`: the buffer is sorted in deterministic mode, the spatial
structure is updated and `updateRegions` runs. -/
def Field.updateField (ops : FieldOps α S D σ K) (f : Field α S D K) (samples : List σ) :
    Option (Field α S D K × List σ) :=
  match f.updateSpatialStructure ops (f.prepare ops samples) with
  | none => none
  | some (f2, buf) =>
    some ({ f2 with
            m_regionStorageContainer := ops.updateRegions f2.m_regionStorageContainer buf },
          buf)

/-- The call `addTrainingIteration(spp)` on the two 32-bit counters. -/
def Field.addTrainingIteration (f : Field α S D K) (spp : Nat) : Field α S D K :=
  { f with m_totalSPP := (f.m_totalSPP + spp) % 2 ^ 32
           m_iteration := (f.m_iteration + 1) % 2 ^ 32 }

/-- The getter `getTotalSPP`. -/
def Field.getTotalSPP (f : Field α S D K) : Nat := f.m_totalSPP

/-- The getter `getIteration`. -/
def Field.getIteration (f : Field α S D K) : Nat := f.m_iteration

end FieldOperations

/-! ## Notions used to state the properties of the builder -/

/-- The tree that a node pool represents below one of its nodes: every node with its index
in the pool, leaves with their data index, inner nodes with their split plane. -/
inductive Shape (α : Type) where
  | leaf (idx dataIdx : Nat)
  | inner (idx : Nat) (splitDim : Fin 3) (splitPos : α) (l r : Shape α)

namespace Shape

variable {α : Type}

/-- The pool index of the root of a shape. -/
def root : Shape α → Nat
  | leaf i _ => i
  | inner i _ _ _ _ => i

/-- The pool indices of all nodes of a shape. -/
def indices : Shape α → List Nat
  | leaf i _ => [i]
  | inner i _ _ l r => i :: (l.indices ++ r.indices)

/-- The data indices held by the leaves of a shape, from left to right. -/
def dataIdxs : Shape α → List Nat
  | leaf _ d => [d]
  | inner _ _ _ l r => l.dataIdxs ++ r.dataIdxs

/-- The number of inner nodes on the longest path from the root to a leaf. -/
def height : Shape α → Nat
  | leaf _ _ => 0
  | inner _ _ _ l r => max l.height r.height + 1

/-- The data index of the leaf that the descent for `p` reaches in a shape. -/
def locate [LinearOrder α] (p : Vec3 α) : Shape α → Nat
  | leaf _ d => d
  | inner _ dim pos l r => if p.get dim < pos then l.locate p else r.locate p

/-- The number of inner nodes that the descent for `p` passes in a shape. -/
def steps [LinearOrder α] (p : Vec3 α) : Shape α → Nat
  | leaf _ _ => 0
  | inner _ dim pos l r => (if p.get dim < pos then l.steps p else r.steps p) + 1

/-- The cell of every leaf of a shape, as the list of (data index, membership test): the
cell of the root is `cell`; an inner node cuts its cell at the split plane, the points with
`p[splitDim] < splitPos` forming the cell of the left child and the others the cell of the
right child. -/
def cells [LinearOrder α] (cell : Vec3 α → Bool) : Shape α → List (Nat × (Vec3 α → Bool))
  | leaf _ d => [(d, cell)]
  | inner _ dim pos l r =>
    l.cells (fun p => cell p && decide (p.get dim < pos)) ++
    r.cells (fun p => cell p && !decide (p.get dim < pos))

/-- The pool `nodes` holds the shape: node by node, with the right child of an inner node
stored next to the left child. -/
def Rep (nodes : List (KDNode α)) : Shape α → Prop
  | leaf i d => nodes[i]? = some (KDNode.leaf d)
  | inner i dim pos l r =>
    nodes[i]? = some (KDNode.inner dim pos l.root) ∧ r.root = l.root + 1 ∧
      Rep nodes l ∧ Rep nodes r

/-- Every inner node of a shape whose root is at depth `d` lies at a depth below `m`. -/
def DepthOK : Shape α → Nat → Nat → Prop
  | leaf _ _, _, _ => True
  | inner _ _ _ l r, d, m => d < m ∧ DepthOK l (d + 1) m ∧ DepthOK r (d + 1) m

end Shape

section Notions

variable {α S D σ : Type}

/-- The invariant of the builder for depth limit `m`: the pool is exactly the nodes of one
tree rooted at node 0, the leaves of that tree hold exactly the indices of the storage,
each once, and no inner node lies at depth `m` or deeper (the root has depth 1). -/
def TreeInv (m : Nat) (st : BuildState α S D σ) : Prop :=
  ∃ t : Shape α, t.Rep st.kdTree.m_nodes ∧ t.root = 0 ∧
    t.indices.Perm (List.range st.kdTree.m_nodes.length) ∧
    t.dataIdxs.Perm (List.range st.dataStorage.length) ∧
    t.DepthOK 1 m

/-- The buffer `buf'` arises from `buf` by rearranging the samples at the offsets
`[a, b)` among themselves. -/
def BufFrame (buf buf' : List σ) (a b : Nat) : Prop :=
  ∃ pre mid mid' post : List σ, buf = pre ++ mid ++ post ∧ buf' = pre ++ mid' ++ post ∧
    pre.length = a ∧ a + mid.length = b ∧ mid'.Perm mid

/-- A region after `k` decays by the factor `0.5f` of its statistics. -/
def decayTimes (ops : SampleStatisticsOps α S) (k : Nat) (region : Region S D) : Region S D :=
  { region with
    sampleStatistics := (fun s => ops.decay s (1 / 2))^[k] region.sampleStatistics }

/-- The state `st'` has grown out of `st`: bounds kept, no node and no storage entry lost,
inner nodes kept as they are, leaves kept or turned into inner nodes, and every storage
entry still at its index, its region changed by decays only. -/
structure Grows (ops : SampleStatisticsOps α S) (st st' : BuildState α S D σ) : Prop where
  bounds : st'.kdTree.bounds = st.kdTree.bounds
  nodeCount : st.kdTree.m_nodes.length ≤ st'.kdTree.m_nodes.length
  innerKept : ∀ (j : Nat) (dim : Fin 3) (pos : α) (l : Nat), st.kdTree.m_nodes[j]? = some (KDNode.inner dim pos l) →
    st'.kdTree.m_nodes[j]? = some (KDNode.inner dim pos l)
  leafKept : ∀ (j d : Nat), st.kdTree.m_nodes[j]? = some (KDNode.leaf d) →
    st'.kdTree.m_nodes[j]? = some (KDNode.leaf d) ∨
      ∃ dim pos l, st'.kdTree.m_nodes[j]? = some (KDNode.inner dim pos l)
  storageSize : st.dataStorage.length ≤ st'.dataStorage.length
  entryKept : ∀ (j : Nat) (e : Region S D × Range), st.dataStorage[j]? = some e →
    ∃ e' k, st'.dataStorage[j]? = some e' ∧ e'.1 = decayTimes ops k e.1
  bufferSize : st'.samples.length = st.samples.length

end Notions

section StepNotions

variable {α S D σ : Type} [LinearOrder α]

/-- Every sample at an offset of `r` lies in the range stored for the leaf that the descent
in `t` reaches for its position; that range lies inside `r`, and every sample in it
reaches the same leaf. -/
def Routed (position : σ → Vec3 α) (t : Shape α) (storage : List (Region S D × Range))
    (buf : List σ) (r : Range) : Prop :=
  ∀ (k : Nat) (x : σ), r.start ≤ k → k < r.stop → buf[k]? = some x →
    ∃ e : Region S D × Range, storage[t.locate (position x)]? = some e ∧
      e.2.start ≤ k ∧ k < e.2.stop ∧ r.start ≤ e.2.start ∧ e.2.stop ≤ r.stop ∧
      ∀ (k' : Nat) (x' : σ), e.2.start ≤ k' → k' < e.2.stop → buf[k']? = some x' →
        t.locate (position x') = t.locate (position x)

/-- What the recursive update step relies on when it is called on the subtree `t` at depth
`d` with the range `r`: the pool holds `t`, no pool index and no data index occurs twice in
`t` and all of them exist, the depth limit holds in `t`, and `r` lies in the buffer. -/
structure StepPre (m : Nat) (st : BuildState α S D σ) (t : Shape α) (d : Nat) (r : Range) :
    Prop where
  rep : t.Rep st.kdTree.m_nodes
  nodup : t.indices.Nodup
  bound : ∀ j ∈ t.indices, j < st.kdTree.m_nodes.length
  dataNodup : t.dataIdxs.Nodup
  dataBound : ∀ j ∈ t.dataIdxs, j < st.dataStorage.length
  depth : t.DepthOK d m
  rangeOrdered : r.start ≤ r.stop
  rangeInside : r.stop ≤ st.samples.length

/-- What one run of the recursive update step achieves on the subtree `t` it is called on:
the pool holds a subtree `t'` at the same root, built from the nodes of `t` and the nodes
added, over the data indices of `t` and the entries added; nodes and entries outside the
subtree are untouched; the depth limit holds; the samples of the range are rearranged among
themselves and routed to the leaves of `t'`. -/
structure StepPost (ops : SampleStatisticsOps α S) (position : σ → Vec3 α) (m : Nat)
    (st st' : BuildState α S D σ) (t t' : Shape α) (d : Nat) (r : Range) : Prop where
  rep : t'.Rep st'.kdTree.m_nodes
  root : t'.root = t.root
  nodeFrame : ∀ j : Nat, j < st.kdTree.m_nodes.length → j ∉ t.indices →
    st'.kdTree.m_nodes[j]? = st.kdTree.m_nodes[j]?
  indices : t'.indices.Perm (t.indices ++
    List.range' st.kdTree.m_nodes.length
      (st'.kdTree.m_nodes.length - st.kdTree.m_nodes.length))
  storageFrame : ∀ j : Nat, j < st.dataStorage.length → j ∉ t.dataIdxs →
    st'.dataStorage[j]? = st.dataStorage[j]?
  dataIdxs : t'.dataIdxs.Perm (t.dataIdxs ++
    List.range' st.dataStorage.length (st'.dataStorage.length - st.dataStorage.length))
  depth : t'.DepthOK d m
  buffer : BufFrame st.samples st'.samples r.start r.stop
  routed : Routed position t' st'.dataStorage st'.samples r
  grows : Grows ops st st'

end StepNotions

section ClaimNotions

variable {α S D σ K : Type} [LinearOrder α]

/-- The states of the builder that arise from a `build` followed by any number of
`updateTree` passes with the same settings, each pass over a buffer of its own. Between two
passes the entries of the storage may be replaced by others, as the fitting of the regions
does, the number of entries being kept. -/
inductive Reachable (ops : SampleStatisticsOps α S) (position : σ → Vec3 α)
    (dflt : Region S D) (bs : Settings) : BuildState α S D σ → Prop where
  | build (bound : BBox α) (st0 st : BuildState α S D σ) :
      build ops position dflt bound bs st0 = some st → Reachable ops position dflt bs st
  | update (st st' : BuildState α S D σ) (buf : List σ) :
      Reachable ops position dflt bs st →
      updateTree ops position bs { st with samples := buf } = some st' →
      Reachable ops position dflt bs st'
  | refit (st : BuildState α S D σ) (storage : List (Region S D × Range)) :
      Reachable ops position dflt bs st →
      storage.length = st.dataStorage.length →
      Reachable ops position dflt bs { st with dataStorage := storage }

/-- The data index of a node that is a leaf. -/
def KDNode.dataIdx? : KDNode α → Option Nat
  | KDNode.leaf d => some d
  | KDNode.inner _ _ _ => none

/-- The data indices held by the leaves of a pool, in pool order. -/
def leafDataIdxs (nodes : List (KDNode α)) : List Nat :=
  nodes.filterMap KDNode.dataIdx?

/-- The leaf cells below node `i` of a pool, as (data index of the leaf, membership test):
the cell of node `i` is `cell`, and an inner node cuts its cell at the split plane, the
points with `p[splitDim] < splitPos` forming the cell of the left child and the others the
cell of the right child. -/
def leafCells (nodes : List (KDNode α)) :
    Nat → Nat → (Vec3 α → Bool) → List (Nat × (Vec3 α → Bool))
  | fuel, i, cell =>
    match nodes[i]? with
    | none => []
    | some (KDNode.leaf d) => [(d, cell)]
    | some (KDNode.inner dim pos l) =>
      match fuel with
      | 0 => []
      | f + 1 =>
        leafCells nodes f l (fun p => cell p && decide (p.get dim < pos)) ++
        leafCells nodes f (l + 1) (fun p => cell p && !decide (p.get dim < pos))

/-- The ranges recorded in a pass agree with the lookup: every sample of the buffer lies in
the range stored at the data index that `getDataIdxAtPos` returns for its position, this
range lies in the buffer, and every sample in it is looked up to the same data index. -/
def RangesConsistent (position : σ → Vec3 α) (st : BuildState α S D σ) : Prop :=
  ∀ (k : Nat) (x : σ), st.samples[k]? = some x →
    ∃ (d : Nat) (e : Region S D × Range),
      st.kdTree.getDataIdxAtPos (position x) = some d ∧ st.dataStorage[d]? = some e ∧
      e.2.start ≤ k ∧ k < e.2.stop ∧ e.2.stop ≤ st.samples.length ∧
      ∀ (k' : Nat) (x' : σ), e.2.start ≤ k' → k' < e.2.stop → st.samples[k']? = some x' →
        st.kdTree.getDataIdxAtPos (position x') = some d

/-- The data indices of the leaves that receive samples in a pass, each once. -/
def reachedLeaves (position : σ → Vec3 α) (st : BuildState α S D σ) : List Nat :=
  (st.samples.filterMap (fun x => st.kdTree.getDataIdxAtPos (position x))).dedup

/-- The size of the range stored at a data index (0 if there is no such entry). -/
def storedSize (storage : List (Region S D × Range)) (d : Nat) : Nat :=
  match storage[d]? with
  | none => 0
  | some e => e.2.size

/-- A call of the public interface of `Field`. -/
inductive FieldCall (α σ : Type) where
  | buildField (bounds : BBox α) (samples : List σ)
  | updateField (samples : List σ)
  | addTrainingIteration (spp : Nat)

/-- Whether a call is a `buildField`. -/
def FieldCall.isBuildField {α σ : Type} : FieldCall α σ → Bool
  | FieldCall.buildField _ _ => true
  | FieldCall.updateField _ => false
  | FieldCall.addTrainingIteration _ => false

/-- The field after one call of the interface. -/
def Field.call (ops : FieldOps α S D σ K) (f : Field α S D K) :
    FieldCall α σ → Option (Field α S D K)
  | FieldCall.buildField bounds samples => (f.buildField ops bounds samples).map Prod.fst
  | FieldCall.updateField samples => (f.updateField ops samples).map Prod.fst
  | FieldCall.addTrainingIteration spp => some (f.addTrainingIteration spp)

/-- The field after a sequence of calls of the interface. -/
def Field.run (ops : FieldOps α S D σ K) : Field α S D K → List (FieldCall α σ) →
    Option (Field α S D K)
  | f, [] => some f
  | f, c :: cs =>
    match f.call ops c with
    | none => none
    | some f1 => Field.run ops f1 cs

/-- The `spp` arguments of the `addTrainingIteration` calls made since the most recent
`buildField` of a sequence of calls (since its start if there is none). -/
def sppSinceBuild : List (FieldCall α σ) → List Nat
  | [] => []
  | c :: cs =>
    if cs.any FieldCall.isBuildField then sppSinceBuild cs
    else
      match c with
      | FieldCall.buildField _ _ => sppSinceBuild cs
      | FieldCall.updateField _ => sppSinceBuild cs
      | FieldCall.addTrainingIteration spp => spp :: sppSinceBuild cs

end ClaimNotions

section PartitionNotions

variable {α S σ : Type}

/-- The statistics of a separate pass over the samples at the offsets `[a, b)` of a buffer:
each of them added once, in buffer order, to cleared statistics. -/
def separatePassStatistics (ops : SampleStatisticsOps α S) (position : σ → Vec3 α)
    (buf : List σ) (a b : Nat) : S :=
  ((buf.drop a).take (b - a)).foldl (fun s x => ops.addSample s (position x))
    (ops.clear ops.init)

end PartitionNotions

section CallNotions

variable {α S D σ : Type} [LinearOrder α]

/-- The recursive update step `updateTreeNode` together with a record of its calls: the
state it leaves and, in the order of the calls, the node index and the depth of every call
of the step made in the recursion (the calls that return at once on an empty range
included). -/
def updateTreeNodeCalls (ops : SampleStatisticsOps α S) (position : σ → Vec3 α)
    (buildSettings : Settings) :
    Nat → BuildState α S D σ → Nat → Nat → Range → S →
      Option (BuildState α S D σ × List (Nat × Nat))
  | fuel, st, node, depth, sampleRange, sampleStats =>
    if sampleRange.size = 0 then some (st, [(node, depth)])
    else
      match fuel with
      | 0 => none
      | fuel + 1 =>
        match visitNode ops buildSettings st node depth sampleRange sampleStats with
        | Visit.fail => none
        | Visit.done st1 => some (st1, [(node, depth)])
        | Visit.descend st1 splitDim splitPos left =>
          let part := pivotSplitSamplesWithStats ops position st1.samples sampleRange.start
            sampleRange.stop splitDim splitPos (ops.clear ops.init) (ops.clear ops.init)
          match updateTreeNodeCalls ops position buildSettings fuel
              { st1 with samples := part.1 } left (depth + 1)
              ⟨sampleRange.start, part.2.1⟩ part.2.2.1 with
          | none => none
          | some resLeft =>
            match updateTreeNodeCalls ops position buildSettings fuel resLeft.1 (left + 1)
                (depth + 1) ⟨part.2.1, sampleRange.stop⟩ part.2.2.2 with
            | none => none
            | some resRight => some (resRight.1, (node, depth) :: (resLeft.2 ++ resRight.2))

/-- The pass `updateTree` together with the record of the calls of the recursive step. -/
def updateTreeCalls (ops : SampleStatisticsOps α S) (position : σ → Vec3 α)
    (buildSettings : Settings) (st : BuildState α S D σ) :
    Option (BuildState α S D σ × List (Nat × Nat)) :=
  match st.kdTree.m_nodes[0]? with
  | none => none
  | some root =>
    updateTreeNodeCalls ops position buildSettings
      (st.kdTree.m_nodes.length + buildSettings.maxDepth + 1) st 0 1
      ⟨0, st.samples.length⟩ (rootStatistics ops position root st.samples)

end CallNotions

section ScheduleNotions

variable {α S D σ K : Type} [LinearOrder α]

/-- The recursive update step `updateTreeNode` under another schedule that the
`omp task` on the call for the left child permits: the task is deferred, and it runs when
the call for the right child has returned. The arguments of both calls are computed before
either runs, as in the source. -/
def updateTreeNodeRightFirst (ops : SampleStatisticsOps α S) (position : σ → Vec3 α)
    (buildSettings : Settings) :
    Nat → BuildState α S D σ → Nat → Nat → Range → S → Option (BuildState α S D σ)
  | fuel, st, node, depth, sampleRange, sampleStats =>
    if sampleRange.size = 0 then some st
    else
      match fuel with
      | 0 => none
      | fuel + 1 =>
        match visitNode ops buildSettings st node depth sampleRange sampleStats with
        | Visit.fail => none
        | Visit.done st1 => some st1
        | Visit.descend st1 splitDim splitPos left =>
          let part := pivotSplitSamplesWithStats ops position st1.samples sampleRange.start
            sampleRange.stop splitDim splitPos (ops.clear ops.init) (ops.clear ops.init)
          match updateTreeNodeRightFirst ops position buildSettings fuel
              { st1 with samples := part.1 } (left + 1) (depth + 1)
              ⟨part.2.1, sampleRange.stop⟩ part.2.2.2 with
          | none => none
          | some st2 =>
            updateTreeNodeRightFirst ops position buildSettings fuel st2 left (depth + 1)
              ⟨sampleRange.start, part.2.1⟩ part.2.2.1

/-- The pass `updateTree` with the deferred tasks run as in `updateTreeNodeRightFirst`. -/
def updateTreeRightFirst (ops : SampleStatisticsOps α S) (position : σ → Vec3 α)
    (buildSettings : Settings) (st : BuildState α S D σ) : Option (BuildState α S D σ) :=
  match st.kdTree.m_nodes[0]? with
  | none => none
  | some root =>
    updateTreeNodeRightFirst ops position buildSettings
      (st.kdTree.m_nodes.length + buildSettings.maxDepth + 1) st 0 1
      ⟨0, st.samples.length⟩ (rootStatistics ops position root st.samples)

/-- The first pass `build` with the deferred tasks run as in `updateTreeNodeRightFirst`. -/
def buildRightFirst (ops : SampleStatisticsOps α S) (position : σ → Vec3 α) (dflt : Region S D)
    (bound : BBox α) (buildSettings : Settings) (st : BuildState α S D σ) :
    Option (BuildState α S D σ) :=
  if buildSettings.maxSamples = 0 then none
  else
    updateTreeRightFirst ops position buildSettings
      { st with kdTree := KDTree.init bound,
                dataStorage := resizeOne (dflt, ⟨0, 0⟩) st.dataStorage }

/-- The call `buildField(bounds, samples)` with the deferred tasks of the builder run as in
`updateTreeNodeRightFirst`. -/
def Field.buildFieldRightFirst (ops : FieldOps α S D σ K) (f : Field α S D K)
    (bounds : BBox α) (samples : List σ) : Option (Field α S D K × List σ) :=
  let f1 := { f with m_iteration := 0, m_totalSPP := 0 }
  match buildRightFirst ops.stats ops.position ops.defaultRegion bounds
      f1.m_spatialSubdivBuilderSettings
      ⟨f1.m_spatialSubdiv, f1.m_regionStorageContainer, f1.prepare ops samples⟩ with
  | none => none
  | some st =>
    some ({ f1 with
            m_spatialSubdiv := st.kdTree
            m_regionStorageContainer := ops.fitRegions st.dataStorage st.samples
            m_regionKNNSearchTree :=
              if f1.m_useStochasticNNLookUp then ops.buildRegionSearchTree st.dataStorage
              else f1.m_regionKNNSearchTree },
          st.samples)

end ScheduleNotions

/-! ## A concrete instance: exact statistics over the rationals -/

/-- Modelled from the spec: `RunningStatistics`, "count, running mean, running variance
(per axis)", here with the sum of squared deviations `m2` from which the variance is read. -/
structure RunningStatistics where
  count : ℚ
  mean : Vec3 ℚ
  m2 : Vec3 ℚ
deriving DecidableEq

/-- Modelled from the spec: the operations of `RunningStatistics`: `addSample` is the
incremental mean/variance update, `decay(factor)` scales the count (and the accumulated
deviations with it) and keeps the mean. All arithmetic is exact: a size is converted to
the count type without rounding and the sum of two counts is their sum. -/
def exactStatistics : SampleStatisticsOps ℚ RunningStatistics where
  init := ⟨0, ⟨0, 0, 0⟩, ⟨0, 0, 0⟩⟩
  clear := fun _ => ⟨0, ⟨0, 0, 0⟩, ⟨0, 0, 0⟩⟩
  addSample := fun s p =>
    let n := s.count + 1
    let mean : Vec3 ℚ :=
      ⟨s.mean.x + (p.x - s.mean.x) / n, s.mean.y + (p.y - s.mean.y) / n,
        s.mean.z + (p.z - s.mean.z) / n⟩
    ⟨n, mean,
      ⟨s.m2.x + (p.x - s.mean.x) * (p.x - mean.x), s.m2.y + (p.y - s.mean.y) * (p.y - mean.y),
        s.m2.z + (p.z - s.mean.z) * (p.z - mean.z)⟩⟩
  numSamples := fun s => s.count
  sizeToCount := fun n => n
  addCounts := fun a b => a + b
  decay := fun s a => ⟨s.count * a, s.mean, ⟨s.m2.x * a, s.m2.y * a, s.m2.z * a⟩⟩
  getMean := fun s => s.mean
  getVaraince := fun s => ⟨s.m2.x / s.count, s.m2.y / s.count, s.m2.z / s.count⟩

/-- The number of binary digits of a natural number (`fuel` bounds the digits counted). -/
def bitLengthAux : Nat → Nat → Nat
  | 0, _ => 0
  | fuel + 1, n => if n = 0 then 0 else bitLengthAux fuel (n / 2) + 1

/-- The number of binary digits of a natural number. -/
def bitLength (n : Nat) : Nat := bitLengthAux n n

/-- The power of two with an integer exponent. -/
def twoPow (e : Int) : ℚ :=
  if 0 ≤ e then (2 : ℚ) ^ e.toNat else 1 / (2 : ℚ) ^ (-e).toNat

/-- Modelled from the spec: the rounding of binary floating-point arithmetic, to the
nearest number with `prec` significant binary digits, a tie going to the number whose last
digit is even. The range of the exponent is not limited (no overflow, no subnormal
numbers). `l` is the exponent of the leading digit of `|q|`, `m` and `f` are the integer
and the fractional part of `|q|` scaled to `prec` digits before the point. -/
def roundNearestEven (prec : Nat) (q : ℚ) : ℚ :=
  if q = 0 then 0
  else
    let a := |q|
    let c : Int := (bitLength a.num.toNat : Int) - (bitLength a.den : Int)
    let l : Int := if twoPow c ≤ a then c else c - 1
    let e : Int := l + 1 - (prec : Int)
    let t : ℚ := a / twoPow e
    let m : Int := Rat.floor t
    let f : ℚ := t - m
    let r : Int := if f < 1 / 2 then m else if f = 1 / 2 ∧ m % 2 = 0 then m else m + 1
    (if q < 0 then -1 else 1) * (r : ℚ) * twoPow e

/-- Modelled from the spec: `RunningStatistics` whose count is a single-precision number
(`float`, 24 significant binary digits), as the factor of `decay(0.5f)` is: the conversion
of a size to the count type and the sum of two counts are rounded. The other operations
are those of `exactStatistics`. -/
def floatStatistics : SampleStatisticsOps ℚ RunningStatistics :=
  { exactStatistics with
    sizeToCount := fun n => roundNearestEven 24 n
    addCounts := fun a b => roundNearestEven 24 (a + b) }

/-- The lexicographic comparison of positions, as `operator<` of the samples. -/
def lexLess (a b : Vec3 ℚ) : Bool :=
  decide (a.x < b.x) || (decide (a.x = b.x) &&
    (decide (a.y < b.y) || (decide (a.y = b.y) && decide (a.z < b.z))))

/-- Collaborators for the examples: samples are bare positions, the region payload counts
the fits, both hooks refit every region, and the search tree is the list of the storage
indices and always answers with region 0. -/
def exampleOps : FieldOps ℚ RunningStatistics Nat (Vec3 ℚ) (List Nat) where
  stats := exactStatistics
  position := id
  less := lexLess
  defaultRegion := ⟨exactStatistics.init, 0⟩
  fitRegions := fun storage _ => storage.map (fun e => (⟨e.1.sampleStatistics, e.1.payload + 1⟩, e.2))
  updateRegions := fun storage _ =>
    storage.map (fun e => (⟨e.1.sampleStatistics, e.1.payload + 1⟩, e.2))
  emptySearchTree := []
  buildRegionSearchTree := fun storage => List.range storage.length
  sampleClosestRegionIdx := fun _ _ _ => 0

/-- The unit cube. -/
def unitCube : BBox ℚ := ⟨⟨0, 0, 0⟩, ⟨1, 1, 1⟩⟩

/-- Five sample positions in the unit cube. -/
def exampleSamples : List (Vec3 ℚ) :=
  [⟨1 / 2, 1 / 4, 1 / 4⟩, ⟨1 / 8, 1 / 2, 3 / 4⟩, ⟨7 / 8, 1 / 8, 1 / 2⟩, ⟨3 / 8, 3 / 4, 1 / 8⟩,
    ⟨3 / 4, 1 / 2, 1 / 2⟩]

/-- Builder settings for the examples: at most 2 samples per leaf, depth limit 4. -/
def exampleBuildSettings : Settings := { minSamples := 1, maxSamples := 2, maxDepth := 4 }

/-- Field settings for the examples: deterministic mode, no stochastic lookup. -/
def exampleSettings : FieldSettings :=
  { spatialSubdivBuilderSettings := exampleBuildSettings, deterministic := true }

/-- A field as constructed, before any build. -/
def exampleFresh : Field ℚ RunningStatistics Nat (List Nat) :=
  Field.create exampleOps exampleSettings (KDTree.init unitCube)

/-- The field after `buildField` over the example samples and one `addTrainingIteration`. -/
def exampleField : Field ℚ RunningStatistics Nat (List Nat) :=
  match exampleFresh.buildField exampleOps unitCube exampleSamples with
  | none => exampleFresh
  | some res => res.1.addTrainingIteration 4

/-- The builder state before the first pass of the examples. -/
def exampleState0 : BuildState ℚ RunningStatistics Nat (Vec3 ℚ) :=
  ⟨KDTree.init unitCube, [], exampleSamples⟩

/-- The builder state after `build` over the example samples. -/
def exampleState1 : BuildState ℚ RunningStatistics Nat (Vec3 ℚ) :=
  match build exactStatistics id exampleOps.defaultRegion unitCube exampleBuildSettings
      exampleState0 with
  | none => exampleState0
  | some st => st

/-- The builder state of the examples as `build` hands it to the first pass: a single root
leaf and one default-constructed storage entry. -/
def exampleStateInit : BuildState ℚ RunningStatistics Nat (Vec3 ℚ) :=
  ⟨KDTree.init unitCube, [(exampleOps.defaultRegion, ⟨0, 0⟩)], exampleSamples⟩

/-- A sequence of calls: an iteration, the build, an iteration, an update, an iteration. -/
def exampleCalls : List (FieldCall ℚ (Vec3 ℚ)) :=
  [FieldCall.addTrainingIteration 3, FieldCall.buildField unitCube exampleSamples,
    FieldCall.addTrainingIteration 4, FieldCall.updateField exampleSamples,
    FieldCall.addTrainingIteration 5]

/-- Collaborators whose two hooks merge the number of samples of the recorded range into
the sample count of each region (and are those of `exampleOps` otherwise). -/
def countingOps : FieldOps ℚ RunningStatistics Nat (Vec3 ℚ) (List Nat) :=
  { exampleOps with
    fitRegions := fun storage _ =>
      storage.map (fun e =>
        (⟨{ e.1.sampleStatistics with count := e.1.sampleStatistics.count + e.2.size },
          e.1.payload⟩, e.2))
    updateRegions := fun storage _ =>
      storage.map (fun e =>
        (⟨{ e.1.sampleStatistics with count := e.1.sampleStatistics.count + e.2.size },
          e.1.payload⟩, e.2)) }

/-- Field settings with at most 2 samples per leaf, depth limit 2 and the default
`decayOnSpatialSplit` of 1/4. -/
def countedSettings : FieldSettings :=
  { spatialSubdivBuilderSettings := { minSamples := 1, maxSamples := 2, maxDepth := 2 } }

/-- A field as constructed with `countedSettings`. -/
def countedFresh : Field ℚ RunningStatistics Nat (List Nat) :=
  Field.create countingOps countedSettings (KDTree.init unitCube)

/-- The field after `buildField` over the first two example samples: a single root leaf
whose region counts 2 samples. -/
def countedField : Field ℚ RunningStatistics Nat (List Nat) :=
  match countedFresh.buildField countingOps unitCube (exampleSamples.take 2) with
  | none => countedFresh
  | some res => res.1

/-- Builder settings with the depth limit 0. -/
def zeroDepthSettings : Settings := { minSamples := 1, maxSamples := 2, maxDepth := 0 }

/-- The builder state after `build` over the example samples with the depth limit 0. -/
def zeroDepthState : BuildState ℚ RunningStatistics Nat (Vec3 ℚ) :=
  match build exactStatistics id exampleOps.defaultRegion unitCube zeroDepthSettings
      exampleState0 with
  | none => exampleState0
  | some st => st


/-- Builder settings with at most 2 samples per leaf and the depth limit 3. -/
def spineSettings : Settings := { minSamples := 1, maxSamples := 2, maxDepth := 3 }

/-- A fresh builder state holding three samples at the centre of the unit cube. -/
def spineState0 : BuildState ℚ RunningStatistics Nat (Vec3 ℚ) :=
  ⟨KDTree.init unitCube, [], List.replicate 3 ⟨1 / 2, 1 / 2, 1 / 2⟩⟩

/-- Builder settings with `maxSamples = 0` and the depth limit 2. -/
def zeroSamplesSettings : Settings := { minSamples := 0, maxSamples := 0, maxDepth := 2 }

/-- Builder settings with at most `2^24` samples per leaf and the depth limit 2. -/
def floatSettings : Settings := { minSamples := 1, maxSamples := 16777216, maxDepth := 2 }

/-- A builder state with a single root leaf whose region counts `2^24` samples, and a
buffer of one sample. -/
def floatLeafState : BuildState ℚ RunningStatistics Nat (Vec3 ℚ) :=
  ⟨KDTree.init unitCube,
    [(⟨⟨16777216, ⟨1 / 2, 1 / 2, 1 / 2⟩, ⟨0, 0, 0⟩⟩, 0⟩, ⟨0, 0⟩)],
    [⟨1 / 4, 1 / 4, 1 / 4⟩]⟩

/-- Field settings in deterministic mode with at most 1 sample per leaf and the depth
limit 3. -/
def scheduleSettings : FieldSettings :=
  { spatialSubdivBuilderSettings := { minSamples := 1, maxSamples := 1, maxDepth := 3 },
    deterministic := true }

/-- A field as constructed with `scheduleSettings`. -/
def scheduleFresh : Field ℚ RunningStatistics Nat (List Nat) :=
  Field.create exampleOps scheduleSettings (KDTree.init unitCube)
/-! # Theorems -/

set_option linter.unusedSectionVars false

/-! ## The library partition -/

section
variable {σ T : Type}

theorem stdPartition_perm (pred : σ → T → Bool × T) :
    ∀ (n : Nat) (hole : Option σ) (mid L R : List σ) (t : T),
      ((stdPartition pred n hole mid L R t).1 ++ (stdPartition pred n hole mid L R t).2.1).Perm
        (L ++ (hole.toList ++ mid ++ R)) := by
  intro n
  induction n with
  | zero => intro hole mid L R t; simp [stdPartition]
  | succ n ih =>
    intro hole mid L R t
    cases hole with
    | none =>
      cases mid with
      | nil => simp [stdPartition]
      | cons x rest =>
        simp only [stdPartition]
        split
        · refine (ih none rest (L ++ [x]) R _).trans ?_
          simp
        · refine (ih (some x) rest L R _).trans ?_
          simp
    | some x =>
      simp only [stdPartition]
      cases hlast : mid.getLast? with
      | none =>
        have : mid = [] := List.getLast?_eq_none_iff.mp hlast
        subst this
        simp
      | some y =>
        have hmid : mid = mid.dropLast ++ [y] :=
          (List.dropLast_append_getLast? y hlast).symm
        simp only
        split
        · refine (ih none mid.dropLast (L ++ [y]) (x :: R) _).trans ?_
          conv_rhs => rw [hmid]
          simp only [Option.toList, List.nil_append, List.append_assoc, List.singleton_append,
            List.cons_append]
          refine List.Perm.append_left L ?_
          exact ((List.perm_middle.cons y).trans (List.Perm.swap _ _ _)).trans
            (List.perm_middle.symm.cons x)
        · refine (ih (some x) mid.dropLast L (y :: R) _).trans ?_
          conv_rhs => rw [hmid]
          simp

theorem stdPartition_sides (pred : σ → T → Bool × T) (p : σ → Bool)
    (hp : ∀ x t, (pred x t).1 = p x) :
    ∀ (n : Nat) (hole : Option σ) (mid L R : List σ) (t : T),
      mid.length + 1 ≤ n →
      (∀ x ∈ L, p x = true) → (∀ x ∈ hole, p x = false) → (∀ x ∈ R, p x = false) →
      (∀ x ∈ (stdPartition pred n hole mid L R t).1, p x = true) ∧
      (∀ x ∈ (stdPartition pred n hole mid L R t).2.1, p x = false) := by
  intro n
  induction n with
  | zero => intro hole mid L R t hn; omega
  | succ n ih =>
    intro hole mid L R t hn hL hh hR
    cases hole with
    | none =>
      cases mid with
      | nil => simpa [stdPartition] using ⟨hL, hR⟩
      | cons x rest =>
        simp only [stdPartition]
        have hlen : rest.length + 1 ≤ n := by simpa using hn
        split
        next h =>
          rw [hp] at h
          refine ih none rest (L ++ [x]) R _ hlen ?_ (by simp) hR
          intro z hz
          rcases List.mem_append.mp hz with hz | hz
          · exact hL z hz
          · simp only [List.mem_singleton] at hz; subst hz; exact h
        next h =>
          rw [hp] at h
          refine ih (some x) rest L R _ hlen hL ?_ hR
          intro z hz
          simp only [Option.mem_def, Option.some.injEq] at hz
          subst hz; simpa using h
    | some x =>
      have hx : p x = false := hh x rfl
      simp only [stdPartition]
      cases hlast : mid.getLast? with
      | none =>
        simp only
        refine ⟨hL, ?_⟩
        intro z hz
        rcases List.mem_cons.mp hz with hz | hz
        · subst hz; exact hx
        · exact hR z hz
      | some y =>
        have hmid : mid = mid.dropLast ++ [y] :=
          (List.dropLast_append_getLast? y hlast).symm
        have hlen : mid.dropLast.length + 1 ≤ n := by
          have : mid.length = mid.dropLast.length + 1 := by
            conv_lhs => rw [hmid]
            simp
          omega
        simp only
        split
        next h =>
          rw [hp] at h
          refine ih none mid.dropLast (L ++ [y]) (x :: R) _ hlen ?_ (by simp) ?_
          · intro z hz
            rcases List.mem_append.mp hz with hz | hz
            · exact hL z hz
            · simp only [List.mem_singleton] at hz; subst hz; exact h
          · intro z hz
            rcases List.mem_cons.mp hz with hz | hz
            · subst hz; exact hx
            · exact hR z hz
        next h =>
          rw [hp] at h
          refine ih (some x) mid.dropLast L (y :: R) _ hlen hL hh ?_
          intro z hz
          rcases List.mem_cons.mp hz with hz | hz
          · subst hz; simpa using h
          · exact hR z hz

end
/-! ## Growth of the state -/

section
variable {α S D σ : Type} [LinearOrder α]

theorem decayTimes_zero (ops : SampleStatisticsOps α S) (region : Region S D) :
    decayTimes ops 0 region = region := by
  simp [decayTimes]

theorem decayTimes_add (ops : SampleStatisticsOps α S) (a b : Nat) (region : Region S D) :
    decayTimes ops a (decayTimes ops b region) = decayTimes ops (a + b) region := by
  simp [decayTimes, Function.iterate_add_apply]

theorem Grows.growsRefl (ops : SampleStatisticsOps α S) (st : BuildState α S D σ) :
    Grows ops st st where
  bounds := rfl
  nodeCount := le_rfl
  innerKept := fun _ _ _ _ h => h
  leafKept := fun _ _ h => Or.inl h
  storageSize := le_rfl
  entryKept := fun _ e h => ⟨e, 0, h, (decayTimes_zero ops e.1).symm⟩
  bufferSize := rfl

theorem Grows.growsTrans {ops : SampleStatisticsOps α S} {a b c : BuildState α S D σ}
    (h1 : Grows ops a b) (h2 : Grows ops b c) : Grows ops a c where
  bounds := h2.bounds.trans h1.bounds
  nodeCount := h1.nodeCount.trans h2.nodeCount
  innerKept := fun j dim pos l h => h2.innerKept j dim pos l (h1.innerKept j dim pos l h)
  leafKept := by
    intro j d h
    rcases h1.leafKept j d h with h' | ⟨dim, pos, l, h'⟩
    · exact h2.leafKept j d h'
    · exact Or.inr ⟨dim, pos, l, h2.innerKept j dim pos l h'⟩
  storageSize := h1.storageSize.trans h2.storageSize
  entryKept := by
    intro j e h
    obtain ⟨e1, k1, he1, hd1⟩ := h1.entryKept j e h
    obtain ⟨e2, k2, he2, hd2⟩ := h2.entryKept j e1 he1
    exact ⟨e2, k2 + k1, he2, by rw [hd2, hd1, decayTimes_add]⟩
  bufferSize := h2.bufferSize.trans h1.bufferSize

/-- Changing only the buffer to one of the same length keeps `Grows`. -/
theorem Grows.withSamples (ops : SampleStatisticsOps α S) (st : BuildState α S D σ)
    (buf : List σ) (h : buf.length = st.samples.length) :
    Grows ops st { st with samples := buf } where
  bounds := rfl
  nodeCount := le_rfl
  innerKept := fun _ _ _ _ h => h
  leafKept := fun _ _ h => Or.inl h
  storageSize := le_rfl
  entryKept := fun _ e h => ⟨e, 0, h, (decayTimes_zero ops e.1).symm⟩
  bufferSize := h

theorem pivotSplit_length (ops : SampleStatisticsOps α S) (position : σ → Vec3 α)
    (samples : List σ) (first last : Nat) (dim : Fin 3) (pivot : α) (sl sr : S) :
    (pivotSplitSamplesWithStats ops position samples first last dim pivot sl sr).1.length
      = samples.length := by
  simp only [pivotSplitSamplesWithStats]
  have hperm := (stdPartition_perm (pivotSplitPredicate ops position dim pivot)
    ((List.take (last - first) (List.drop first samples)).length + 1) none
    (List.take (last - first) (List.drop first samples)) [] [] (sl, sr)).length_eq
  simp only [List.length_append, List.length_take, List.length_drop, List.length_nil,
    Option.toList, Nat.zero_add, Nat.add_zero] at hperm ⊢
  omega

theorem pivotSplit_spec (ops : SampleStatisticsOps α S) (position : σ → Vec3 α)
    (samples : List σ) (first last : Nat) (dim : Fin 3) (pivot : α) (sl sr : S)
    (h1 : first ≤ last) (h2 : last ≤ samples.length) :
    ∃ pre mid L R post : List σ,
      samples = pre ++ mid ++ post ∧
      (pivotSplitSamplesWithStats ops position samples first last dim pivot sl sr).1
        = pre ++ (L ++ R) ++ post ∧
      (pivotSplitSamplesWithStats ops position samples first last dim pivot sl sr).2.1
        = first + L.length ∧
      pre.length = first ∧ first + mid.length = last ∧ (L ++ R).Perm mid ∧
      (∀ x ∈ L, (position x).get dim < pivot) ∧
      (∀ x ∈ R, ¬ (position x).get dim < pivot) := by
  have hlen : (List.take (last - first) (List.drop first samples)).length = last - first := by
    simp only [List.length_take, List.length_drop]; omega
  have hsides := stdPartition_sides (pivotSplitPredicate ops position dim pivot)
    (fun x => decide ((position x).get dim < pivot))
    (by intro x t; simp only [pivotSplitPredicate]; split <;> rfl)
    ((List.take (last - first) (List.drop first samples)).length + 1) none
    (List.take (last - first) (List.drop first samples)) [] [] (sl, sr) le_rfl
    (by simp) (by simp) (by simp)
  have hperm := stdPartition_perm (pivotSplitPredicate ops position dim pivot)
    ((List.take (last - first) (List.drop first samples)).length + 1) none
    (List.take (last - first) (List.drop first samples)) [] [] (sl, sr)
  refine ⟨samples.take first, (samples.drop first).take (last - first), _, _,
    samples.drop (first + (List.take (last - first) (List.drop first samples)).length),
    ?_, rfl, rfl, ?_, ?_, ?_, ?_, ?_⟩
  · rw [hlen, List.append_assoc]
    have : first + (last - first) = last := by omega
    rw [this]
    conv_lhs => rw [← List.take_append_drop first samples]
    congr 1
    conv_lhs => rw [← List.take_append_drop (last - first) (List.drop first samples)]
    congr 1
    rw [List.drop_drop, this]
  · simp only [List.length_take]; omega
  · rw [hlen]; omega
  · simpa using hperm
  · intro x hx; simpa using hsides.1 x hx
  · intro x hx; simpa using hsides.2 x hx

theorem splitLeaf_nodes_get (ops : SampleStatisticsOps α S) (st : BuildState α S D σ)
    (node dataIdx : Nat) (entry : Region S D × Range) (stats : S) (j : Nat)
    (hnode : node < st.kdTree.m_nodes.length) :
    (splitLeaf ops st node dataIdx entry stats).1.kdTree.m_nodes[j]? =
      if j = node then
        some (KDNode.inner (getSplitDimensionAndPosition ops stats).1
          (getSplitDimensionAndPosition ops stats).2 st.kdTree.m_nodes.length)
      else if j = st.kdTree.m_nodes.length then some (KDNode.leaf dataIdx)
      else if j = st.kdTree.m_nodes.length + 1 then some (KDNode.leaf st.dataStorage.length)
      else st.kdTree.m_nodes[j]? := by
  simp only [splitLeaf, KDTree.addChildrenPair, List.length_set]
  by_cases h1 : j = node
  · subst h1
    rw [if_pos rfl, List.getElem?_set_ne (by omega), List.getElem?_set_ne (by omega),
      List.getElem?_set_self (by simp; omega)]
  · rw [if_neg h1]
    by_cases h2 : j = st.kdTree.m_nodes.length
    · subst h2
      rw [if_pos rfl, List.getElem?_set_ne (by omega), List.getElem?_set_self (by simp)]
    · rw [if_neg h2]
      by_cases h3 : j = st.kdTree.m_nodes.length + 1
      · subst h3
        rw [if_pos rfl, List.getElem?_set_self (by simp)]
      · rw [if_neg h3, List.getElem?_set_ne (by omega), List.getElem?_set_ne (by omega),
          List.getElem?_set_ne (by omega)]
        by_cases h4 : j < st.kdTree.m_nodes.length
        · rw [List.getElem?_append_left h4]
        · rw [List.getElem?_eq_none (by simp; omega), List.getElem?_eq_none (by omega)]

theorem splitLeaf_nodes_length (ops : SampleStatisticsOps α S) (st : BuildState α S D σ)
    (node dataIdx : Nat) (entry : Region S D × Range) (stats : S) :
    (splitLeaf ops st node dataIdx entry stats).1.kdTree.m_nodes.length =
      st.kdTree.m_nodes.length + 2 := by
  simp [splitLeaf, KDTree.addChildrenPair]

theorem splitLeaf_storage_length (ops : SampleStatisticsOps α S) (st : BuildState α S D σ)
    (node dataIdx : Nat) (entry : Region S D × Range) (stats : S) :
    (splitLeaf ops st node dataIdx entry stats).1.dataStorage.length =
      st.dataStorage.length + 1 := by
  simp [splitLeaf]

theorem splitLeaf_storage_get (ops : SampleStatisticsOps α S) (st : BuildState α S D σ)
    (node dataIdx : Nat) (entry : Region S D × Range) (stats : S) (j : Nat)
    (hd : dataIdx < st.dataStorage.length) :
    (splitLeaf ops st node dataIdx entry stats).1.dataStorage[j]? =
      if j = dataIdx ∨ j = st.dataStorage.length then
        some (decayTimes ops 1 entry.1, entry.2)
      else st.dataStorage[j]? := by
  simp only [splitLeaf, List.length_set, decayTimes, Function.iterate_one]
  by_cases h1 : j = dataIdx
  · subst h1
    rw [if_pos (Or.inl rfl), List.getElem?_append_left (by simpa using hd),
      List.getElem?_set_self hd]
  · by_cases h2 : j = st.dataStorage.length
    · subst h2
      rw [if_pos (Or.inr rfl), List.getElem?_append_right (by simp)]
      simp
    · rw [if_neg (by tauto)]
      by_cases h4 : j < st.dataStorage.length
      · rw [List.getElem?_append_left (by simpa using h4), List.getElem?_set_ne (by omega)]
      · rw [List.getElem?_eq_none (by simp; omega), List.getElem?_eq_none (by omega)]

theorem splitLeaf_rest (ops : SampleStatisticsOps α S) (st : BuildState α S D σ)
    (node dataIdx : Nat) (entry : Region S D × Range) (stats : S) :
    (splitLeaf ops st node dataIdx entry stats).1.samples = st.samples ∧
    (splitLeaf ops st node dataIdx entry stats).1.kdTree.bounds = st.kdTree.bounds ∧
    (splitLeaf ops st node dataIdx entry stats).2.1 = (getSplitDimensionAndPosition ops stats).1 ∧
    (splitLeaf ops st node dataIdx entry stats).2.2.1 = (getSplitDimensionAndPosition ops stats).2 ∧
    (splitLeaf ops st node dataIdx entry stats).2.2.2 = st.kdTree.m_nodes.length := by
  simp [splitLeaf, KDTree.addChildrenPair]

theorem splitLeaf_grows (ops : SampleStatisticsOps α S) (st : BuildState α S D σ)
    (node dataIdx : Nat) (entry : Region S D × Range) (stats : S)
    (hn : st.kdTree.m_nodes[node]? = some (KDNode.leaf dataIdx))
    (he : st.dataStorage[dataIdx]? = some entry) :
    Grows ops st (splitLeaf ops st node dataIdx entry stats).1 := by
  have hnode : node < st.kdTree.m_nodes.length := by
    by_contra hc
    rw [List.getElem?_eq_none (by omega)] at hn
    exact absurd hn (by simp)
  have hd : dataIdx < st.dataStorage.length := by
    by_contra hc
    rw [List.getElem?_eq_none (by omega)] at he
    exact absurd he (by simp)
  have hlt : ∀ (j : Nat) (x : KDNode α), st.kdTree.m_nodes[j]? = some x →
      j < st.kdTree.m_nodes.length := by
    intro j x hj
    by_contra hc
    rw [List.getElem?_eq_none (by omega)] at hj
    exact absurd hj (by simp)
  refine ⟨(splitLeaf_rest ops st node dataIdx entry stats).2.1, ?_, ?_, ?_, ?_, ?_,
    by rw [(splitLeaf_rest ops st node dataIdx entry stats).1]⟩
  · rw [splitLeaf_nodes_length]; omega
  · intro j dim pos l hj
    have hjlt := hlt j _ hj
    have hjn : j ≠ node := by
      intro hc; subst hc; rw [hn] at hj; exact absurd hj (by simp)
    rw [splitLeaf_nodes_get ops st node dataIdx entry stats j hnode, if_neg hjn,
      if_neg (by omega), if_neg (by omega)]
    exact hj
  · intro j d hj
    have hjlt := hlt j _ hj
    rw [splitLeaf_nodes_get ops st node dataIdx entry stats j hnode]
    by_cases hjn : j = node
    · rw [if_pos hjn]; exact Or.inr ⟨_, _, _, rfl⟩
    · rw [if_neg hjn, if_neg (by omega), if_neg (by omega)]; exact Or.inl hj
  · rw [splitLeaf_storage_length]; omega
  · intro j e hj
    rw [splitLeaf_storage_get ops st node dataIdx entry stats j hd]
    by_cases hjd : j = dataIdx
    · subst hjd
      rw [he] at hj
      have : entry = e := by simpa using hj
      subst this
      exact ⟨_, 1, by rw [if_pos (Or.inl rfl)], rfl⟩
    · have hjl : j < st.dataStorage.length := by
        by_contra hc
        rw [List.getElem?_eq_none (by omega)] at hj
        exact absurd hj (by simp)
      exact ⟨e, 0, by rw [if_neg (by omega)]; exact hj, (decayTimes_zero ops e.1).symm⟩

theorem visitNode_done_grows (ops : SampleStatisticsOps α S) (buildSettings : Settings)
    (st st1 : BuildState α S D σ) (node depth : Nat) (r : Range) (stats : S)
    (h : visitNode ops buildSettings st node depth r stats = Visit.done st1) :
    Grows ops st st1 := by
  simp only [visitNode] at h
  split at h
  · exact absurd h (by simp)
  · rename_i dataIdx hn
    split at h
    · exact absurd h (by simp)
    · rename_i entry he
      split at h
      · exact absurd h (by simp)
      · have hst : st1 = { st with dataStorage := st.dataStorage.set dataIdx (entry.1, r) } := by
          simpa using h.symm
        subst hst
        refine ⟨rfl, le_rfl, fun _ _ _ _ h => h, fun _ _ h => Or.inl h, by simp, ?_, rfl⟩
        intro j e hj
        by_cases hjd : j = dataIdx
        · subst hjd
          rw [he] at hj
          have : entry = e := by simpa using hj
          subst this
          have hd : j < st.dataStorage.length := by
            by_contra hc
            rw [List.getElem?_eq_none (by omega)] at he
            exact absurd he (by simp)
          exact ⟨(entry.1, r), 0, by simp only; rw [List.getElem?_set_self hd],
            (decayTimes_zero ops entry.1).symm⟩
        · exact ⟨e, 0, by simp only; rw [List.getElem?_set_ne (by omega)]; exact hj,
            (decayTimes_zero ops e.1).symm⟩
  · exact absurd h (by simp)

theorem visitNode_descend_grows (ops : SampleStatisticsOps α S) (buildSettings : Settings)
    (st st1 : BuildState α S D σ) (node depth : Nat) (r : Range) (stats : S)
    (dim : Fin 3) (pos : α) (left : Nat)
    (h : visitNode ops buildSettings st node depth r stats = Visit.descend st1 dim pos left) :
    Grows ops st st1 := by
  simp only [visitNode] at h
  split at h
  · exact absurd h (by simp)
  · rename_i dataIdx hn
    split at h
    · exact absurd h (by simp)
    · rename_i entry he
      split at h
      · have hst : st1 = (splitLeaf ops st node dataIdx entry stats).1 := by
          simp only [Visit.descend.injEq] at h
          exact h.1.symm
        subst hst
        exact splitLeaf_grows ops st node dataIdx entry stats hn he
      · exact absurd h (by simp)
  · have hst : st1 = st := by
      simp only [Visit.descend.injEq] at h
      exact h.1.symm
    subst hst
    exact Grows.growsRefl ops _

theorem updateTreeNode_grows (ops : SampleStatisticsOps α S) (position : σ → Vec3 α)
    (buildSettings : Settings) :
    ∀ (fuel : Nat) (st st' : BuildState α S D σ) (node depth : Nat) (r : Range) (stats : S),
      updateTreeNode ops position buildSettings fuel st node depth r stats = some st' →
      Grows ops st st' := by
  intro fuel
  induction fuel with
  | zero =>
    intro st st' node depth r stats h
    unfold updateTreeNode at h
    split at h
    · have : st' = st := by simpa using h.symm
      subst this; exact Grows.growsRefl ops _
    · exact absurd h (by simp)
  | succ fuel ih =>
    intro st st' node depth r stats h
    unfold updateTreeNode at h
    split at h
    · have : st' = st := by simpa using h.symm
      subst this; exact Grows.growsRefl ops _
    · simp only at h
      split at h
      · exact absurd h (by simp)
      · rename_i st1 hv
        have : st' = st1 := by simpa using h.symm
        subst this
        exact visitNode_done_grows ops buildSettings st st' node depth r stats hv
      · rename_i st1 dim pos left hv
        have g1 := visitNode_descend_grows ops buildSettings st st1 node depth r stats dim pos
          left hv
        split at h
        · exact absurd h (by simp)
        · rename_i st2 h2
          have g2 := ih _ _ _ _ _ _ h2
          have g3 := ih _ _ _ _ _ _ h
          have g0 : Grows ops st1 { st1 with samples :=
              (pivotSplitSamplesWithStats ops position st1.samples r.start r.stop dim pos
                (ops.clear ops.init) (ops.clear ops.init)).1 } :=
            Grows.withSamples ops st1 _ (pivotSplit_length ops position _ _ _ _ _ _ _)
          exact (g1.growsTrans g0).growsTrans (g2.growsTrans g3)

end

/-! ## Rearrangements of the sample buffer -/

section
variable {σ : Type}

theorem BufFrame.length_eq {buf buf' : List σ} {a b : Nat} (h : BufFrame buf buf' a b) :
    buf'.length = buf.length := by
  obtain ⟨pre, mid, mid', post, h1, h2, -, -, hp⟩ := h
  subst h1 h2
  simp [hp.length_eq]

theorem BufFrame.bound {buf buf' : List σ} {a b : Nat} (h : BufFrame buf buf' a b) :
    a ≤ b ∧ b ≤ buf.length := by
  obtain ⟨pre, mid, mid', post, h1, h2, h3, h4, hp⟩ := h
  subst h1 h2
  simp only [List.length_append]
  omega

theorem BufFrame.frameRefl (buf : List σ) (a b : Nat) (h1 : a ≤ b) (h2 : b ≤ buf.length) :
    BufFrame buf buf a b := by
  refine ⟨buf.take a, (buf.drop a).take (b - a), (buf.drop a).take (b - a), buf.drop b,
    ?_, ?_, ?_, ?_, List.Perm.refl _⟩
  · conv_lhs => rw [← List.take_append_drop a buf]
    rw [List.append_assoc]
    congr 1
    conv_lhs => rw [← List.take_append_drop (b - a) (List.drop a buf)]
    congr 1
    rw [List.drop_drop]
    congr 1
    omega
  · conv_lhs => rw [← List.take_append_drop a buf]
    rw [List.append_assoc]
    congr 1
    conv_lhs => rw [← List.take_append_drop (b - a) (List.drop a buf)]
    congr 1
    rw [List.drop_drop]
    congr 1
    omega
  · simp only [List.length_take]; omega
  · simp only [List.length_take, List.length_drop]; omega

theorem BufFrame.get_outside {buf buf' : List σ} {a b : Nat} (h : BufFrame buf buf' a b)
    (k : Nat) (hk : k < a ∨ b ≤ k) : buf'[k]? = buf[k]? := by
  obtain ⟨pre, mid, mid', post, h1, h2, h3, h4, hp⟩ := h
  subst h1 h2
  have hl := hp.length_eq
  rcases hk with hk | hk
  · rw [List.append_assoc, List.append_assoc, List.getElem?_append_left (by omega),
      List.getElem?_append_left (by omega)]
  · rw [List.getElem?_append_right (by simp only [List.length_append]; omega),
      List.getElem?_append_right (by simp only [List.length_append]; omega)]
    simp only [List.length_append, hl]

theorem BufFrame.forall_in {buf buf' : List σ} {a b : Nat} (h : BufFrame buf buf' a b)
    (P : σ → Prop)
    (hP : ∀ (k : Nat) (x : σ), a ≤ k → k < b → buf[k]? = some x → P x) :
    ∀ (k : Nat) (x : σ), a ≤ k → k < b → buf'[k]? = some x → P x := by
  obtain ⟨pre, mid, mid', post, h1, h2, h3, h4, hp⟩ := h
  subst h1 h2
  have hl := hp.length_eq
  intro k x hk1 hk2 hx
  rw [List.append_assoc, List.getElem?_append_right (by omega),
    List.getElem?_append_left (by omega)] at hx
  have hmem : x ∈ mid := hp.subset (List.mem_iff_getElem?.mpr ⟨_, hx⟩)
  obtain ⟨k0, hk0, hget⟩ := List.getElem_of_mem hmem
  refine hP (pre.length + k0) x (by omega) (by omega) ?_
  rw [List.append_assoc, List.getElem?_append_right (by omega),
    List.getElem?_append_left (by omega)]
  simp only [Nat.add_sub_cancel_left]
  rw [List.getElem?_eq_getElem hk0, hget]

theorem BufFrame.widen {buf buf' : List σ} {a' b' : Nat} (h : BufFrame buf buf' a' b')
    (a b : Nat) (ha : a ≤ a') (hb : b' ≤ b) (hlen : b ≤ buf.length) :
    BufFrame buf buf' a b := by
  obtain ⟨pre, mid, mid', post, h1, h2, h3, h4, hp⟩ := h
  subst h1 h2
  simp only [List.length_append] at hlen
  refine ⟨pre.take a, pre.drop a ++ mid ++ post.take (b - b'),
    pre.drop a ++ mid' ++ post.take (b - b'), post.drop (b - b'), ?_, ?_, ?_, ?_, ?_⟩
  · conv_lhs => rw [← List.take_append_drop a pre, ← List.take_append_drop (b - b') post]
    simp only [List.append_assoc]
  · conv_lhs => rw [← List.take_append_drop a pre, ← List.take_append_drop (b - b') post]
    simp only [List.append_assoc]
  · simp only [List.length_take]; omega
  · simp only [List.length_append, List.length_take, List.length_drop]; omega
  · exact (List.Perm.append_left _ hp).append_right _

theorem BufFrame.frameTrans {buf buf' buf'' : List σ} {a b : Nat} (h : BufFrame buf buf' a b)
    (h' : BufFrame buf' buf'' a b) : BufFrame buf buf'' a b := by
  obtain ⟨pre, mid, mid', post, h1, h2, h3, h4, hp⟩ := h
  obtain ⟨pre2, mid2, mid2', post2, h1', h2', h3', h4', hp'⟩ := h'
  subst h1 h2'
  have hl := hp.length_eq
  rw [h2] at h1'
  rw [List.append_assoc, List.append_assoc] at h1'
  have e1 := List.append_inj h1' (by omega)
  have e2 := List.append_inj e1.2 (by omega)
  refine ⟨pre, mid, mid2', post, rfl, ?_, h3, h4, ?_⟩
  · rw [e1.1, e2.2]
  · exact (e2.1 ▸ hp').trans hp

end

section
variable {α S D σ : Type} [LinearOrder α]

theorem pivotSplit_frame (ops : SampleStatisticsOps α S) (position : σ → Vec3 α)
    (samples : List σ) (first last : Nat) (dim : Fin 3) (pivot : α) (sl sr : S)
    (h1 : first ≤ last) (h2 : last ≤ samples.length) :
    BufFrame samples
      (pivotSplitSamplesWithStats ops position samples first last dim pivot sl sr).1
      first last ∧
    first ≤ (pivotSplitSamplesWithStats ops position samples first last dim pivot sl sr).2.1 ∧
    (pivotSplitSamplesWithStats ops position samples first last dim pivot sl sr).2.1 ≤ last ∧
    (∀ (k : Nat) (x : σ), first ≤ k →
      k < (pivotSplitSamplesWithStats ops position samples first last dim pivot sl sr).2.1 →
      (pivotSplitSamplesWithStats ops position samples first last dim pivot sl sr).1[k]?
        = some x → (position x).get dim < pivot) ∧
    (∀ (k : Nat) (x : σ),
      (pivotSplitSamplesWithStats ops position samples first last dim pivot sl sr).2.1 ≤ k →
      k < last →
      (pivotSplitSamplesWithStats ops position samples first last dim pivot sl sr).1[k]?
        = some x → ¬ (position x).get dim < pivot) := by
  obtain ⟨pre, mid, L, R, post, e1, e2, e3, e4, e5, hperm, hL, hR⟩ :=
    pivotSplit_spec ops position samples first last dim pivot sl sr h1 h2
  have hl := hperm.length_eq
  simp only [List.length_append] at hl
  rw [e2, e3]
  refine ⟨⟨pre, mid, L ++ R, post, e1, rfl, e4, e5, hperm⟩, by omega, by omega, ?_, ?_⟩
  · intro k x hk1 hk2 hx
    rw [List.append_assoc, List.getElem?_append_right (by omega), List.append_assoc,
      List.getElem?_append_left (by omega)] at hx
    exact hL x (List.getElem?_mem hx)
  · intro k x hk1 hk2 hx
    rw [List.append_assoc, List.getElem?_append_right (by omega), List.append_assoc,
      List.getElem?_append_right (by omega), List.getElem?_append_left (by omega)] at hx
    exact hR x (List.getElem?_mem hx)

end

/-! ## Shapes held by a node pool -/

section
variable {α S D σ : Type} [LinearOrder α]

theorem Shape.Rep_congr {nodes nodes' : List (KDNode α)} :
    ∀ (t : Shape α), (∀ j ∈ t.indices, nodes'[j]? = nodes[j]?) → t.Rep nodes → t.Rep nodes' := by
  intro t
  induction t with
  | leaf i d =>
    intro h hr
    simp only [Shape.Rep] at hr ⊢
    rw [h i (by simp [Shape.indices])]; exact hr
  | inner i dim pos l r ihl ihr =>
    intro h hr
    simp only [Shape.Rep] at hr ⊢
    simp only [Shape.indices, List.mem_cons, List.mem_append] at h
    refine ⟨?_, hr.2.1, ihl (fun j hj => h j (Or.inr (Or.inl hj))) hr.2.2.1,
      ihr (fun j hj => h j (Or.inr (Or.inr hj))) hr.2.2.2⟩
    rw [h i (Or.inl rfl)]; exact hr.1

theorem Shape.root_mem_indices (t : Shape α) : t.root ∈ t.indices := by
  cases t <;> simp [Shape.root, Shape.indices]

theorem Shape.locate_mem (p : Vec3 α) : ∀ t : Shape α, t.locate p ∈ t.dataIdxs := by
  intro t
  induction t with
  | leaf i d => simp [Shape.locate, Shape.dataIdxs]
  | inner i dim pos l r ihl ihr =>
    simp only [Shape.locate, Shape.dataIdxs, List.mem_append]
    split
    · exact Or.inl ihl
    · exact Or.inr ihr

theorem get?_lt {β : Type} {l : List β} {j : Nat} {x : β} (h : l[j]? = some x) :
    j < l.length := by
  by_contra hc
  rw [List.getElem?_eq_none (by omega)] at h
  exact absurd h (by simp)

theorem perm_append_range' (A B X : List Nat) (n1 n2 n3 : Nat) (h12 : n1 ≤ n2) (h23 : n2 ≤ n3)
    (hA : X.Perm (A ++ List.range' n1 (n2 - n1))) :
    ∀ Y : List Nat, Y.Perm (B ++ List.range' n2 (n3 - n2)) →
      (X ++ Y).Perm ((A ++ B) ++ List.range' n1 (n3 - n1)) := by
  intro Y hB
  have hr : List.range' n1 (n3 - n1) = List.range' n1 (n2 - n1) ++ List.range' n2 (n3 - n2) := by
    have h := List.range'_append n1 (n2 - n1) (n3 - n2) 1
    rw [show n1 + 1 * (n2 - n1) = n2 by omega] at h
    rw [h, show n3 - n2 + (n2 - n1) = n3 - n1 by omega]
  rw [hr]
  refine (hA.append hB).trans ?_
  simp only [List.append_assoc]
  refine List.Perm.append_left A ?_
  rw [← List.append_assoc, ← List.append_assoc]
  exact List.Perm.append_right _ List.perm_append_comm

theorem mem_range'_one {j n k : Nat} : j ∈ List.range' n k ↔ n ≤ j ∧ j < n + k := by
  rw [List.mem_range'_1]

end

/-! ## The recursive update step on a subtree -/

section
variable {α S D σ : Type} [LinearOrder α]

/-- The two recursive calls of the update step on the children of an inner node, given that
the step works as intended on every subtree with the fuel left. -/
theorem descend_post (ops : SampleStatisticsOps α S) (position : σ → Vec3 α)
    (bs : Settings) (fuel : Nat)
    (IH : ∀ (st : BuildState α S D σ) (t : Shape α) (d : Nat) (r : Range) (stats : S),
      StepPre bs.maxDepth st t d r → 1 ≤ fuel → bs.maxDepth + 1 ≤ fuel + d →
      ∃ st' t', updateTreeNode ops position bs fuel st t.root d r stats = some st' ∧
        StepPost ops position bs.maxDepth st st' t t' d r)
    (st1 : BuildState α S D σ) (i : Nat) (dim : Fin 3) (pos : α) (tl tr : Shape α)
    (d : Nat) (r : Range)
    (pre : StepPre bs.maxDepth st1 (Shape.inner i dim pos tl tr) d r)
    (hfuel : bs.maxDepth + 1 ≤ fuel + 1 + d) (sl sr : S) :
    ∃ st3 t',
      (match updateTreeNode ops position bs fuel
          { st1 with samples :=
            (pivotSplitSamplesWithStats ops position st1.samples r.start r.stop dim pos
              sl sr).1 }
          tl.root (d + 1)
          ⟨r.start, (pivotSplitSamplesWithStats ops position st1.samples r.start r.stop dim pos
              sl sr).2.1⟩
          (pivotSplitSamplesWithStats ops position st1.samples r.start r.stop dim pos
              sl sr).2.2.1 with
        | none => none
        | some st2 =>
          updateTreeNode ops position bs fuel st2 (tl.root + 1) (d + 1)
            ⟨(pivotSplitSamplesWithStats ops position st1.samples r.start r.stop dim pos
              sl sr).2.1, r.stop⟩
            (pivotSplitSamplesWithStats ops position st1.samples r.start r.stop dim pos
              sl sr).2.2.2) = some st3 ∧
      StepPost ops position bs.maxDepth st1 st3 (Shape.inner i dim pos tl tr) t' d r := by
  obtain ⟨hframe, hpv1, hpv2, hleft, hright⟩ :=
    pivotSplit_frame ops position st1.samples r.start r.stop dim pos sl sr
      pre.rangeOrdered pre.rangeInside
  generalize pivotSplitSamplesWithStats ops position st1.samples r.start r.stop dim pos
    sl sr = part at hframe hpv1 hpv2 hleft hright ⊢
  obtain ⟨buf1, pv, statsL, statsR⟩ := part
  simp only at hframe hpv1 hpv2 hleft hright ⊢
  -- unpack the precondition
  have hrep := pre.rep
  simp only [Shape.Rep] at hrep
  obtain ⟨hnode, hroot, hrepl, hrepr⟩ := hrep
  have hnodup := pre.nodup
  simp only [Shape.indices, List.nodup_cons, List.mem_append, not_or, List.nodup_append] at hnodup
  obtain ⟨⟨hil, hir⟩, hnl, hnr, hdisj⟩ := hnodup
  have hbound := pre.bound
  simp only [Shape.indices, List.mem_cons, List.mem_append] at hbound
  have hdn := pre.dataNodup
  simp only [Shape.dataIdxs, List.nodup_append] at hdn
  obtain ⟨hdnl, hdnr, hddisj⟩ := hdn
  have hdb := pre.dataBound
  simp only [Shape.dataIdxs, List.mem_append] at hdb
  have hdepth := pre.depth
  simp only [Shape.DepthOK] at hdepth
  obtain ⟨hdm, hdl, hdr⟩ := hdepth
  have hlen1 : buf1.length = st1.samples.length := hframe.length_eq
  -- the left call
  have preL : StepPre bs.maxDepth { st1 with samples := buf1 } tl (d + 1) ⟨r.start, pv⟩ :=
    { rep := hrepl
      nodup := hnl
      bound := fun j hj => hbound j (Or.inr (Or.inl hj))
      dataNodup := hdnl
      dataBound := fun j hj => hdb j (Or.inl hj)
      depth := hdl
      rangeOrdered := hpv1
      rangeInside := by simp only; have := pre.rangeInside; omega }
  obtain ⟨st2, tl', h2, P2⟩ := IH _ tl (d + 1) ⟨r.start, pv⟩ statsL preL (by omega) (by omega)
  rw [h2]
  simp only
  have hl2 : st1.kdTree.m_nodes.length ≤ st2.kdTree.m_nodes.length := P2.grows.nodeCount
  have hs2 : st1.dataStorage.length ≤ st2.dataStorage.length := P2.grows.storageSize
  have hb2 : st2.samples.length = buf1.length := P2.grows.bufferSize
  -- the right call
  have preR : StepPre bs.maxDepth st2 tr (d + 1) ⟨pv, r.stop⟩ :=
    { rep := by
        refine Shape.Rep_congr tr ?_ hrepr
        intro j hj
        exact P2.nodeFrame j (hbound j (Or.inr (Or.inr hj))) (fun hc => hdisj hc hj)
      nodup := hnr
      bound := fun j hj => lt_of_lt_of_le (hbound j (Or.inr (Or.inr hj))) hl2
      dataNodup := hdnr
      dataBound := fun j hj => lt_of_lt_of_le (hdb j (Or.inr hj)) hs2
      depth := hdr
      rangeOrdered := hpv2
      rangeInside := by simp only; have := pre.rangeInside; omega }
  obtain ⟨st3, tr', h3, P3⟩ := IH st2 tr (d + 1) ⟨pv, r.stop⟩ statsR preR (by omega) (by omega)
  rw [← hroot, h3]
  have hl3 : st2.kdTree.m_nodes.length ≤ st3.kdTree.m_nodes.length := P3.grows.nodeCount
  have hs3 : st2.dataStorage.length ≤ st3.dataStorage.length := P3.grows.storageSize
  have hb3 : st3.samples.length = st2.samples.length := P3.grows.bufferSize
  -- membership in the updated left subtree
  have hmemL : ∀ j ∈ tl'.indices, j < st2.kdTree.m_nodes.length ∧ j ∉ tr.indices := by
    intro j hj
    rcases List.mem_append.mp (P2.indices.subset hj) with hj | hj
    · exact ⟨lt_of_lt_of_le (hbound j (Or.inr (Or.inl hj))) hl2, fun hc => hdisj hj hc⟩
    · rw [mem_range'_one] at hj
      simp only at hj
      refine ⟨by omega, fun hc => ?_⟩
      have := hbound j (Or.inr (Or.inr hc))
      omega
  have hdmemL : ∀ j ∈ tl'.dataIdxs, j < st2.dataStorage.length ∧ j ∉ tr.dataIdxs := by
    intro j hj
    rcases List.mem_append.mp (P2.dataIdxs.subset hj) with hj | hj
    · exact ⟨lt_of_lt_of_le (hdb j (Or.inl hj)) hs2, fun hc => hddisj hj hc⟩
    · rw [mem_range'_one] at hj
      simp only at hj
      refine ⟨by omega, fun hc => ?_⟩
      have := hdb j (Or.inr hc)
      omega
  have hi1 : i < st1.kdTree.m_nodes.length := hbound i (Or.inl rfl)
  refine ⟨st3, Shape.inner i dim pos tl' tr', rfl, ?_⟩
  have f2' : BufFrame buf1 st2.samples r.start pv := P2.buffer
  have f3' : BufFrame st2.samples st3.samples pv r.stop := P3.buffer
  -- samples left of the pivot go left, the others go right, also after the two calls
  have hleft2 : ∀ (k : Nat) (x : σ), r.start ≤ k → k < pv → st2.samples[k]? = some x →
      (position x).get dim < pos :=
    f2'.forall_in (fun x => (position x).get dim < pos) hleft
  have hleft3 : ∀ (k : Nat) (x : σ), r.start ≤ k → k < pv → st3.samples[k]? = some x →
      (position x).get dim < pos := by
    intro k x hk1 hk2 hx
    rw [f3'.get_outside k (Or.inl hk2)] at hx
    exact hleft2 k x hk1 hk2 hx
  have hright2 : ∀ (k : Nat) (x : σ), pv ≤ k → k < r.stop → st2.samples[k]? = some x →
      ¬ (position x).get dim < pos := by
    intro k x hk1 hk2 hx
    rw [f2'.get_outside k (Or.inr hk1)] at hx
    exact hright k x hk1 hk2 hx
  have hright3 : ∀ (k : Nat) (x : σ), pv ≤ k → k < r.stop → st3.samples[k]? = some x →
      ¬ (position x).get dim < pos :=
    f3'.forall_in (fun x => ¬ (position x).get dim < pos) hright2
  refine
    { rep := ?_, root := rfl, nodeFrame := ?_, indices := ?_, storageFrame := ?_,
      dataIdxs := ?_, depth := ?_, buffer := ?_, routed := ?_, grows := ?_ }
  · -- rep
    simp only [Shape.Rep]
    refine ⟨?_, ?_, ?_, P3.rep⟩
    · rw [P3.nodeFrame i (by omega) hir, P2.nodeFrame i hi1 hil, P2.root]
      exact hnode
    · rw [P3.root, P2.root]; exact hroot
    · exact Shape.Rep_congr tl' (fun j hj => P3.nodeFrame j (hmemL j hj).1 (hmemL j hj).2) P2.rep
  · -- nodeFrame
    intro j hj hnot
    simp only [Shape.indices, List.mem_cons, List.mem_append, not_or] at hnot
    rw [P3.nodeFrame j (by omega) hnot.2.2, P2.nodeFrame j hj hnot.2.1]
  · -- indices
    simp only [Shape.indices, List.cons_append]
    exact List.Perm.cons i (perm_append_range' _ _ _ _ _ _ hl2 hl3 P2.indices _ P3.indices)
  · -- storageFrame
    intro j hj hnot
    simp only [Shape.dataIdxs, List.mem_append, not_or] at hnot
    rw [P3.storageFrame j (by omega) hnot.2, P2.storageFrame j hj hnot.1]
  · -- dataIdxs
    simp only [Shape.dataIdxs]
    exact perm_append_range' _ _ _ _ _ _ hs2 hs3 P2.dataIdxs _ P3.dataIdxs
  · -- depth
    simp only [Shape.DepthOK]
    exact ⟨hdm, P2.depth, P3.depth⟩
  · -- buffer
    have f2 : BufFrame buf1 st2.samples r.start r.stop :=
      f2'.widen r.start r.stop le_rfl hpv2 (by have := pre.rangeInside; omega)
    have f3 : BufFrame st2.samples st3.samples r.start r.stop :=
      f3'.widen r.start r.stop hpv1 le_rfl (by have := pre.rangeInside; omega)
    exact (hframe.frameTrans f2).frameTrans f3
  · -- routed
    intro k x hk1 hk2 hx
    by_cases hk : k < pv
    · have hx2 : st2.samples[k]? = some x := by
        rw [← f3'.get_outside k (Or.inl hk)]; exact hx
      have hxl : (position x).get dim < pos := hleft2 k x hk1 hk hx2
      obtain ⟨e, he, e1, e2, e3, e4, e5⟩ := P2.routed k x hk1 hk hx2
      simp only at e3 e4
      have hloc : (Shape.inner i dim pos tl' tr').locate (position x) =
          tl'.locate (position x) := by
        simp only [Shape.locate, if_pos hxl]
      have hd := hdmemL _ (Shape.locate_mem (position x) tl')
      refine ⟨e, ?_, e1, e2, e3, by omega, ?_⟩
      · rw [hloc, P3.storageFrame _ hd.1 hd.2]; exact he
      · intro k' x' hk1' hk2' hx'
        have hx2' : st2.samples[k']? = some x' := by
          rw [← f3'.get_outside k' (Or.inl (by omega))]; exact hx'
        have hxl' : (position x').get dim < pos := hleft2 k' x' (by omega) (by omega) hx2'
        rw [hloc]
        simp only [Shape.locate, if_pos hxl']
        exact e5 k' x' hk1' hk2' hx2'
    · have hk' : pv ≤ k := by omega
      have hxr : ¬ (position x).get dim < pos := hright3 k x hk' hk2 hx
      obtain ⟨e, he, e1, e2, e3, e4, e5⟩ := P3.routed k x hk' hk2 hx
      simp only at e3 e4
      have hloc : (Shape.inner i dim pos tl' tr').locate (position x) =
          tr'.locate (position x) := by
        simp only [Shape.locate, if_neg hxr]
      refine ⟨e, ?_, e1, e2, by omega, e4, ?_⟩
      · rw [hloc]; exact he
      · intro k' x' hk1' hk2' hx'
        have hxr' : ¬ (position x').get dim < pos := hright3 k' x' (by omega) (by omega) hx'
        rw [hloc]
        simp only [Shape.locate, if_neg hxr']
        exact e5 k' x' hk1' hk2' hx'
  · -- grows
    exact ((Grows.withSamples ops st1 buf1 hlen1).growsTrans P2.grows).growsTrans P3.grows
end

/-! ## The recursive update step: postcondition -/

section
variable {α S D σ : Type} [LinearOrder α]

theorem StepPost.postRefl (ops : SampleStatisticsOps α S) (position : σ → Vec3 α) (m : Nat)
    (st : BuildState α S D σ) (t : Shape α) (d : Nat) (r : Range)
    (pre : StepPre m st t d r) (hr : r.size = 0) :
    StepPost ops position m st st t t d r where
  rep := pre.rep
  root := rfl
  nodeFrame := fun _ _ _ => rfl
  indices := by simp
  storageFrame := fun _ _ _ => rfl
  dataIdxs := by simp
  depth := pre.depth
  buffer := BufFrame.frameRefl _ _ _ pre.rangeOrdered pre.rangeInside
  routed := by
    intro k x h1 h2
    simp only [Range.size] at hr
    omega
  grows := Grows.growsRefl ops st

theorem StepPost.record (ops : SampleStatisticsOps α S) (position : σ → Vec3 α) (m : Nat)
    (st : BuildState α S D σ) (i dataIdx : Nat) (entry : Region S D × Range) (d : Nat)
    (r : Range) (pre : StepPre m st (Shape.leaf i dataIdx) d r)
    (he : st.dataStorage[dataIdx]? = some entry) :
    StepPost ops position m st
      { st with dataStorage := st.dataStorage.set dataIdx (entry.1, r) }
      (Shape.leaf i dataIdx) (Shape.leaf i dataIdx) d r where
  rep := pre.rep
  root := rfl
  nodeFrame := fun _ _ _ => rfl
  indices := by simp
  storageFrame := by
    intro j _ hj
    simp only [Shape.dataIdxs, List.mem_singleton] at hj
    simp only
    rw [List.getElem?_set_ne (by omega)]
  dataIdxs := by simp
  depth := pre.depth
  buffer := BufFrame.frameRefl _ _ _ pre.rangeOrdered pre.rangeInside
  routed := by
    intro k x h1 h2 _
    refine ⟨(entry.1, r), ?_, h1, h2, le_rfl, le_rfl, fun _ _ _ _ _ => rfl⟩
    simp only [Shape.locate]
    rw [List.getElem?_set_self (get?_lt he)]
  grows := by
    refine ⟨rfl, le_rfl, fun _ _ _ _ h => h, fun _ _ h => Or.inl h, by simp, ?_, rfl⟩
    intro j e hj
    by_cases hjd : j = dataIdx
    · subst hjd
      rw [he] at hj
      have : entry = e := by simpa using hj
      subst this
      exact ⟨(entry.1, r), 0, by simp only; rw [List.getElem?_set_self (get?_lt he)],
        (decayTimes_zero ops entry.1).symm⟩
    · exact ⟨e, 0, by simp only; rw [List.getElem?_set_ne (by omega)]; exact hj,
        (decayTimes_zero ops e.1).symm⟩

theorem range'_two (n k : Nat) (h : n + 2 ≤ k) :
    List.range' n (k - n) = n :: (n + 1) :: List.range' (n + 2) (k - (n + 2)) := by
  obtain ⟨c, rfl⟩ : ∃ c, k = n + 2 + c := ⟨k - (n + 2), by omega⟩
  rw [show n + 2 + c - n = c + 1 + 1 by omega, show n + 2 + c - (n + 2) = c by omega]
  rfl

theorem range'_one (n k : Nat) (h : n + 1 ≤ k) :
    List.range' n (k - n) = n :: List.range' (n + 1) (k - (n + 1)) := by
  obtain ⟨c, rfl⟩ : ∃ c, k = n + 1 + c := ⟨k - (n + 1), by omega⟩
  rw [show n + 1 + c - n = c + 1 by omega, show n + 1 + c - (n + 1) = c by omega]
  rfl

/-- The state after the split branch holds the new inner node with its two leaves. -/
theorem splitLeaf_pre (ops : SampleStatisticsOps α S) (m : Nat)
    (st : BuildState α S D σ) (i dataIdx : Nat) (entry : Region S D × Range) (d : Nat)
    (r : Range) (stats : S) (pre : StepPre m st (Shape.leaf i dataIdx) d r) (hd : d < m) :
    StepPre m (splitLeaf ops st i dataIdx entry stats).1
      (Shape.inner i (getSplitDimensionAndPosition ops stats).1
        (getSplitDimensionAndPosition ops stats).2
        (Shape.leaf st.kdTree.m_nodes.length dataIdx)
        (Shape.leaf (st.kdTree.m_nodes.length + 1) st.dataStorage.length)) d r := by
  have hi : i < st.kdTree.m_nodes.length := pre.bound i (by simp [Shape.indices])
  have hdi : dataIdx < st.dataStorage.length := pre.dataBound dataIdx (by simp [Shape.dataIdxs])
  refine
    { rep := ?_, nodup := ?_, bound := ?_, dataNodup := ?_, dataBound := ?_, depth := ?_,
      rangeOrdered := pre.rangeOrdered, rangeInside := ?_ }
  · simp only [Shape.Rep, Shape.root]
    refine ⟨?_, trivial, ?_, ?_⟩
    · rw [splitLeaf_nodes_get ops st i dataIdx entry stats i hi, if_pos rfl]
    · rw [splitLeaf_nodes_get ops st i dataIdx entry stats _ hi, if_neg (by omega), if_pos rfl]
    · rw [splitLeaf_nodes_get ops st i dataIdx entry stats _ hi, if_neg (by omega),
        if_neg (by omega), if_pos rfl]
  · simp only [Shape.indices, List.singleton_append, List.nodup_cons, List.mem_cons,
      List.mem_singleton, List.not_mem_nil, not_false_eq_true, List.nodup_nil, and_true,
      or_false]
    omega
  · intro j hj
    simp only [Shape.indices, List.singleton_append, List.mem_cons, List.mem_singleton,
      List.not_mem_nil, or_false] at hj
    rw [splitLeaf_nodes_length]
    omega
  · simp only [Shape.dataIdxs, List.singleton_append, List.nodup_cons, List.mem_singleton,
      List.not_mem_nil, not_false_eq_true, List.nodup_nil, and_true, or_false]
    omega
  · intro j hj
    simp only [Shape.dataIdxs, List.singleton_append, List.mem_cons, List.mem_singleton,
      List.not_mem_nil, or_false] at hj
    rw [splitLeaf_storage_length]
    omega
  · simp only [Shape.DepthOK, and_true]
    exact hd
  · rw [(splitLeaf_rest ops st i dataIdx entry stats).1]
    exact pre.rangeInside

/-- A step that starts with a split achieves on the leaf what its remainder achieves on the
new inner node. -/
theorem StepPost.afterSplit (ops : SampleStatisticsOps α S) (position : σ → Vec3 α) (m : Nat)
    (st st3 : BuildState α S D σ) (i dataIdx : Nat) (entry : Region S D × Range) (d : Nat)
    (r : Range) (stats : S) (t' : Shape α)
    (pre : StepPre m st (Shape.leaf i dataIdx) d r)
    (he : st.dataStorage[dataIdx]? = some entry)
    (P : StepPost ops position m (splitLeaf ops st i dataIdx entry stats).1 st3
      (Shape.inner i (getSplitDimensionAndPosition ops stats).1
        (getSplitDimensionAndPosition ops stats).2
        (Shape.leaf st.kdTree.m_nodes.length dataIdx)
        (Shape.leaf (st.kdTree.m_nodes.length + 1) st.dataStorage.length)) t' d r) :
    StepPost ops position m st st3 (Shape.leaf i dataIdx) t' d r := by
  have hi : i < st.kdTree.m_nodes.length := pre.bound i (by simp [Shape.indices])
  have hdi : dataIdx < st.dataStorage.length := pre.dataBound dataIdx (by simp [Shape.dataIdxs])
  have hn : st.kdTree.m_nodes[i]? = some (KDNode.leaf dataIdx) := pre.rep
  have hl1 := splitLeaf_nodes_length ops st i dataIdx entry stats
  have hs1 := splitLeaf_storage_length ops st i dataIdx entry stats
  have hl3 := P.grows.nodeCount
  have hs3 := P.grows.storageSize
  refine
    { rep := P.rep, root := P.root, nodeFrame := ?_, indices := ?_, storageFrame := ?_,
      dataIdxs := ?_, depth := P.depth, buffer := ?_, routed := P.routed, grows := ?_ }
  · intro j hj hnot
    simp only [Shape.indices, List.mem_singleton] at hnot
    rw [P.nodeFrame j (by omega) (by
      simp only [Shape.indices, List.singleton_append, List.mem_cons, List.mem_singleton,
        List.not_mem_nil, or_false]
      omega),
      splitLeaf_nodes_get ops st i dataIdx entry stats j hi, if_neg hnot, if_neg (by omega),
      if_neg (by omega)]
  · refine P.indices.trans ?_
    simp only [Shape.indices, List.singleton_append, List.cons_append, List.nil_append]
    rw [hl1, range'_two st.kdTree.m_nodes.length st3.kdTree.m_nodes.length (by omega)]
  · intro j hj hnot
    simp only [Shape.dataIdxs, List.mem_singleton] at hnot
    rw [P.storageFrame j (by omega) (by
      simp only [Shape.dataIdxs, List.singleton_append, List.mem_cons, List.mem_singleton,
        List.not_mem_nil, or_false]
      omega),
      splitLeaf_storage_get ops st i dataIdx entry stats j hdi, if_neg (by omega)]
  · refine P.dataIdxs.trans ?_
    simp only [Shape.dataIdxs, List.singleton_append, List.cons_append, List.nil_append]
    rw [hs1, range'_one st.dataStorage.length st3.dataStorage.length (by omega)]
  · have := P.buffer
    rw [(splitLeaf_rest ops st i dataIdx entry stats).1] at this
    exact this
  · exact (splitLeaf_grows ops st i dataIdx entry stats hn he).growsTrans P.grows

/-- The recursive update step on a subtree that satisfies the precondition returns, with
the postcondition, whenever the fuel covers the depth still allowed. -/
theorem updateTreeNode_post (ops : SampleStatisticsOps α S) (position : σ → Vec3 α)
    (bs : Settings) :
    ∀ (fuel : Nat) (st : BuildState α S D σ) (t : Shape α) (d : Nat) (r : Range) (stats : S),
      StepPre bs.maxDepth st t d r → 1 ≤ fuel → bs.maxDepth + 1 ≤ fuel + d →
      ∃ st' t', updateTreeNode ops position bs fuel st t.root d r stats = some st' ∧
        StepPost ops position bs.maxDepth st st' t t' d r := by
  intro fuel
  induction fuel with
  | zero => intro st t d r stats _ h; omega
  | succ fuel ih =>
    intro st t d r stats pre _ hfuel
    unfold updateTreeNode
    by_cases hr : r.size = 0
    · rw [if_pos hr]
      exact ⟨st, t, rfl, StepPost.postRefl ops position _ st t d r pre hr⟩
    · rw [if_neg hr]
      simp only
      cases t with
      | leaf i dataIdx =>
        have hn : st.kdTree.m_nodes[i]? = some (KDNode.leaf dataIdx) := pre.rep
        have hdi : dataIdx < st.dataStorage.length :=
          pre.dataBound dataIdx (by simp [Shape.dataIdxs])
        have he : st.dataStorage[dataIdx]? = some (st.dataStorage[dataIdx]) :=
          List.getElem?_eq_getElem hdi
        generalize st.dataStorage[dataIdx] = entry at he
        by_cases hc : splitCondition ops bs d entry.1.sampleStatistics r = true
        · have hd : d < bs.maxDepth := by
            simp only [splitCondition, Bool.and_eq_true, decide_eq_true_eq] at hc
            exact hc.1
          have pre1 := splitLeaf_pre ops bs.maxDepth st i dataIdx entry d r stats pre hd
          obtain ⟨st3, t', h3, P3⟩ := descend_post ops position bs fuel ih _ _ _ _ _ _ d r pre1
            hfuel (ops.clear ops.init) (ops.clear ops.init)
          refine ⟨st3, t', ?_, StepPost.afterSplit ops position _ st st3 i dataIdx entry d r
            stats t' pre he P3⟩
          simp only [Shape.root, visitNode, hn, he, hc, if_true]
          simp only [Shape.root, (splitLeaf_rest ops st i dataIdx entry stats).2.2.1,
            (splitLeaf_rest ops st i dataIdx entry stats).2.2.2.1,
            (splitLeaf_rest ops st i dataIdx entry stats).2.2.2.2] at h3 ⊢
          exact h3
        · refine ⟨_, Shape.leaf i dataIdx, ?_,
            StepPost.record ops position _ st i dataIdx entry d r pre he⟩
          simp only [Shape.root, visitNode, hn, he, hc]
          rfl
      | inner i dim pos tl tr =>
        have hn : st.kdTree.m_nodes[i]? = some (KDNode.inner dim pos tl.root) := pre.rep.1
        obtain ⟨st3, t', h3, P3⟩ := descend_post ops position bs fuel ih st i dim pos tl tr d r
          pre hfuel (ops.clear ops.init) (ops.clear ops.init)
        refine ⟨st3, t', ?_, P3⟩
        simp only [Shape.root, visitNode, hn]
        exact h3

end

/-! ## A pass over the whole buffer -/

section
variable {α S D σ : Type} [LinearOrder α]

theorem Shape.height_lt_indices : ∀ t : Shape α, t.height < t.indices.length := by
  intro t
  induction t with
  | leaf i d => simp [Shape.height, Shape.indices]
  | inner i dim pos l r ihl ihr =>
    simp only [Shape.height, Shape.indices, List.length_cons, List.length_append]
    omega

theorem Shape.height_le_of_depthOK : ∀ (t : Shape α) (d m : Nat), t.DepthOK d m →
    t.height + d ≤ max m d := by
  intro t
  induction t with
  | leaf i dd => intro d m _; simp [Shape.height]
  | inner i dim pos l r ihl ihr =>
    intro d m h
    simp only [Shape.DepthOK] at h
    have h1 := ihl (d + 1) m h.2.1
    have h2 := ihr (d + 1) m h.2.2
    simp only [Shape.height]
    omega

theorem Shape.steps_le_height (p : Vec3 α) : ∀ t : Shape α, t.steps p ≤ t.height := by
  intro t
  induction t with
  | leaf i d => simp [Shape.steps, Shape.height]
  | inner i dim pos l r ihl ihr =>
    simp only [Shape.steps, Shape.height]
    split <;> omega

theorem descend_eq_locate (nodes : List (KDNode α)) (p : Vec3 α) :
    ∀ (t : Shape α) (fuel : Nat), t.Rep nodes → t.steps p ≤ fuel →
      descend nodes p fuel t.root = some (t.locate p) := by
  intro t
  induction t with
  | leaf i d =>
    intro fuel hr _
    simp only [Shape.Rep] at hr
    unfold descend
    simp only [Shape.root, hr, Shape.locate]
  | inner i dim pos l r ihl ihr =>
    intro fuel hr hf
    simp only [Shape.Rep] at hr
    simp only [Shape.steps] at hf
    unfold descend
    rw [show (Shape.inner i dim pos l r).root = i from rfl]
    simp only [hr.1, Shape.locate]
    cases fuel with
    | zero => omega
    | succ f =>
      simp only
      by_cases hp : p.get dim < pos
      · simp only [if_pos hp] at hf ⊢
        exact ihl f hr.2.2.1 (by omega)
      · simp only [if_neg hp] at hf ⊢
        rw [← hr.2.1]
        exact ihr f hr.2.2.2 (by omega)

theorem Shape.dataIdxs_length_pos : ∀ t : Shape α, 0 < t.dataIdxs.length := by
  intro t
  induction t with
  | leaf i d => simp [Shape.dataIdxs]
  | inner i dim pos l r ihl ihr =>
    simp only [Shape.dataIdxs, List.length_append]; omega

theorem Shape.indices_length : ∀ t : Shape α, t.indices.length + 1 = 2 * t.dataIdxs.length := by
  intro t
  induction t with
  | leaf i d => simp [Shape.dataIdxs, Shape.indices]
  | inner i dim pos l r ihl ihr =>
    simp only [Shape.dataIdxs, Shape.indices, List.length_append, List.length_cons]; omega

theorem range_append_range' (n k : Nat) (h : n ≤ k) :
    List.range n ++ List.range' n (k - n) = List.range k := by
  rw [List.range_eq_range', List.range_eq_range']
  have h := List.range'_append 0 n (k - n) 1
  rw [show 0 + 1 * n = n by omega, show k - n + n = k by omega] at h
  exact h

theorem TreeInv.init (m : Nat) (bound : BBox α) (e : Region S D × Range) (buf : List σ) :
    TreeInv m (⟨KDTree.init bound, [e], buf⟩ : BuildState α S D σ) := by
  refine ⟨Shape.leaf 0 0, ?_, rfl, ?_, ?_, trivial⟩
  · simp [Shape.Rep, KDTree.init]
  · simp [Shape.indices, KDTree.init, List.range_succ]
  · simp [Shape.dataIdxs, List.range_succ]

/-- A pass of `updateTree` on a state that satisfies the invariant returns, and the tree
it leaves satisfies the invariant and routes every sample of the buffer. -/
theorem updateTree_post (ops : SampleStatisticsOps α S) (position : σ → Vec3 α)
    (bs : Settings) (st : BuildState α S D σ) (hinv : TreeInv bs.maxDepth st) :
    ∃ st' t', updateTree ops position bs st = some st' ∧
      t'.Rep st'.kdTree.m_nodes ∧ t'.root = 0 ∧
      t'.indices.Perm (List.range st'.kdTree.m_nodes.length) ∧
      t'.dataIdxs.Perm (List.range st'.dataStorage.length) ∧
      t'.DepthOK 1 bs.maxDepth ∧
      Routed position t' st'.dataStorage st'.samples ⟨0, st.samples.length⟩ ∧
      BufFrame st.samples st'.samples 0 st.samples.length ∧
      Grows ops st st' := by
  obtain ⟨t, hrep, hroot, hidx, hdat, hdepth⟩ := hinv
  have pre : StepPre bs.maxDepth st t 1 ⟨0, st.samples.length⟩ :=
    { rep := hrep
      nodup := hidx.nodup_iff.mpr (List.nodup_range _)
      bound := fun j hj => List.mem_range.mp (hidx.subset hj)
      dataNodup := hdat.nodup_iff.mpr (List.nodup_range _)
      dataBound := fun j hj => List.mem_range.mp (hdat.subset hj)
      depth := hdepth
      rangeOrdered := Nat.zero_le _
      rangeInside := le_rfl }
  have h0 : ∃ root, st.kdTree.m_nodes[0]? = some root := by
    have : (0 : Nat) < st.kdTree.m_nodes.length :=
      pre.bound 0 (hroot ▸ Shape.root_mem_indices t)
    exact ⟨_, List.getElem?_eq_getElem this⟩
  obtain ⟨root, h0⟩ := h0
  obtain ⟨st', t', h, P⟩ := updateTreeNode_post ops position bs
    (st.kdTree.m_nodes.length + bs.maxDepth + 1) st t 1 ⟨0, st.samples.length⟩
    (rootStatistics ops position root st.samples) pre (by omega) (by omega)
  rw [hroot] at h
  refine ⟨st', t', ?_, P.rep, P.root.trans hroot, ?_, ?_, P.depth, P.routed, P.buffer, P.grows⟩
  · simp only [updateTree, h0]
    exact h
  · refine P.indices.trans ((List.Perm.append_right _ hidx).trans ?_)
    rw [range_append_range' _ _ P.grows.nodeCount]
  · refine P.dataIdxs.trans ((List.Perm.append_right _ hdat).trans ?_)
    rw [range_append_range' _ _ P.grows.storageSize]

theorem updateTree_inv (ops : SampleStatisticsOps α S) (position : σ → Vec3 α)
    (bs : Settings) (st : BuildState α S D σ) (hinv : TreeInv bs.maxDepth st) :
    ∃ st', updateTree ops position bs st = some st' ∧ TreeInv bs.maxDepth st' := by
  obtain ⟨st', t', h, h1, h2, h3, h4, h5, -⟩ := updateTree_post ops position bs st hinv
  exact ⟨st', h, t', h1, h2, h3, h4, h5⟩

end

/-! ## Claim C1: the region query -/

section
variable {α S D σ K : Type} [LinearOrder α]

theorem getDataIdxAtPos_of_shape (tree : KDTree α) (t : Shape α) (p : Vec3 α)
    (hrep : t.Rep tree.m_nodes) (hroot : t.root = 0)
    (hidx : t.indices.Perm (List.range tree.m_nodes.length)) :
    tree.getDataIdxAtPos p = some (t.locate p) := by
  have h := descend_eq_locate tree.m_nodes p t tree.m_nodes.length hrep (by
    have h1 := Shape.steps_le_height p t
    have h2 := Shape.height_lt_indices t
    have h3 := hidx.length_eq
    simp only [List.length_range] at h3
    omega)
  rw [hroot] at h
  exact h

theorem getDataIdxAtPos_of_inv (m : Nat) (st : BuildState α S D σ) (p : Vec3 α)
    (hinv : TreeInv m st) :
    ∃ d e, st.kdTree.getDataIdxAtPos p = some d ∧ st.dataStorage[d]? = some e := by
  obtain ⟨t, hrep, hroot, hidx, hdat, -⟩ := hinv
  have hlt : t.locate p < st.dataStorage.length :=
    List.mem_range.mp (hdat.subset (Shape.locate_mem p t))
  exact ⟨t.locate p, st.dataStorage[t.locate p],
    getDataIdxAtPos_of_shape st.kdTree t p hrep hroot hidx, List.getElem?_eq_getElem hlt⟩

/-- C1: `getGuidingRegion` answers `nullptr` whenever `m_iteration == 0` or the position is
not inside the bounds of the tree; with the stochastic lookup disabled, `m_iteration > 0`
and the position inside the bounds, it answers with the region at the data index that the
descent of the tree reaches, never with `nullptr`; and on a tree that satisfies the
builder's invariant the descent does reach a leaf whose region exists in the storage. -/
theorem getGuidingRegion_contract (ops : FieldOps α S D σ K) (f : Field α S D K)
    (p : Vec3 α) (sampler : Sampler α) :
    ((f.m_iteration = 0 ∨ inside f.m_spatialSubdiv.bounds p = false) →
      f.getGuidingRegion ops p sampler = some RegionPtr.null) ∧
    (f.m_useStochasticNNLookUp = false → 0 < f.m_iteration →
      inside f.m_spatialSubdiv.bounds p = true →
      f.getGuidingRegion ops p sampler =
          (f.m_spatialSubdiv.getDataIdxAtPos p).map RegionPtr.region ∧
        f.getGuidingRegion ops p sampler ≠ some RegionPtr.null ∧
        ∀ m : Nat, TreeInv m (⟨f.m_spatialSubdiv, f.m_regionStorageContainer, []⟩ :
            BuildState α S D σ) →
          ∃ d e, f.m_spatialSubdiv.getDataIdxAtPos p = some d ∧
            f.getGuidingRegion ops p sampler = some (RegionPtr.region d) ∧
            f.m_regionStorageContainer[d]? = some e) := by
  constructor
  · intro h
    simp only [Field.getGuidingRegion]
    rcases h with h | h
    · simp [h]
    · simp [h]
  · intro hs hi hin
    have hres : f.getGuidingRegion ops p sampler =
        (f.m_spatialSubdiv.getDataIdxAtPos p).map RegionPtr.region := by
      simp only [Field.getGuidingRegion, hs, hin, hi, decide_True, Bool.and_self, if_true]
      cases f.m_spatialSubdiv.getDataIdxAtPos p <;> simp
    refine ⟨hres, ?_, ?_⟩
    · rw [hres]
      cases f.m_spatialSubdiv.getDataIdxAtPos p <;> simp
    · intro m hinv
      obtain ⟨d, e, hd, he⟩ := getDataIdxAtPos_of_inv m _ p hinv
      simp only at hd he
      exact ⟨d, e, hd, by rw [hres, hd]; rfl, he⟩

end

/-! ## Claim C2: the split threshold -/

section
variable {α S D σ K : Type} [LinearOrder α]

/-- C1, at a concrete input: the field built over the example samples answers for a
position inside the unit cube with region 2, and the field before any build answers with
`nullptr`. -/
theorem getGuidingRegion_contract_witness :
    exampleField.getGuidingRegion exampleOps (σ := Vec3 ℚ) ⟨1 / 4, 1 / 2, 1 / 2⟩ ⟨0⟩ =
        some (RegionPtr.region 2) ∧
      exampleFresh.getGuidingRegion exampleOps (σ := Vec3 ℚ) ⟨1 / 4, 1 / 2, 1 / 2⟩ ⟨0⟩ =
        some RegionPtr.null :=
  ⟨((getGuidingRegion_contract exampleOps exampleField ⟨1 / 4, 1 / 2, 1 / 2⟩ ⟨0⟩).2
      (by decide!) (by decide!) (by decide!)).1.trans (by decide!),
    (getGuidingRegion_contract exampleOps exampleFresh ⟨1 / 4, 1 / 2, 1 / 2⟩ ⟨0⟩).1
      (Or.inl rfl)⟩

/-- A step that splits a leaf goes on as a step on the inner node that the split leaves. -/
theorem updateTreeNode_split_eq (ops : SampleStatisticsOps α S) (position : σ → Vec3 α)
    (bs : Settings) (fuel : Nat) (st : BuildState α S D σ) (node dataIdx d : Nat)
    (entry : Region S D × Range) (r : Range) (stats : S)
    (hn : st.kdTree.m_nodes[node]? = some (KDNode.leaf dataIdx))
    (he : st.dataStorage[dataIdx]? = some entry)
    (hc : splitCondition ops bs d entry.1.sampleStatistics r = true) (hr : r.size ≠ 0) :
    updateTreeNode ops position bs (fuel + 1) st node d r stats =
      updateTreeNode ops position bs (fuel + 1) (splitLeaf ops st node dataIdx entry stats).1
        node d r stats := by
  have hnode := get?_lt hn
  have h1 : visitNode ops bs st node d r stats =
      Visit.descend (splitLeaf ops st node dataIdx entry stats).1
        (getSplitDimensionAndPosition ops stats).1 (getSplitDimensionAndPosition ops stats).2
        st.kdTree.m_nodes.length := by
    simp only [visitNode, hn, he, hc, if_true]
    simp only [(splitLeaf_rest ops st node dataIdx entry stats).2.2.1,
      (splitLeaf_rest ops st node dataIdx entry stats).2.2.2.1,
      (splitLeaf_rest ops st node dataIdx entry stats).2.2.2.2]
  have h2 : visitNode ops bs (splitLeaf ops st node dataIdx entry stats).1 node d r stats =
      Visit.descend (splitLeaf ops st node dataIdx entry stats).1
        (getSplitDimensionAndPosition ops stats).1 (getSplitDimensionAndPosition ops stats).2
        st.kdTree.m_nodes.length := by
    have := splitLeaf_nodes_get ops st node dataIdx entry stats node hnode
    rw [if_pos rfl] at this
    simp only [visitNode, this]
  conv_lhs => unfold updateTreeNode
  conv_rhs => unfold updateTreeNode
  simp only [h1, h2, if_neg hr]

/-- C2, as the code has it: a leaf visited by the recursive update step at depth `d` with a
non-empty range (enough fuel given) is an inner node after the step if and only if
`d < maxDepth` and the sum of the sample count of its region and the size of the range,
taken in the arithmetic of the count (the size and `maxSamples` converted to the type of
the count, the sum being the sum of that type), exceeds `maxSamples`; whenever the two
conversions and the sum are exact, that is if and only if `d < maxDepth` and the count plus
the size of the range exceeds `maxSamples`; a leaf visited at a depth of `maxDepth` or more
stays the leaf it is. -/
theorem split_threshold (ops : SampleStatisticsOps α S) (position : σ → Vec3 α)
    (bs : Settings) (fuel : Nat) (st : BuildState α S D σ) (node dataIdx d : Nat)
    (entry : Region S D × Range) (r : Range) (stats : S)
    (hn : st.kdTree.m_nodes[node]? = some (KDNode.leaf dataIdx))
    (he : st.dataStorage[dataIdx]? = some entry)
    (hr : r.size ≠ 0) (hri : r.stop ≤ st.samples.length)
    (hfuel : 1 ≤ fuel) (hdepth : bs.maxDepth + 1 ≤ fuel + d) :
    ∃ st', updateTreeNode ops position bs fuel st node d r stats = some st' ∧
      ((∃ dim pos l, st'.kdTree.m_nodes[node]? = some (KDNode.inner dim pos l)) ↔
        (d < bs.maxDepth ∧
          ops.addCounts (ops.numSamples entry.1.sampleStatistics) (ops.sizeToCount r.size) >
            ops.sizeToCount bs.maxSamples)) ∧
      (ops.sizeToCount r.size = (r.size : ℚ) →
        ops.sizeToCount bs.maxSamples = (bs.maxSamples : ℚ) →
        ops.addCounts (ops.numSamples entry.1.sampleStatistics) (r.size : ℚ) =
          ops.numSamples entry.1.sampleStatistics + (r.size : ℚ) →
        ((∃ dim pos l, st'.kdTree.m_nodes[node]? = some (KDNode.inner dim pos l)) ↔
          (d < bs.maxDepth ∧
            ops.numSamples entry.1.sampleStatistics + (r.size : ℚ) >
              (bs.maxSamples : ℚ)))) ∧
      (bs.maxDepth ≤ d → st'.kdTree.m_nodes[node]? = some (KDNode.leaf dataIdx)) := by
  have hnode := get?_lt hn
  have hdata := get?_lt he
  have pre : StepPre bs.maxDepth st (Shape.leaf node dataIdx) d r :=
    { rep := hn
      nodup := by simp [Shape.indices]
      bound := by intro j hj; simp only [Shape.indices, List.mem_singleton] at hj; omega
      dataNodup := by simp [Shape.dataIdxs]
      dataBound := by intro j hj; simp only [Shape.dataIdxs, List.mem_singleton] at hj; omega
      depth := trivial
      rangeOrdered := by simp only [Range.size] at hr; omega
      rangeInside := hri }
  obtain ⟨st', t', h, -⟩ := updateTreeNode_post ops position bs fuel st _ d r stats pre hfuel
    hdepth
  simp only [Shape.root] at h
  refine ⟨st', h, ?_⟩
  obtain ⟨f, rfl⟩ : ∃ f, fuel = f + 1 := ⟨fuel - 1, by omega⟩
  have hcond : splitCondition ops bs d entry.1.sampleStatistics r = true ↔
      (d < bs.maxDepth ∧
        ops.addCounts (ops.numSamples entry.1.sampleStatistics) (ops.sizeToCount r.size) >
          ops.sizeToCount bs.maxSamples) := by
    simp only [splitCondition, Bool.and_eq_true, decide_eq_true_eq]
  have hmain : ((∃ dim pos l, st'.kdTree.m_nodes[node]? = some (KDNode.inner dim pos l)) ↔
        (d < bs.maxDepth ∧
          ops.addCounts (ops.numSamples entry.1.sampleStatistics) (ops.sizeToCount r.size) >
            ops.sizeToCount bs.maxSamples)) ∧
      (bs.maxDepth ≤ d → st'.kdTree.m_nodes[node]? = some (KDNode.leaf dataIdx)) := by
    by_cases hc : splitCondition ops bs d entry.1.sampleStatistics r = true
    · rw [updateTreeNode_split_eq ops position bs f st node dataIdx d entry r stats hn he hc
        hr] at h
      have g := updateTreeNode_grows ops position bs _ _ _ _ _ _ _ h
      have hinner := splitLeaf_nodes_get ops st node dataIdx entry stats node hnode
      rw [if_pos rfl] at hinner
      have hkept := g.innerKept _ _ _ _ hinner
      refine ⟨⟨fun _ => hcond.mp hc, fun _ => ⟨_, _, _, hkept⟩⟩, ?_⟩
      intro hd
      have := (hcond.mp hc).1
      omega
    · have hst : st' = { st with dataStorage := st.dataStorage.set dataIdx (entry.1, r) } := by
        unfold updateTreeNode at h
        simp only [if_neg hr, visitNode, hn, he, hc] at h
        simpa using h.symm
      subst hst
      refine ⟨⟨?_, fun hx => absurd (hcond.mpr hx) hc⟩, fun _ => hn⟩
      rintro ⟨dim, pos, l, hx⟩
      simp only at hx
      rw [hn] at hx
      exact absurd hx (by simp)
  refine ⟨hmain.1, ?_, hmain.2⟩
  intro e1 e2 e3
  rw [hmain.1, e1, e2, e3]

/-- C2, at a concrete input, with the count held in single precision: the root leaf of a
fresh tree, visited at depth 1 with the five example samples (limit 2 per leaf, depth
limit 4), is an inner node after the step; the sizes 5 and 2 and the sum 0 + 5 are exact in
single precision. -/
theorem split_threshold_witness :
    ∃ st', updateTreeNode floatStatistics id exampleBuildSettings 6 exampleStateInit 0 1
        ⟨0, 5⟩ floatStatistics.init = some st' ∧
      ((∃ dim pos l, st'.kdTree.m_nodes[0]? = some (KDNode.inner dim pos l)) ↔
        (1 < exampleBuildSettings.maxDepth ∧
          floatStatistics.numSamples exampleOps.defaultRegion.sampleStatistics +
            ((⟨0, 5⟩ : Range).size : ℚ) > (exampleBuildSettings.maxSamples : ℚ))) ∧
      (exampleBuildSettings.maxDepth ≤ 1 →
        st'.kdTree.m_nodes[0]? = some (KDNode.leaf 0)) := by
  obtain ⟨st', h, -, h2, h3⟩ :=
    split_threshold floatStatistics id exampleBuildSettings 6 exampleStateInit 0 0 1
      (exampleOps.defaultRegion, ⟨0, 0⟩) ⟨0, 5⟩ floatStatistics.init (by decide!) (by decide!)
      (by decide!) (by decide!) (by decide!) (by decide!)
  exact ⟨st', h, h2 (by decide!) (by decide!) (by decide!), h3⟩

/-- C2 as stated fails when the count is held in single precision: a root leaf whose
region counts `2^24` samples, visited at depth 1 (depth limit 2) with a range of one sample
and `maxSamples = 2^24`, stays a leaf, although `1 < maxDepth` and
`2^24 + 1 > 2^24`: the sum `2^24 + 1` is rounded to `2^24`. With exact arithmetic the same
leaf is split. -/
theorem split_test_rounds_the_sum :
    floatLeafState.kdTree.m_nodes = [KDNode.leaf 0] ∧
    floatLeafState.dataStorage.map (fun e => floatStatistics.numSamples e.1.sampleStatistics)
      = [16777216] ∧
    1 < floatSettings.maxDepth ∧
    (16777216 : ℚ) + ((⟨0, 1⟩ : Range).size : ℚ) > (floatSettings.maxSamples : ℚ) ∧
    floatStatistics.addCounts 16777216 (floatStatistics.sizeToCount 1) = 16777216 ∧
    (updateTreeNode floatStatistics id floatSettings 3 floatLeafState 0 1 ⟨0, 1⟩
      (rootStatistics floatStatistics id (KDNode.leaf 0) floatLeafState.samples)).map
      (fun st => st.kdTree.m_nodes) = some [KDNode.leaf 0] ∧
    (updateTreeNode exactStatistics id floatSettings 3 floatLeafState 0 1 ⟨0, 1⟩
      (rootStatistics exactStatistics id (KDNode.leaf 0) floatLeafState.samples)).map
      (fun st => st.kdTree.m_nodes) =
      some [KDNode.inner 2 (1 / 4) 1, KDNode.leaf 0, KDNode.leaf 1] := by
  refine ⟨by decide!, by decide!, by decide, by decide!, by decide!, by decide!, by decide!⟩

end

/-! ## Claim C3: recorded ranges and lookup -/

section
variable {α S D σ K : Type} [LinearOrder α]

theorem count_of_interval (L : List Nat) (d s e : Nat) (hse : s ≤ e) (he : e ≤ L.length)
    (h : ∀ k : Nat, k < L.length → ((s ≤ k ∧ k < e) ↔ L[k]? = some d)) :
    L.count d = e - s := by
  have hsplit : L = L.take s ++ ((L.drop s).take (e - s) ++ L.drop e) := by
    conv_lhs => rw [← List.take_append_drop s L]
    congr 1
    conv_lhs => rw [← List.take_append_drop (e - s) (L.drop s)]
    congr 1
    rw [List.drop_drop]
    congr 1
    omega
  have h1 : (L.take s).count d = 0 := by
    rw [List.count_eq_zero]
    intro hmem
    obtain ⟨k, hk⟩ := List.mem_iff_getElem?.mp hmem
    have hk1 : k < (L.take s).length := get?_lt hk
    simp only [List.length_take] at hk1
    rw [List.getElem?_take_of_lt (by omega)] at hk
    have := (h k (by omega)).mpr hk
    omega
  have h3 : (L.drop e).count d = 0 := by
    rw [List.count_eq_zero]
    intro hmem
    obtain ⟨k, hk⟩ := List.mem_iff_getElem?.mp hmem
    have hk1 : k < (L.drop e).length := get?_lt hk
    simp only [List.length_drop] at hk1
    rw [List.getElem?_drop] at hk
    have := (h (e + k) (by omega)).mpr hk
    omega
  have h2 : ((L.drop s).take (e - s)).count d = e - s := by
    have hl : ((L.drop s).take (e - s)).length = e - s := by
      simp only [List.length_take, List.length_drop]; omega
    refine Eq.trans ?_ hl
    rw [List.count_eq_length]
    intro b hb
    obtain ⟨k, hk⟩ := List.mem_iff_getElem?.mp hb
    have hk1 : k < ((L.drop s).take (e - s)).length := get?_lt hk
    rw [hl] at hk1
    rw [List.getElem?_take_of_lt hk1, List.getElem?_drop] at hk
    have := (h (s + k) (by omega)).mp ⟨by omega, by omega⟩
    rw [this] at hk
    exact Option.some.inj hk
  conv_lhs => rw [hsplit]
  rw [List.count_append, List.count_append, h1, h2, h3]
  omega

theorem BufFrame.perm {buf buf' : List σ} {a b : Nat} (h : BufFrame buf buf' a b) :
    buf'.Perm buf := by
  obtain ⟨pre, mid, mid', post, h1, h2, -, -, hp⟩ := h
  subst h1 h2
  exact (List.Perm.append_left pre hp).append_right post

/-- A pass of `updateTree` on a state that satisfies the invariant: it returns, keeps the
invariant, rearranges the buffer, records ranges that agree with the lookup, and the sizes
of the ranges of the leaves that received samples add up to the size of the buffer. -/
theorem pass_post (ops : SampleStatisticsOps α S) (position : σ → Vec3 α)
    (bs : Settings) (st : BuildState α S D σ) (hinv : TreeInv bs.maxDepth st) :
    ∃ st', updateTree ops position bs st = some st' ∧ TreeInv bs.maxDepth st' ∧
      st'.samples.Perm st.samples ∧ RangesConsistent position st' ∧
      ((reachedLeaves position st').map (storedSize st'.dataStorage)).sum
        = st'.samples.length ∧
      Grows ops st st' := by
  obtain ⟨st', t', h, hrep, hroot, hidx, hdat, hdepth, hrouted, hbuf, hgrows⟩ :=
    updateTree_post ops position bs st hinv
  have hloc : ∀ p : Vec3 α, st'.kdTree.getDataIdxAtPos p = some (t'.locate p) :=
    fun p => getDataIdxAtPos_of_shape st'.kdTree t' p hrep hroot hidx
  have hlen : st'.samples.length = st.samples.length := hbuf.length_eq
  have hcons : RangesConsistent position st' := by
    intro k x hx
    have hk : k < st.samples.length := hlen ▸ get?_lt hx
    obtain ⟨e, he, e1, e2, -, e4, e5⟩ := hrouted k x (Nat.zero_le _) hk hx
    refine ⟨t'.locate (position x), e, hloc _, he, e1, e2, by rw [hlen]; exact e4, ?_⟩
    intro k' x' h1 h2 hx'
    rw [hloc, e5 k' x' h1 h2 hx']
  refine ⟨st', h, ⟨t', hrep, hroot, hidx, hdat, hdepth⟩, hbuf.perm, hcons, ?_, hgrows⟩
  -- the sizes of the ranges
  have hreach : reachedLeaves position st' =
      (st'.samples.map (fun x => t'.locate (position x))).dedup := by
    simp only [reachedLeaves]
    congr 1
    rw [← List.filterMap_eq_map]
    congr 1
    funext x
    exact hloc _
  rw [hreach]
  have hget : ∀ k : Nat, (st'.samples.map (fun x => t'.locate (position x)))[k]? =
      (st'.samples[k]?).map (fun x => t'.locate (position x)) := by
    intro k; simp
  have hsize : ∀ d ∈ (st'.samples.map (fun x => t'.locate (position x))).dedup,
      storedSize st'.dataStorage d =
        (st'.samples.map (fun x => t'.locate (position x))).count d := by
    intro d hd
    rw [List.mem_dedup] at hd
    obtain ⟨x0, hx0, rfl⟩ := List.mem_map.mp hd
    obtain ⟨k0, hk0⟩ := List.mem_iff_getElem?.mp hx0
    have hk0lt : k0 < st.samples.length := hlen ▸ get?_lt hk0
    obtain ⟨e, he, e1, e2, -, e4, e5⟩ := hrouted k0 x0 (Nat.zero_le _) hk0lt hk0
    simp only at e4
    simp only [storedSize, he, Range.size]
    symm
    refine count_of_interval _ _ _ _ (by omega) (by simp only [List.length_map]; omega) ?_
    intro k hk
    simp only [List.length_map] at hk
    rw [hget]
    have hxk : st'.samples[k]? = some (st'.samples[k]) := List.getElem?_eq_getElem hk
    rw [hxk]
    simp only [Option.map_some', Option.some.injEq]
    constructor
    · intro hin
      exact e5 k _ hin.1 hin.2 hxk
    · intro heq
      obtain ⟨e', he', e1', e2', -⟩ :=
        hrouted k _ (Nat.zero_le _) (by show k < st.samples.length; omega) hxk
      rw [heq, he] at he'
      have : e = e' := Option.some.inj he'
      subst this
      exact ⟨e1', e2'⟩
  rw [List.map_congr_left hsize, List.sum_map_count_dedup_eq_length, List.length_map]

theorem build_init_inv (m : Nat) (dflt : Region S D × Range) (bound : BBox α)
    (st : BuildState α S D σ) :
    TreeInv m ({ st with kdTree := KDTree.init bound,
                         dataStorage := resizeOne dflt st.dataStorage } :
      BuildState α S D σ) := by
  cases hs : st.dataStorage with
  | nil => exact TreeInv.init m bound _ _
  | cons e rest => exact TreeInv.init m bound _ _

/-- The first pass `build` returns for `maxSamples > 0`, with all that a pass achieves. -/
theorem build_post (ops : SampleStatisticsOps α S) (position : σ → Vec3 α) (dflt : Region S D)
    (bound : BBox α) (bs : Settings) (st : BuildState α S D σ) (hmax : 0 < bs.maxSamples) :
    ∃ st', build ops position dflt bound bs st = some st' ∧ TreeInv bs.maxDepth st' ∧
      st'.samples.Perm st.samples ∧ RangesConsistent position st' ∧
      ((reachedLeaves position st').map (storedSize st'.dataStorage)).sum
        = st'.samples.length ∧
      st'.kdTree.bounds = bound := by
  obtain ⟨st', h, h1, h2, h3, h4, h5⟩ := pass_post ops position bs _
    (build_init_inv bs.maxDepth (dflt, ⟨0, 0⟩) bound st)
  refine ⟨st', ?_, h1, h2, h3, h4, h5.bounds⟩
  simp only [build, if_neg (Nat.pos_iff_ne_zero.mp hmax)]
  exact h

theorem Reachable.inv {ops : SampleStatisticsOps α S} {position : σ → Vec3 α}
    {dflt : Region S D} {bs : Settings} {st : BuildState α S D σ}
    (h : Reachable ops position dflt bs st) : TreeInv bs.maxDepth st := by
  induction h with
  | build bound st0 st hb =>
    simp only [rkguide.build] at hb
    split at hb
    · exact absurd hb (by simp)
    · obtain ⟨st', h, h1, -⟩ := pass_post ops position bs _
        (build_init_inv bs.maxDepth (dflt, ⟨0, 0⟩) bound st0)
      rw [h] at hb
      exact Option.some.inj hb ▸ h1
  | update st st' buf _ hu ih =>
    have hinv : TreeInv bs.maxDepth ({ st with samples := buf } : BuildState α S D σ) := ih
    obtain ⟨st'', h, h1, -⟩ := pass_post ops position bs _ hinv
    rw [h] at hu
    exact Option.some.inj hu ▸ h1
  | refit st storage _ hlen ih =>
    obtain ⟨t, h1, h2, h3, h4, h5⟩ := ih
    exact ⟨t, h1, h2, h3, by simp only [hlen]; exact h4, h5⟩

/-- C3: after `build` (for `maxSamples > 0`) and after every `updateTree` pass on a state
reached by `build` and earlier passes, the buffer is a rearrangement of the input buffer,
every sample lies in the range stored at the data index that the descent reaches for its
position and every sample in that range reaches the same leaf (so a sample lies in the
range of no other leaf that received samples, and those ranges are disjoint), and the
sizes of the ranges of the leaves that received samples add up to the buffer size. -/
theorem ranges_agree_with_lookup (ops : SampleStatisticsOps α S) (position : σ → Vec3 α)
    (dflt : Region S D) (bs : Settings) :
    (∀ (bound : BBox α) (st0 : BuildState α S D σ), 0 < bs.maxSamples →
      ∃ st', build ops position dflt bound bs st0 = some st' ∧
        st'.samples.Perm st0.samples ∧ RangesConsistent position st' ∧
        ((reachedLeaves position st').map (storedSize st'.dataStorage)).sum
          = st'.samples.length) ∧
    (∀ (st : BuildState α S D σ) (buf : List σ), Reachable ops position dflt bs st →
      ∃ st', updateTree ops position bs { st with samples := buf } = some st' ∧
        st'.samples.Perm buf ∧ RangesConsistent position st' ∧
        ((reachedLeaves position st').map (storedSize st'.dataStorage)).sum
          = st'.samples.length) := by
  constructor
  · intro bound st0 hmax
    obtain ⟨st', h, -, h2, h3, h4, -⟩ := build_post ops position dflt bound bs st0 hmax
    exact ⟨st', h, h2, h3, h4⟩
  · intro st buf hreach
    have hinv : TreeInv bs.maxDepth ({ st with samples := buf } : BuildState α S D σ) :=
      hreach.inv
    obtain ⟨st', h, -, h2, h3, h4, -⟩ := pass_post ops position bs _ hinv
    exact ⟨st', h, h2, h3, h4⟩

/-- C3, at a concrete input: the first pass over the five example samples, and a second
pass over the same samples on the state that the first pass leaves. -/
theorem ranges_agree_with_lookup_witness :
    (∃ st', build exactStatistics id exampleOps.defaultRegion unitCube exampleBuildSettings
        exampleState0 = some st' ∧
      st'.samples.Perm exampleState0.samples ∧ RangesConsistent id st' ∧
      ((reachedLeaves id st').map (storedSize st'.dataStorage)).sum = st'.samples.length) ∧
    (∃ st', updateTree exactStatistics id exampleBuildSettings
        { exampleState1 with samples := exampleSamples } = some st' ∧
      st'.samples.Perm exampleSamples ∧ RangesConsistent id st' ∧
      ((reachedLeaves id st').map (storedSize st'.dataStorage)).sum = st'.samples.length) :=
  ⟨(ranges_agree_with_lookup exactStatistics id exampleOps.defaultRegion
      exampleBuildSettings).1 unitCube exampleState0 (by decide),
    (ranges_agree_with_lookup exactStatistics id exampleOps.defaultRegion
      exampleBuildSettings).2 exampleState1 exampleSamples
      (Reachable.build unitCube exampleState0 exampleState1 (by decide!))⟩

end

/-! ## Claim C4: the leaf cells partition the root box -/

section
variable {α S D σ K : Type} [LinearOrder α]

theorem leafCells_eq_cells (nodes : List (KDNode α)) :
    ∀ (t : Shape α) (fuel : Nat) (cell : Vec3 α → Bool), t.Rep nodes → t.height ≤ fuel →
      leafCells nodes fuel t.root cell = t.cells cell := by
  intro t
  induction t with
  | leaf i d =>
    intro fuel cell hr _
    simp only [Shape.Rep] at hr
    unfold leafCells
    simp only [Shape.root, hr, Shape.cells]
  | inner i dim pos l r ihl ihr =>
    intro fuel cell hr hf
    simp only [Shape.Rep] at hr
    simp only [Shape.height] at hf
    unfold leafCells
    rw [show (Shape.inner i dim pos l r).root = i from rfl]
    simp only [hr.1, Shape.cells]
    cases fuel with
    | zero => omega
    | succ f =>
      simp only
      rw [ihl f _ hr.2.2.1 (by omega), ← hr.2.1, ihr f _ hr.2.2.2 (by omega)]

theorem Shape.cells_keys (t : Shape α) :
    ∀ cell : Vec3 α → Bool, (t.cells cell).map Prod.fst = t.dataIdxs := by
  induction t with
  | leaf i d => intro cell; simp [Shape.cells, Shape.dataIdxs]
  | inner i dim pos l r ihl ihr =>
    intro cell
    simp only [Shape.cells, Shape.dataIdxs, List.map_append, ihl, ihr]

theorem Shape.cells_containing (p : Vec3 α) (t : Shape α) :
    ∀ cell : Vec3 α → Bool,
      ((t.cells cell).filter (fun c => c.2 p)).map Prod.fst =
        if cell p = true then [t.locate p] else [] := by
  induction t with
  | leaf i d =>
    intro cell
    simp only [Shape.cells, Shape.locate, List.filter_cons, List.filter_nil]
    split <;> simp
  | inner i dim pos l r ihl ihr =>
    intro cell
    simp only [Shape.cells, Shape.locate, List.filter_append, List.map_append, ihl, ihr]
    by_cases hc : cell p = true
    · by_cases hp : p.get dim < pos
      · simp [hc, hp]
      · simp [hc, hp]
    · simp [hc]

theorem filterMap_getElem?_range {β : Type} (l : List β) :
    (List.range l.length).filterMap (fun j => l[j]?) = l := by
  induction l using List.reverseRecOn with
  | nil => simp
  | append_singleton l a ih =>
    rw [List.length_append, List.length_singleton, List.range_succ, List.filterMap_append]
    have h1 : (List.range l.length).filterMap (fun j => (l ++ [a])[j]?) =
        (List.range l.length).filterMap (fun j => l[j]?) := by
      apply List.filterMap_congr
      intro j hj
      rw [List.getElem?_append_left (List.mem_range.mp hj)]
    rw [h1, ih]
    simp

theorem Shape.leafData_indices (nodes : List (KDNode α)) :
    ∀ t : Shape α, t.Rep nodes →
      t.indices.filterMap (fun j => (nodes[j]?).bind KDNode.dataIdx?) = t.dataIdxs := by
  intro t
  induction t with
  | leaf i d =>
    intro hr
    simp only [Shape.Rep] at hr
    simp [Shape.indices, Shape.dataIdxs, hr, KDNode.dataIdx?]
  | inner i dim pos l r ihl ihr =>
    intro hr
    simp only [Shape.Rep] at hr
    have h0 : (nodes[i]?).bind KDNode.dataIdx? = none := by
      rw [hr.1]; rfl
    simp only [Shape.indices, Shape.dataIdxs, List.filterMap_cons, h0,
      List.filterMap_append, ihl hr.2.2.1, ihr hr.2.2.2]

theorem leafDataIdxs_perm (nodes : List (KDNode α)) (t : Shape α) (hrep : t.Rep nodes)
    (hidx : t.indices.Perm (List.range nodes.length)) :
    (leafDataIdxs nodes).Perm t.dataIdxs := by
  rw [← Shape.leafData_indices nodes t hrep]
  have h := hidx.filterMap (fun j => (nodes[j]?).bind KDNode.dataIdx?)
  refine List.Perm.trans ?_ h.symm
  have h2 : (List.range nodes.length).filterMap (fun j => (nodes[j]?).bind KDNode.dataIdx?)
      = ((List.range nodes.length).filterMap (fun j => nodes[j]?)).filterMap
          KDNode.dataIdx? := by
    rw [List.filterMap_filterMap]
  rw [h2, filterMap_getElem?_range]
  exact List.Perm.refl _

/-- C4: in every state reached by `build` and any number of `updateTree` passes with the
same settings, the descent for a point `p` from the root ends at a leaf after passing at
most `maxDepth` inner nodes, the lookup returns the data index `d` of that leaf, the leaf
cells cut from the root box are the cells of all leaves of the pool, and the cells that
contain `p` are exactly the cell of leaf `d` if `p` is inside the root box and none
otherwise (so the cells are disjoint and cover the root box). -/
theorem partition_invariant (ops : SampleStatisticsOps α S) (position : σ → Vec3 α)
    (dflt : Region S D) (bs : Settings) (st : BuildState α S D σ)
    (hreach : Reachable ops position dflt bs st) (p : Vec3 α) :
    ∃ d, descend st.kdTree.m_nodes p bs.maxDepth 0 = some d ∧
      st.kdTree.getDataIdxAtPos p = some d ∧
      ((leafCells st.kdTree.m_nodes bs.maxDepth 0 (inside st.kdTree.bounds)).map
        Prod.fst).Perm (leafDataIdxs st.kdTree.m_nodes) ∧
      (((leafCells st.kdTree.m_nodes bs.maxDepth 0 (inside st.kdTree.bounds)).filter
        (fun c => c.2 p)).map Prod.fst =
          if inside st.kdTree.bounds p = true then [d] else []) := by
  obtain ⟨t, hrep, hroot, hidx, hdat, hdepth⟩ := hreach.inv
  have hh : t.height ≤ bs.maxDepth := by
    have := Shape.height_le_of_depthOK t 1 bs.maxDepth hdepth
    omega
  have hdesc := descend_eq_locate st.kdTree.m_nodes p t bs.maxDepth hrep
    (le_trans (Shape.steps_le_height p t) hh)
  have hcells := leafCells_eq_cells st.kdTree.m_nodes t bs.maxDepth (inside st.kdTree.bounds)
    hrep hh
  rw [hroot] at hdesc hcells
  refine ⟨t.locate p, hdesc, getDataIdxAtPos_of_shape st.kdTree t p hrep hroot hidx, ?_, ?_⟩
  · rw [hcells, Shape.cells_keys]
    exact (leafDataIdxs_perm st.kdTree.m_nodes t hrep hidx).symm
  · rw [hcells, Shape.cells_containing]

/-- C4, at a concrete input: the state that `build` leaves for the five example samples and
the centre of the unit cube. -/
theorem partition_invariant_witness :
    ∃ d, descend exampleState1.kdTree.m_nodes ⟨1 / 2, 1 / 2, 1 / 2⟩
        exampleBuildSettings.maxDepth 0 = some d ∧
      exampleState1.kdTree.getDataIdxAtPos ⟨1 / 2, 1 / 2, 1 / 2⟩ = some d ∧
      ((leafCells exampleState1.kdTree.m_nodes exampleBuildSettings.maxDepth 0
        (inside exampleState1.kdTree.bounds)).map Prod.fst).Perm
          (leafDataIdxs exampleState1.kdTree.m_nodes) ∧
      (((leafCells exampleState1.kdTree.m_nodes exampleBuildSettings.maxDepth 0
        (inside exampleState1.kdTree.bounds)).filter
          (fun c => c.2 ⟨1 / 2, 1 / 2, 1 / 2⟩)).map Prod.fst =
        if inside exampleState1.kdTree.bounds ⟨1 / 2, 1 / 2, 1 / 2⟩ = true then [d] else []) :=
  partition_invariant exactStatistics id exampleOps.defaultRegion exampleBuildSettings
    exampleState1 (Reachable.build unitCube exampleState0 exampleState1 (by decide!))
    ⟨1 / 2, 1 / 2, 1 / 2⟩

end

/-! ## Claim C9: leaves and storage entries correspond one to one -/

section
variable {α S D σ K : Type} [LinearOrder α]

/-- C9: in every state reached by `build` and any number of `updateTree` passes, the data
indices held by the leaves are the indices `0 .. size-1` of the storage, each held by
exactly one leaf: they are pairwise distinct, every storage index occurs once among them,
there are as many leaves as storage entries, and `nodeCount = 2 * size - 1`. -/
theorem leaf_region_bijection (ops : SampleStatisticsOps α S) (position : σ → Vec3 α)
    (dflt : Region S D) (bs : Settings) (st : BuildState α S D σ)
    (hreach : Reachable ops position dflt bs st) :
    (leafDataIdxs st.kdTree.m_nodes).Perm (List.range st.dataStorage.length) ∧
    (leafDataIdxs st.kdTree.m_nodes).Nodup ∧
    (∀ d : Nat, d < st.dataStorage.length → (leafDataIdxs st.kdTree.m_nodes).count d = 1) ∧
    (∀ d ∈ leafDataIdxs st.kdTree.m_nodes, d < st.dataStorage.length) ∧
    (leafDataIdxs st.kdTree.m_nodes).length = st.dataStorage.length ∧
    0 < st.dataStorage.length ∧
    st.kdTree.m_nodes.length = 2 * st.dataStorage.length - 1 := by
  obtain ⟨t, hrep, hroot, hidx, hdat, hdepth⟩ := hreach.inv
  have hperm : (leafDataIdxs st.kdTree.m_nodes).Perm (List.range st.dataStorage.length) :=
    (leafDataIdxs_perm st.kdTree.m_nodes t hrep hidx).trans hdat
  have hnodup : (leafDataIdxs st.kdTree.m_nodes).Nodup :=
    hperm.nodup_iff.mpr (List.nodup_range _)
  have hlen1 : t.dataIdxs.length = st.dataStorage.length := by
    simpa using hdat.length_eq
  have hlen2 : t.indices.length = st.kdTree.m_nodes.length := by
    simpa using hidx.length_eq
  have hpos := Shape.dataIdxs_length_pos t
  have hcount := Shape.indices_length t
  refine ⟨hperm, hnodup, ?_, ?_, by simpa using hperm.length_eq, by omega, by omega⟩
  · intro d hd
    exact List.count_eq_one_of_mem hnodup (hperm.symm.subset (List.mem_range.mpr hd))
  · intro d hd
    exact List.mem_range.mp (hperm.subset hd)

/-- C9, at a concrete input: the state that `build` leaves for the five example samples. -/
theorem leaf_region_bijection_witness :
    (leafDataIdxs exampleState1.kdTree.m_nodes).Perm
      (List.range exampleState1.dataStorage.length) ∧
    (leafDataIdxs exampleState1.kdTree.m_nodes).Nodup ∧
    (∀ d : Nat, d < exampleState1.dataStorage.length →
      (leafDataIdxs exampleState1.kdTree.m_nodes).count d = 1) ∧
    (∀ d ∈ leafDataIdxs exampleState1.kdTree.m_nodes, d < exampleState1.dataStorage.length) ∧
    (leafDataIdxs exampleState1.kdTree.m_nodes).length = exampleState1.dataStorage.length ∧
    0 < exampleState1.dataStorage.length ∧
    exampleState1.kdTree.m_nodes.length = 2 * exampleState1.dataStorage.length - 1 :=
  leaf_region_bijection exactStatistics id exampleOps.defaultRegion exampleBuildSettings
    exampleState1 (Reachable.build unitCube exampleState0 exampleState1 (by decide!))

end

/-! ## Claim C8: a pass only grows the structure -/

section
variable {α S D σ K : Type} [LinearOrder α]

theorem updateTree_grows (ops : SampleStatisticsOps α S) (position : σ → Vec3 α)
    (bs : Settings) (st st' : BuildState α S D σ)
    (h : updateTree ops position bs st = some st') : Grows ops st st' := by
  simp only [updateTree] at h
  split at h
  · exact absurd h (by simp)
  · exact updateTreeNode_grows ops position bs _ _ _ _ _ _ _ h

/-- C8: an `updateTree` pass only grows the structure. Whenever a pass returns, the node
count and the storage size have not decreased, every storage entry is still at its index
with its region changed by decays only, every inner node is the same inner node (split
axis, split position, left child index), and every leaf is either the same leaf with the
same data index or has become an inner node; and on every state reached by `build` and
earlier passes the pass does return. -/
theorem updateTree_only_grows (ops : SampleStatisticsOps α S) (position : σ → Vec3 α)
    (dflt : Region S D) (bs : Settings) :
    (∀ st st' : BuildState α S D σ, updateTree ops position bs st = some st' →
      st.kdTree.m_nodes.length ≤ st'.kdTree.m_nodes.length ∧
      st.dataStorage.length ≤ st'.dataStorage.length ∧
      (∀ (j : Nat) (e : Region S D × Range), st.dataStorage[j]? = some e →
        ∃ e' k, st'.dataStorage[j]? = some e' ∧ e'.1 = decayTimes ops k e.1) ∧
      (∀ (j : Nat) (dim : Fin 3) (pos : α) (l : Nat),
        st.kdTree.m_nodes[j]? = some (KDNode.inner dim pos l) →
        st'.kdTree.m_nodes[j]? = some (KDNode.inner dim pos l)) ∧
      (∀ j d : Nat, st.kdTree.m_nodes[j]? = some (KDNode.leaf d) →
        st'.kdTree.m_nodes[j]? = some (KDNode.leaf d) ∨
          ∃ dim pos l, st'.kdTree.m_nodes[j]? = some (KDNode.inner dim pos l))) ∧
    (∀ (st : BuildState α S D σ) (buf : List σ), Reachable ops position dflt bs st →
      ∃ st', updateTree ops position bs { st with samples := buf } = some st') := by
  constructor
  · intro st st' h
    have g := updateTree_grows ops position bs st st' h
    exact ⟨g.nodeCount, g.storageSize, g.entryKept, g.innerKept, g.leafKept⟩
  · intro st buf hreach
    have hinv : TreeInv bs.maxDepth ({ st with samples := buf } : BuildState α S D σ) :=
      hreach.inv
    obtain ⟨st', h, -⟩ := updateTree_inv ops position bs _ hinv
    exact ⟨st', h⟩

/-- C8, at a concrete input: a second pass over the five example samples on the state that
`build` leaves for them. -/
theorem updateTree_only_grows_witness :
    ∃ st', updateTree exactStatistics id exampleBuildSettings
        { exampleState1 with samples := exampleSamples } = some st' ∧
      exampleState1.kdTree.m_nodes.length ≤ st'.kdTree.m_nodes.length ∧
      exampleState1.dataStorage.length ≤ st'.dataStorage.length ∧
      (∀ (j : Nat) (dim : Fin 3) (pos : ℚ) (l : Nat),
        exampleState1.kdTree.m_nodes[j]? = some (KDNode.inner dim pos l) →
        st'.kdTree.m_nodes[j]? = some (KDNode.inner dim pos l)) := by
  obtain ⟨st', h⟩ := (updateTree_only_grows exactStatistics id exampleOps.defaultRegion
    exampleBuildSettings).2 exampleState1 exampleSamples
    (Reachable.build unitCube exampleState0 exampleState1 (by decide!))
  have g := (updateTree_only_grows exactStatistics id exampleOps.defaultRegion
    exampleBuildSettings).1 _ st' h
  exact ⟨st', h, g.1, g.2.1, g.2.2.2.1⟩

end

/-! ## Claim C5: the single-split scenario -/

section
variable {α S D σ K : Type} [LinearOrder α]

theorem pivotSplit_pivot (ops : SampleStatisticsOps α S) (position : σ → Vec3 α)
    (samples : List σ) (first last : Nat) (dim : Fin 3) (pivot : α) (sl sr : S) :
    (pivotSplitSamplesWithStats ops position samples first last dim pivot sl sr).2.1
      = first + ((samples.drop first).take (last - first)).countP
          (fun x => decide ((position x).get dim < pivot)) := by
  have hsides := stdPartition_sides (pivotSplitPredicate ops position dim pivot)
    (fun x => decide ((position x).get dim < pivot))
    (by intro x t; simp only [pivotSplitPredicate]; split <;> rfl)
    ((List.take (last - first) (List.drop first samples)).length + 1) none
    (List.take (last - first) (List.drop first samples)) [] [] (sl, sr) le_rfl
    (by simp) (by simp) (by simp)
  have hperm := stdPartition_perm (pivotSplitPredicate ops position dim pivot)
    ((List.take (last - first) (List.drop first samples)).length + 1) none
    (List.take (last - first) (List.drop first samples)) [] [] (sl, sr)
  simp only [Option.toList, List.nil_append, List.append_nil] at hperm
  simp only [pivotSplitSamplesWithStats]
  congr 1
  rw [← hperm.countP_eq, List.countP_append]
  have h1 := (List.countP_eq_length (p := fun x => decide ((position x).get dim < pivot))).mpr
    hsides.1
  have h2 := (List.countP_eq_zero (p := fun x => decide ((position x).get dim < pivot))).mpr
    (fun x hx => by simpa using hsides.2 x hx)
  rw [h1, h2]
  rfl

/-- A leaf that is visited with a non-empty range and is not split records the range. -/
theorem updateTreeNode_record (ops : SampleStatisticsOps α S) (position : σ → Vec3 α)
    (bs : Settings) (fuel : Nat) (st : BuildState α S D σ) (node dataIdx d : Nat)
    (entry : Region S D × Range) (r : Range) (stats : S)
    (hn : st.kdTree.m_nodes[node]? = some (KDNode.leaf dataIdx))
    (he : st.dataStorage[dataIdx]? = some entry)
    (hc : splitCondition ops bs d entry.1.sampleStatistics r = false) (hr : r.size ≠ 0) :
    updateTreeNode ops position bs (fuel + 1) st node d r stats =
      some { st with dataStorage := st.dataStorage.set dataIdx (entry.1, r) } := by
  unfold updateTreeNode
  simp only [if_neg hr, visitNode, hn, he, hc]
  rfl

end

/-! ## Claim C6: an empty sample buffer -/

section
variable {α S D σ K : Type} [LinearOrder α]

theorem updateTreeNode_empty (ops : SampleStatisticsOps α S) (position : σ → Vec3 α)
    (bs : Settings) (fuel : Nat) (st : BuildState α S D σ) (node depth : Nat) (r : Range)
    (stats : S) (hr : r.size = 0) :
    updateTreeNode ops position bs fuel st node depth r stats = some st := by
  unfold updateTreeNode
  rw [if_pos hr]

theorem updateTree_empty (ops : SampleStatisticsOps α S) (position : σ → Vec3 α)
    (bs : Settings) (tree : KDTree α) (storage : List (Region S D × Range))
    (hroot : tree.m_nodes ≠ []) :
    updateTree ops position bs (⟨tree, storage, []⟩ : BuildState α S D σ) =
      some ⟨tree, storage, []⟩ := by
  cases hn : tree.m_nodes with
  | nil => exact absurd hn hroot
  | cons root rest =>
    simp only [updateTree, hn, List.getElem?_cons_zero]
    exact updateTreeNode_empty ops position bs _ _ _ _ _ _ rfl

/-- C6, as the code has it: `updateField` with an empty sample buffer, on a field whose tree
has a root node, leaves every tree node, the bounds, the iteration counter and `totalSPP`
unchanged and makes no change of its own to the region storage: the storage handed to the
hook `updateRegions` is the one before the call, and the storage after the call is what
the hook returns for it (the search tree is rebuilt from the unchanged storage when the
stochastic lookup is enabled). The recursive update step called on any node with an empty
sample range changes nothing. -/
theorem updateField_empty (ops : FieldOps α S D σ K) (f : Field α S D K)
    (hroot : f.m_spatialSubdiv.m_nodes ≠ []) :
    f.updateSpatialStructure ops [] =
      some ({ f with m_regionKNNSearchTree :=
                if f.m_useStochasticNNLookUp then
                  ops.buildRegionSearchTree f.m_regionStorageContainer
                else f.m_regionKNNSearchTree }, []) ∧
    f.updateField ops [] =
      some ({ f with
              m_regionStorageContainer := ops.updateRegions f.m_regionStorageContainer []
              m_regionKNNSearchTree :=
                if f.m_useStochasticNNLookUp then
                  ops.buildRegionSearchTree f.m_regionStorageContainer
                else f.m_regionKNNSearchTree }, []) ∧
    (∀ (bs : Settings) (fuel : Nat) (st : BuildState α S D σ) (node depth : Nat) (r : Range)
      (stats : S), r.size = 0 →
      updateTreeNode ops.stats ops.position bs fuel st node depth r stats = some st) := by
  have hprep : f.prepare ops ([] : List σ) = [] := by
    simp only [Field.prepare, stdSort, List.insertionSort]
    split <;> rfl
  have hsp : f.updateSpatialStructure ops [] =
      some ({ f with m_regionKNNSearchTree :=
                if f.m_useStochasticNNLookUp then
                  ops.buildRegionSearchTree f.m_regionStorageContainer
                else f.m_regionKNNSearchTree }, []) := by
    simp only [Field.updateSpatialStructure,
      updateTree_empty ops.stats ops.position f.m_spatialSubdivBuilderSettings f.m_spatialSubdiv
        f.m_regionStorageContainer hroot]
  refine ⟨hsp, ?_, fun bs fuel st node depth r stats hr =>
    updateTreeNode_empty ops.stats ops.position bs fuel st node depth r stats hr⟩
  simp only [Field.updateField, hprep, hsp]

/-- C6, at a concrete input: the example field after its build. -/
theorem updateField_empty_witness :
    exampleField.updateSpatialStructure exampleOps [] =
      some ({ exampleField with m_regionKNNSearchTree :=
                if exampleField.m_useStochasticNNLookUp then
                  exampleOps.buildRegionSearchTree exampleField.m_regionStorageContainer
                else exampleField.m_regionKNNSearchTree }, []) ∧
    exampleField.updateField exampleOps [] =
      some ({ exampleField with
              m_regionStorageContainer :=
                exampleOps.updateRegions exampleField.m_regionStorageContainer []
              m_regionKNNSearchTree :=
                if exampleField.m_useStochasticNNLookUp then
                  exampleOps.buildRegionSearchTree exampleField.m_regionStorageContainer
                else exampleField.m_regionKNNSearchTree }, []) ∧
    (∀ (bs : Settings) (fuel : Nat) (st : BuildState ℚ RunningStatistics Nat (Vec3 ℚ))
      (node depth : Nat) (r : Range) (stats : RunningStatistics), r.size = 0 →
      updateTreeNode exampleOps.stats exampleOps.position bs fuel st node depth r stats
        = some st) :=
  updateField_empty exampleOps exampleField (by decide!)

/-- C6 as stated fails: on the example field, whose hook `updateRegions` refits every
region, `updateField` with an empty buffer changes every entry of the region storage (the
fit counters of the three regions go from 1 to 2). -/
theorem updateField_empty_changes_storage :
    exampleField.m_regionStorageContainer.map (fun e => e.1.payload) = [1, 1, 1] ∧
    (exampleField.updateField exampleOps []).map
      (fun res => res.1.m_regionStorageContainer.map (fun e => e.1.payload)) =
        some [2, 2, 2] ∧
    (exampleField.updateField exampleOps []).map
      (fun res => res.1.m_regionStorageContainer) ≠
        some exampleField.m_regionStorageContainer := by
  refine ⟨by decide!, by decide!, by decide!⟩

end

/-! ## Claim C7: the two counters -/

section
variable {α S D σ K : Type} [LinearOrder α]

theorem buildField_counters (ops : FieldOps α S D σ K) (f : Field α S D K) (bounds : BBox α)
    (samples : List σ) (res : Field α S D K × List σ)
    (h : f.buildField ops bounds samples = some res) :
    res.1.m_iteration = 0 ∧ res.1.m_totalSPP = 0 := by
  simp only [Field.buildField, Field.buildSpatialStructure] at h
  split at h
  · exact absurd h (by simp)
  · rename_i f2 buf heq
    split at heq
    · exact absurd heq (by simp)
    · simp only [Option.some.injEq, Prod.mk.injEq] at heq
      obtain ⟨rfl, -⟩ := heq
      simp only [Option.some.injEq] at h
      subst h
      exact ⟨rfl, rfl⟩

theorem updateField_counters (ops : FieldOps α S D σ K) (f : Field α S D K)
    (samples : List σ) (res : Field α S D K × List σ)
    (h : f.updateField ops samples = some res) :
    res.1.m_iteration = f.m_iteration ∧ res.1.m_totalSPP = f.m_totalSPP := by
  simp only [Field.updateField, Field.updateSpatialStructure] at h
  split at h
  · exact absurd h (by simp)
  · rename_i f2 buf heq
    split at heq
    · exact absurd heq (by simp)
    · simp only [Option.some.injEq, Prod.mk.injEq] at heq
      obtain ⟨rfl, -⟩ := heq
      simp only [Option.some.injEq] at h
      subst h
      exact ⟨rfl, rfl⟩

theorem sppSinceBuild_cons_of_build (c : FieldCall α σ) (cs : List (FieldCall α σ))
    (h : cs.any FieldCall.isBuildField = true) :
    sppSinceBuild (c :: cs) = sppSinceBuild cs := by
  simp only [sppSinceBuild, h, if_true]

theorem run_counters (ops : FieldOps α S D σ K) :
    ∀ (calls : List (FieldCall α σ)) (f0 f : Field α S D K),
      f0.m_iteration < 2 ^ 32 → f0.m_totalSPP < 2 ^ 32 →
      Field.run ops f0 calls = some f →
      f.m_iteration =
        ((if calls.any FieldCall.isBuildField
          then 0 else f0.m_iteration) + (sppSinceBuild calls).length) % 2 ^ 32 ∧
      f.m_totalSPP =
        ((if calls.any FieldCall.isBuildField
          then 0 else f0.m_totalSPP) + (sppSinceBuild calls).sum) % 2 ^ 32 := by
  intro calls
  induction calls with
  | nil =>
    intro f0 f hi hs h
    simp only [Field.run, Option.some.injEq] at h
    subst h
    simp only [List.any_nil, sppSinceBuild, List.length_nil, List.sum_nil, Nat.add_zero]
    exact ⟨(Nat.mod_eq_of_lt hi).symm, (Nat.mod_eq_of_lt hs).symm⟩
  | cons c cs ih =>
    intro f0 f hi hs h
    simp only [Field.run] at h
    split at h
    · exact absurd h (by simp)
    · rename_i f1 hcall
      have key : f1.m_iteration < 2 ^ 32 ∧ f1.m_totalSPP < 2 ^ 32 ∧
          ((∃ b s, c = FieldCall.buildField b s) ∧ f1.m_iteration = 0 ∧ f1.m_totalSPP = 0 ∨
           (∃ s, c = FieldCall.updateField s) ∧ f1.m_iteration = f0.m_iteration ∧
              f1.m_totalSPP = f0.m_totalSPP ∨
           (∃ spp, c = FieldCall.addTrainingIteration spp ∧
              f1.m_iteration = (f0.m_iteration + 1) % 2 ^ 32 ∧
              f1.m_totalSPP = (f0.m_totalSPP + spp) % 2 ^ 32)) := by
        cases c with
        | buildField b s =>
          simp only [Field.call, Option.map_eq_some'] at hcall
          obtain ⟨res, hres, rfl⟩ := hcall
          have := buildField_counters ops f0 b s res hres
          refine ⟨by rw [this.1]; norm_num, by rw [this.2]; norm_num,
            Or.inl ⟨⟨b, s, rfl⟩, this⟩⟩
        | updateField s =>
          simp only [Field.call, Option.map_eq_some'] at hcall
          obtain ⟨res, hres, rfl⟩ := hcall
          have := updateField_counters ops f0 s res hres
          refine ⟨by rw [this.1]; exact hi, by rw [this.2]; exact hs,
            Or.inr (Or.inl ⟨⟨s, rfl⟩, this⟩)⟩
        | addTrainingIteration spp =>
          simp only [Field.call, Option.some.injEq] at hcall
          subst hcall
          refine ⟨Nat.mod_lt _ (by norm_num), Nat.mod_lt _ (by norm_num),
            Or.inr (Or.inr ⟨spp, rfl, rfl, rfl⟩)⟩
      obtain ⟨hi1, hs1, hcase⟩ := key
      obtain ⟨ih1, ih2⟩ := ih f1 f hi1 hs1 h
      by_cases hany : cs.any FieldCall.isBuildField = true
      · rw [sppSinceBuild_cons_of_build c cs hany]
        simp only [List.any_cons, hany, Bool.or_true, if_true] at ih1 ih2 ⊢
        exact ⟨ih1, ih2⟩
      · simp only [hany] at ih1 ih2
        rcases hcase with ⟨⟨b, s, rfl⟩, h1, h2⟩ | ⟨⟨s, rfl⟩, h1, h2⟩ | ⟨spp, rfl, h1, h2⟩
        · simp only [List.any_cons, FieldCall.isBuildField, Bool.true_or, if_true, sppSinceBuild,
            hany, if_false]
          rw [h1] at ih1
          rw [h2] at ih2
          simp only [Bool.false_eq_true, if_false] at ih1 ih2 ⊢
          exact ⟨ih1, ih2⟩
        · simp only [List.any_cons, FieldCall.isBuildField, Bool.false_or, hany, sppSinceBuild,
            if_false]
          rw [h1] at ih1
          rw [h2] at ih2
          simp only [Bool.false_eq_true, if_false] at ih1 ih2 ⊢
          exact ⟨ih1, ih2⟩
        · simp only [List.any_cons, FieldCall.isBuildField, Bool.false_or, hany, sppSinceBuild,
            if_false]
          rw [h1] at ih1
          rw [h2] at ih2
          simp only [Bool.false_eq_true, if_false, List.length_cons, List.sum_cons]
            at ih1 ih2 ⊢
          constructor
          · rw [ih1]; omega
          · rw [ih2]; omega

/-- C7: after any sequence of `buildField`, `updateField` and `addTrainingIteration` calls
on a field constructed with both counters at 0, `getIteration()` is the number of
`addTrainingIteration` calls made since the most recent `buildField` (or since
construction) and `getTotalSPP()` is the sum of their `spp` arguments, both modulo `2^32`;
`buildField` sets both counters to 0, `updateField` changes neither, and
`addTrainingIteration` changes no member other than the two counters. -/
theorem counter_bookkeeping (ops : FieldOps α S D σ K) :
    (∀ (calls : List (FieldCall α σ)) (f0 f : Field α S D K),
      f0.m_iteration = 0 → f0.m_totalSPP = 0 → Field.run ops f0 calls = some f →
      f.getIteration = (sppSinceBuild calls).length % 2 ^ 32 ∧
      f.getTotalSPP = (sppSinceBuild calls).sum % 2 ^ 32) ∧
    (∀ (f : Field α S D K) (bounds : BBox α) (samples : List σ) (res : Field α S D K × List σ),
      f.buildField ops bounds samples = some res →
      res.1.getIteration = 0 ∧ res.1.getTotalSPP = 0) ∧
    (∀ (f : Field α S D K) (samples : List σ) (res : Field α S D K × List σ),
      f.updateField ops samples = some res →
      res.1.getIteration = f.getIteration ∧ res.1.getTotalSPP = f.getTotalSPP) ∧
    (∀ (f : Field α S D K) (spp : Nat),
      (f.addTrainingIteration spp).getIteration = (f.getIteration + 1) % 2 ^ 32 ∧
      (f.addTrainingIteration spp).getTotalSPP = (f.getTotalSPP + spp) % 2 ^ 32 ∧
      (f.addTrainingIteration spp).m_nCores = f.m_nCores ∧
      (f.addTrainingIteration spp).m_regionStorageContainer = f.m_regionStorageContainer ∧
      (f.addTrainingIteration spp).m_decayOnSpatialSplit = f.m_decayOnSpatialSplit ∧
      (f.addTrainingIteration spp).m_deterministic = f.m_deterministic ∧
      (f.addTrainingIteration spp).m_useStochasticNNLookUp = f.m_useStochasticNNLookUp ∧
      (f.addTrainingIteration spp).m_spatialSubdivBuilderSettings =
        f.m_spatialSubdivBuilderSettings ∧
      (f.addTrainingIteration spp).m_spatialSubdiv = f.m_spatialSubdiv ∧
      (f.addTrainingIteration spp).m_regionKNNSearchTree = f.m_regionKNNSearchTree) := by
  refine ⟨?_, ?_, ?_, ?_⟩
  · intro calls f0 f hi hs hrun
    have h := run_counters ops calls f0 f (by rw [hi]; norm_num) (by rw [hs]; norm_num) hrun
    rw [hi, hs] at h
    simpa [Field.getIteration, Field.getTotalSPP] using h
  · intro f bounds samples res h
    exact buildField_counters ops f bounds samples res h
  · intro f samples res h
    exact updateField_counters ops f samples res h
  · intro f spp
    exact ⟨rfl, rfl, rfl, rfl, rfl, rfl, rfl, rfl, rfl, rfl⟩

/-- C7, at a concrete input: after an iteration with 3 spp, the build, an iteration with 4
spp, an update and an iteration with 5 spp, the counters read 2 and 9. -/
theorem counter_bookkeeping_witness :
    ∃ f, Field.run exampleOps exampleFresh exampleCalls = some f ∧
      f.getIteration = 2 ∧ f.getTotalSPP = 9 := by
  obtain ⟨f, hf⟩ := Option.isSome_iff_exists.mp
    (show (Field.run exampleOps exampleFresh exampleCalls).isSome = true by decide!)
  have h := (counter_bookkeeping exampleOps).1 exampleCalls exampleFresh f rfl rfl hf
  exact ⟨f, hf, h.1.trans (by decide), h.2.trans (by decide)⟩

end

/-! ## Claim C10: determinism of the build -/

section
variable {α S D σ K : Type} [LinearOrder α]

/-- For a strict total order, sorting rearrangements of one buffer gives one result. -/
theorem stdSort_eq_of_perm (less : σ → σ → Bool) (a b : List σ) (hperm : a.Perm b)
    (hirr : ∀ x, less x x = false)
    (htrans : ∀ x y z, less x y = true → less y z = true → less x z = true)
    (htot : ∀ x y, x ≠ y → less x y = true ∨ less y x = true) :
    stdSort less a = stdSort less b := by
  have total : IsTotal σ (fun x y => less y x = false) := by
    constructor
    intro x y
    by_cases h1 : less y x = true
    · right
      by_contra h2
      have h2' : less x y = true := by simpa using h2
      have := htrans x y x h2' h1
      rw [hirr x] at this
      exact absurd this (by simp)
    · left; simpa using h1
  have trans : IsTrans σ (fun x y => less y x = false) := by
    constructor
    intro x y z hxy hyz
    by_contra h
    have hzx : less z x = true := by simpa using h
    by_cases hxy' : x = y
    · subst hxy'
      rw [hzx] at hyz
      exact absurd hyz (by simp)
    · rcases htot x y hxy' with h1 | h1
      · have := htrans z x y hzx h1
        rw [this] at hyz
        exact absurd hyz (by simp)
      · rw [h1] at hxy
        exact absurd hxy (by simp)
  have antisymm : IsAntisymm σ (fun x y => less y x = false) := by
    constructor
    intro x y hxy hyx
    by_contra hne
    rcases htot x y hne with h1 | h1
    · rw [h1] at hyx; exact absurd hyx (by simp)
    · rw [h1] at hxy; exact absurd hxy (by simp)
  simp only [stdSort]
  refine List.eq_of_perm_of_sorted ?_ (List.sorted_insertionSort _ a)
    (List.sorted_insertionSort _ b)
  exact ((List.perm_insertionSort _ a).trans hperm).trans (List.perm_insertionSort _ b).symm

theorem buildField_total (ops : FieldOps α S D σ K) (f : Field α S D K) (bounds : BBox α)
    (samples : List σ) (hmax : 0 < f.m_spatialSubdivBuilderSettings.maxSamples) :
    ∃ res, f.buildField ops bounds samples = some res := by
  obtain ⟨st', h, -⟩ := build_post ops.stats ops.position ops.defaultRegion bounds
    f.m_spatialSubdivBuilderSettings
    (⟨f.m_spatialSubdiv, f.m_regionStorageContainer,
      Field.prepare ops { f with m_iteration := 0, m_totalSPP := 0 } samples⟩ :
      BuildState α S D σ) hmax
  simp only [Field.buildField, Field.buildSpatialStructure, h]
  exact ⟨_, rfl⟩

/-- C10, as the code has it: in deterministic mode, for a comparison of samples that is a
strict total order, and with the recursion of the builder executed sequentially (the task
for a left child run where it is created, before the call for the right child),
`buildField` over two buffers that are rearrangements of one another, on the same field
with the same bounds, gives the same result: the same tree nodes, the same region storage
with the same ranges, and the same buffer contents behind those ranges; and for
`maxSamples > 0` it does give a result. -/
theorem buildField_deterministic (ops : FieldOps α S D σ K) (f : Field α S D K)
    (bounds : BBox α) (a b : List σ) (hdet : f.m_deterministic = true) (hperm : a.Perm b)
    (hirr : ∀ x, ops.less x x = false)
    (htrans : ∀ x y z, ops.less x y = true → ops.less y z = true → ops.less x z = true)
    (htot : ∀ x y, x ≠ y → ops.less x y = true ∨ ops.less y x = true) :
    f.buildField ops bounds a = f.buildField ops bounds b ∧
    (0 < f.m_spatialSubdivBuilderSettings.maxSamples →
      ∃ res, f.buildField ops bounds a = some res ∧ f.buildField ops bounds b = some res ∧
        (∀ res', f.updateField ops a = some res' → f.updateField ops b = some res')) := by
  have hsort := stdSort_eq_of_perm ops.less a b hperm hirr htrans htot
  have hprep : Field.prepare ops { f with m_iteration := 0, m_totalSPP := 0 } a =
      Field.prepare ops { f with m_iteration := 0, m_totalSPP := 0 } b := by
    simp only [Field.prepare, hdet, if_true, hsort]
  have hprep' : f.prepare ops a = f.prepare ops b := by
    simp only [Field.prepare, hdet, if_true, hsort]
  have heq : f.buildField ops bounds a = f.buildField ops bounds b := by
    simp only [Field.buildField, hprep]
  refine ⟨heq, fun hmax => ?_⟩
  obtain ⟨res, hres⟩ := buildField_total ops f bounds a hmax
  refine ⟨res, hres, heq ▸ hres, ?_⟩
  intro res' h
  simp only [Field.updateField, hprep'] at h ⊢
  exact h

theorem lexLess_irrefl (x : Vec3 ℚ) : lexLess x x = false := by
  simp [lexLess]

theorem lexLess_trans (x y z : Vec3 ℚ) (h1 : lexLess x y = true) (h2 : lexLess y z = true) :
    lexLess x z = true := by
  simp only [lexLess, Bool.or_eq_true, Bool.and_eq_true, decide_eq_true_eq] at h1 h2 ⊢
  rcases h1 with h1 | ⟨e1, h1⟩
  · rcases h2 with h2 | ⟨e2, h2⟩
    · exact Or.inl (lt_trans h1 h2)
    · exact Or.inl (e2 ▸ h1)
  · rcases h2 with h2 | ⟨e2, h2⟩
    · exact Or.inl (e1 ▸ h2)
    · refine Or.inr ⟨e1.trans e2, ?_⟩
      rcases h1 with h1 | ⟨f1, h1⟩
      · rcases h2 with h2 | ⟨f2, h2⟩
        · exact Or.inl (lt_trans h1 h2)
        · exact Or.inl (f2 ▸ h1)
      · rcases h2 with h2 | ⟨f2, h2⟩
        · exact Or.inl (f1 ▸ h2)
        · exact Or.inr ⟨f1.trans f2, lt_trans h1 h2⟩

theorem lexLess_total (x y : Vec3 ℚ) (hne : x ≠ y) :
    lexLess x y = true ∨ lexLess y x = true := by
  simp only [lexLess, Bool.or_eq_true, Bool.and_eq_true, decide_eq_true_eq]
  rcases lt_trichotomy x.x y.x with h | h | h
  · exact Or.inl (Or.inl h)
  · rcases lt_trichotomy x.y y.y with h' | h' | h'
    · exact Or.inl (Or.inr ⟨h, Or.inl h'⟩)
    · rcases lt_trichotomy x.z y.z with h'' | h'' | h''
      · exact Or.inl (Or.inr ⟨h, Or.inr ⟨h', h''⟩⟩)
      · exfalso
        apply hne
        cases x; cases y
        simp only at h h' h''
        subst h h' h''
        rfl
      · exact Or.inr (Or.inr ⟨h.symm, Or.inr ⟨h'.symm, h''⟩⟩)
    · exact Or.inr (Or.inr ⟨h.symm, Or.inl h'⟩)
  · exact Or.inr (Or.inl h)

/-- C10, at a concrete input: the deterministic example field built over the five example
samples and over the same samples in reverse order. -/
theorem buildField_deterministic_witness :
    exampleFresh.buildField exampleOps unitCube exampleSamples =
      exampleFresh.buildField exampleOps unitCube exampleSamples.reverse ∧
    (0 < exampleFresh.m_spatialSubdivBuilderSettings.maxSamples →
      ∃ res, exampleFresh.buildField exampleOps unitCube exampleSamples = some res ∧
        exampleFresh.buildField exampleOps unitCube exampleSamples.reverse = some res ∧
        (∀ res', exampleFresh.updateField exampleOps exampleSamples = some res' →
          exampleFresh.updateField exampleOps exampleSamples.reverse = some res')) :=
  buildField_deterministic exampleOps exampleFresh unitCube exampleSamples
    exampleSamples.reverse rfl (List.reverse_perm exampleSamples).symm lexLess_irrefl
    lexLess_trans lexLess_total

/-- C10 as stated fails: the result of `buildField` depends on when the deferred tasks of
the builder run. In deterministic mode, over the same buffer of four samples (at most 1
sample per leaf, depth limit 3), the run that executes every task where it is created and
the run that executes it when the call for the right child has returned leave different
node sequences (the children of node 1 are the nodes 3, 4 in one and 5, 6 in the other,
and the leaves hold other data indices) and the ranges at other storage indices. -/
theorem buildField_depends_on_schedule :
    scheduleFresh.m_deterministic = true ∧
    (scheduleFresh.buildField exampleOps unitCube (exampleSamples.take 4)).map
      (fun res => (res.1.m_spatialSubdiv.m_nodes,
        res.1.m_regionStorageContainer.map Prod.snd)) =
      some ([KDNode.inner 0 (15 / 32) 1, KDNode.inner 2 (7 / 16) 3,
          KDNode.inner 0 (11 / 16) 5, KDNode.leaf 0, KDNode.leaf 2, KDNode.leaf 1,
          KDNode.leaf 3],
        [⟨0, 1⟩, ⟨2, 3⟩, ⟨1, 2⟩, ⟨3, 4⟩]) ∧
    (scheduleFresh.buildFieldRightFirst exampleOps unitCube (exampleSamples.take 4)).map
      (fun res => (res.1.m_spatialSubdiv.m_nodes,
        res.1.m_regionStorageContainer.map Prod.snd)) =
      some ([KDNode.inner 0 (15 / 32) 1, KDNode.inner 2 (7 / 16) 5,
          KDNode.inner 0 (11 / 16) 3, KDNode.leaf 1, KDNode.leaf 2, KDNode.leaf 0,
          KDNode.leaf 3],
        [⟨0, 1⟩, ⟨2, 3⟩, ⟨3, 4⟩, ⟨1, 2⟩]) ∧
    (scheduleFresh.buildField exampleOps unitCube (exampleSamples.take 4)).map
      (fun res => res.1.m_spatialSubdiv.m_nodes) ≠
    (scheduleFresh.buildFieldRightFirst exampleOps unitCube (exampleSamples.take 4)).map
      (fun res => res.1.m_spatialSubdiv.m_nodes) := by
  refine ⟨rfl, by decide!, by decide!, by decide!⟩

end

/-! ## Claims C13 and C14: the split plane -/

section
variable {α S D σ K : Type} [LinearOrder α]

theorem maxDimension_ge (v : Vec3 α) :
    v.get 0 ≤ v.get (maxDimension v) ∧ v.get 1 ≤ v.get (maxDimension v) ∧
      v.get 2 ≤ v.get (maxDimension v) := by
  simp only [maxDimension]
  by_cases h10 : v.get 1 > v.get 0
  · simp only [h10, if_true]
    by_cases h12 : v.get 1 > v.get 2
    · simp only [h12, if_true]
      exact ⟨le_of_lt h10, le_rfl, le_of_lt h12⟩
    · simp only [h12, if_false]
      have h21 : v.get 1 ≤ v.get 2 := not_lt.mp h12
      exact ⟨le_trans (le_of_lt h10) h21, h21, le_rfl⟩
  · simp only [h10, if_false]
    have h01 : v.get 1 ≤ v.get 0 := not_lt.mp h10
    by_cases h02 : v.get 0 > v.get 2
    · simp only [h02, if_true]
      exact ⟨le_rfl, h01, le_of_lt h02⟩
    · simp only [h02, if_false]
      have h20 : v.get 0 ≤ v.get 2 := not_lt.mp h02
      exact ⟨h20, le_trans h01 h20, le_rfl⟩

/-- C13: for every statistics object, `getSplitDimensionAndPosition` returns an axis among
0, 1, 2 whose variance is at least the variance of each of the three axes (an argmax of
the variances), and as split position the mean along that axis. -/
theorem split_plane_selection (ops : SampleStatisticsOps α S) (sampleStats : S) :
    (getSplitDimensionAndPosition ops sampleStats).1.val < 3 ∧
    (ops.getVaraince sampleStats).get 0 ≤
      (ops.getVaraince sampleStats).get (getSplitDimensionAndPosition ops sampleStats).1 ∧
    (ops.getVaraince sampleStats).get 1 ≤
      (ops.getVaraince sampleStats).get (getSplitDimensionAndPosition ops sampleStats).1 ∧
    (ops.getVaraince sampleStats).get 2 ≤
      (ops.getVaraince sampleStats).get (getSplitDimensionAndPosition ops sampleStats).1 ∧
    (getSplitDimensionAndPosition ops sampleStats).2 =
      (ops.getMean sampleStats).get (getSplitDimensionAndPosition ops sampleStats).1 := by
  have h := maxDimension_ge (ops.getVaraince sampleStats)
  exact ⟨(getSplitDimensionAndPosition ops sampleStats).1.isLt, h.1, h.2.1, h.2.2, rfl⟩

/-- The axis that `maxDimension` returns: axis 2 whenever its value is at least the values
of axes 0 and 1; otherwise axis 1 if its value exceeds that of axis 0, else axis 0. -/
theorem maxDimension_cases (v : Vec3 α) :
    (v.get 0 ≤ v.get 2 → v.get 1 ≤ v.get 2 → maxDimension v = 2) ∧
    (v.get 2 < v.get 0 → v.get 1 ≤ v.get 0 → maxDimension v = 0) ∧
    (v.get 2 < v.get 1 → v.get 0 < v.get 1 → maxDimension v = 1) := by
  refine ⟨?_, ?_, ?_⟩
  · intro h0 h1
    simp only [maxDimension]
    by_cases h10 : v.get 1 > v.get 0
    · simp only [h10, if_true, gt_iff_lt, not_lt.mpr h1, if_false]
    · simp only [h10, if_false, gt_iff_lt, not_lt.mpr h0]
  · intro h0 h1
    simp only [maxDimension]
    simp only [gt_iff_lt, not_lt.mpr h1, if_false, h0, if_true]
  · intro h1 h0
    simp only [maxDimension]
    simp only [gt_iff_lt, h0, if_true, h1]

/-- C14, as the code has it: among the axes that share the maximum variance,
`getSplitDimensionAndPosition` chooses axis 2 whenever axis 2 is one of them, and axis 0
when only axes 0 and 1 share it; in full, it returns axis 2 if the variance of axis 2 is at
least those of axes 0 and 1, else axis 0 if the variance of axis 0 is at least that of
axis 1, else axis 1. -/
theorem split_axis_tie_break (ops : SampleStatisticsOps α S) (sampleStats : S) :
    ((ops.getVaraince sampleStats).get 0 ≤ (ops.getVaraince sampleStats).get 2 →
      (ops.getVaraince sampleStats).get 1 ≤ (ops.getVaraince sampleStats).get 2 →
      (getSplitDimensionAndPosition ops sampleStats).1 = 2) ∧
    ((ops.getVaraince sampleStats).get 2 < (ops.getVaraince sampleStats).get 0 →
      (ops.getVaraince sampleStats).get 1 ≤ (ops.getVaraince sampleStats).get 0 →
      (getSplitDimensionAndPosition ops sampleStats).1 = 0) ∧
    ((ops.getVaraince sampleStats).get 2 < (ops.getVaraince sampleStats).get 1 →
      (ops.getVaraince sampleStats).get 0 < (ops.getVaraince sampleStats).get 1 →
      (getSplitDimensionAndPosition ops sampleStats).1 = 1) :=
  maxDimension_cases (ops.getVaraince sampleStats)

/-- C14, at concrete inputs: a tie of axes 0 and 1 above axis 2 goes to axis 0, and a tie of
all three axes goes to axis 2. -/
theorem split_axis_tie_break_witness :
    (getSplitDimensionAndPosition exactStatistics ⟨1, ⟨0, 0, 0⟩, ⟨2, 2, 1⟩⟩).1 = 0 ∧
    (getSplitDimensionAndPosition exactStatistics ⟨1, ⟨0, 0, 0⟩, ⟨1, 1, 1⟩⟩).1 = 2 :=
  ⟨(split_axis_tie_break exactStatistics ⟨1, ⟨0, 0, 0⟩, ⟨2, 2, 1⟩⟩).2.1 (by decide!)
      (by decide!),
    (split_axis_tie_break exactStatistics ⟨1, ⟨0, 0, 0⟩, ⟨1, 1, 1⟩⟩).1 (by decide!)
      (by decide!)⟩

/-- C14 as stated fails: for equal variances on all three axes (1, 1, 1 and also 0, 0, 0),
for a tie of axes 0 and 2 above axis 1 and for a tie of axes 1 and 2 above axis 0, the
axis chosen is 2, not the lowest-numbered axis of maximum variance. -/
theorem split_axis_tie_goes_to_axis_two :
    (getSplitDimensionAndPosition exactStatistics ⟨1, ⟨0, 0, 0⟩, ⟨1, 1, 1⟩⟩).1 = 2 ∧
    (getSplitDimensionAndPosition exactStatistics ⟨1, ⟨0, 0, 0⟩, ⟨0, 0, 0⟩⟩).1 = 2 ∧
    (getSplitDimensionAndPosition exactStatistics ⟨1, ⟨0, 0, 0⟩, ⟨1, 0, 1⟩⟩).1 = 2 ∧
    (getSplitDimensionAndPosition exactStatistics ⟨1, ⟨0, 0, 0⟩, ⟨0, 1, 1⟩⟩).1 = 2 ∧
    exactStatistics.getVaraince ⟨1, ⟨0, 0, 0⟩, ⟨1, 1, 1⟩⟩ = ⟨1, 1, 1⟩ ∧
    exactStatistics.getVaraince ⟨1, ⟨0, 0, 0⟩, ⟨1, 0, 1⟩⟩ = ⟨1, 0, 1⟩ := by
  refine ⟨by decide!, by decide!, by decide!, by decide!, by decide!, by decide!⟩

end

/-! ## Claim C15: the in-place partition -/

section
variable {α S D σ K : Type} [LinearOrder α]

theorem slice_of_append {β : Type} (pre mid post : List β) :
    ((pre ++ mid ++ post).drop pre.length).take mid.length = mid := by
  rw [List.append_assoc, List.drop_left, List.take_left]

/-- C15: for every sample range `[begin, end)` of the buffer, axis and pivot,
`pivotSplitSamplesWithStats` returns a position `p` with `begin ≤ p ≤ end` such that
afterwards every sample in `[begin, p)` has `position[axis] < pivot` and every sample in
`[p, end)` has `position[axis] ≥ pivot`; the contents of `[begin, end)` are a rearrangement
of their previous contents, the buffer keeps its size, and the samples outside
`[begin, end)` are unchanged. -/
theorem partition_postcondition (ops : SampleStatisticsOps α S) (position : σ → Vec3 α)
    (samples : List σ) (first last : Nat) (dim : Fin 3) (pivot : α) (sl sr : S)
    (h1 : first ≤ last) (h2 : last ≤ samples.length) :
    first ≤ (pivotSplitSamplesWithStats ops position samples first last dim pivot sl sr).2.1 ∧
    (pivotSplitSamplesWithStats ops position samples first last dim pivot sl sr).2.1 ≤ last ∧
    (∀ (k : Nat) (x : σ), first ≤ k →
      k < (pivotSplitSamplesWithStats ops position samples first last dim pivot sl sr).2.1 →
      (pivotSplitSamplesWithStats ops position samples first last dim pivot sl sr).1[k]?
        = some x → (position x).get dim < pivot) ∧
    (∀ (k : Nat) (x : σ),
      (pivotSplitSamplesWithStats ops position samples first last dim pivot sl sr).2.1 ≤ k →
      k < last →
      (pivotSplitSamplesWithStats ops position samples first last dim pivot sl sr).1[k]?
        = some x → pivot ≤ (position x).get dim) ∧
    (((pivotSplitSamplesWithStats ops position samples first last dim pivot sl sr).1.drop
        first).take (last - first)).Perm ((samples.drop first).take (last - first)) ∧
    (pivotSplitSamplesWithStats ops position samples first last dim pivot sl sr).1.length
      = samples.length ∧
    (∀ k : Nat, k < first ∨ last ≤ k →
      (pivotSplitSamplesWithStats ops position samples first last dim pivot sl sr).1[k]?
        = samples[k]?) := by
  obtain ⟨hframe, hp1, hp2, hl, hr⟩ :=
    pivotSplit_frame ops position samples first last dim pivot sl sr h1 h2
  refine ⟨hp1, hp2, hl, fun k x a b c => not_lt.mp (hr k x a b c), ?_, hframe.length_eq,
    fun k hk => hframe.get_outside k hk⟩
  obtain ⟨pre, mid, mid', post, e1, e2, e3, e4, hperm⟩ := hframe
  have hm : last - pre.length = mid.length := by omega
  rw [e2]
  conv_rhs => rw [e1]
  rw [← e3, hm]
  rw [slice_of_append pre mid post]
  rw [← hperm.length_eq, slice_of_append pre mid' post]
  exact hperm

/-- C15, at a concrete input: the five example samples, partitioned along axis 0 at 1/2. -/
theorem partition_postcondition_witness :
    (0 : Nat) ≤ (pivotSplitSamplesWithStats exactStatistics id exampleSamples 0 5 0 (1 / 2)
      exactStatistics.init exactStatistics.init).2.1 ∧
    (pivotSplitSamplesWithStats exactStatistics id exampleSamples 0 5 0 (1 / 2)
      exactStatistics.init exactStatistics.init).2.1 ≤ 5 ∧
    (∀ (k : Nat) (x : Vec3 ℚ), 0 ≤ k →
      k < (pivotSplitSamplesWithStats exactStatistics id exampleSamples 0 5 0 (1 / 2)
        exactStatistics.init exactStatistics.init).2.1 →
      (pivotSplitSamplesWithStats exactStatistics id exampleSamples 0 5 0 (1 / 2)
        exactStatistics.init exactStatistics.init).1[k]? = some x →
      (id x).get 0 < 1 / 2) ∧
    (pivotSplitSamplesWithStats exactStatistics id exampleSamples 0 5 0 (1 / 2)
      exactStatistics.init exactStatistics.init).1.length = exampleSamples.length := by
  have h := partition_postcondition exactStatistics id exampleSamples 0 5 0 (1 / 2)
    exactStatistics.init exactStatistics.init (by decide) (by decide)
  exact ⟨h.1, h.2.1, h.2.2.1, h.2.2.2.2.2.1⟩

end

/-! ## Claim C16: statistics gathered by the partition scan -/

section
variable {α S D σ K : Type} [LinearOrder α]

/-- The statistics that the partition scan gathers: the left statistics are the samples
put to the left added in their final order, the right statistics are the samples put to
the right added in some order (the sample in the hole has been added before). -/
theorem stdPartition_stats (ops : SampleStatisticsOps α S) (position : σ → Vec3 α)
    (dim : Fin 3) (pivot : α) :
    ∀ (n : Nat) (hole : Option σ) (mid L R : List σ) (t : S × S),
      mid.length + 1 ≤ n →
      ∃ newL newR orderR : List σ,
        (stdPartition (pivotSplitPredicate ops position dim pivot) n hole mid L R t).1
          = L ++ newL ∧
        (stdPartition (pivotSplitPredicate ops position dim pivot) n hole mid L R t).2.1
          = newR ++ R ∧
        newR.Perm (hole.toList ++ orderR) ∧
        (stdPartition (pivotSplitPredicate ops position dim pivot) n hole mid L R t).2.2.1
          = newL.foldl (fun s x => ops.addSample s (position x)) t.1 ∧
        (stdPartition (pivotSplitPredicate ops position dim pivot) n hole mid L R t).2.2.2
          = orderR.foldl (fun s x => ops.addSample s (position x)) t.2 := by
  intro n
  induction n with
  | zero => intro hole mid L R t hn; omega
  | succ n ih =>
    intro hole mid L R t hn
    cases hole with
    | none =>
      cases mid with
      | nil => exact ⟨[], [], [], by simp [stdPartition]⟩
      | cons x rest =>
        have hlen : rest.length + 1 ≤ n := by simpa using hn
        simp only [stdPartition]
        by_cases hp : (position x).get dim < pivot
        · have h1 : (pivotSplitPredicate ops position dim pivot x t).1 = true := by
            simp [pivotSplitPredicate, hp]
          have h2 : (pivotSplitPredicate ops position dim pivot x t).2 =
              (ops.addSample t.1 (position x), t.2) := by
            simp [pivotSplitPredicate, hp]
          rw [if_pos h1, h2]
          obtain ⟨newL, newR, orderR, e1, e2, e3, e4, e5⟩ :=
            ih none rest (L ++ [x]) R (ops.addSample t.1 (position x), t.2) hlen
          refine ⟨x :: newL, newR, orderR, ?_, e2, e3, ?_, e5⟩
          · rw [e1]; simp
          · rw [e4]; rfl
        · have h1 : ¬ (pivotSplitPredicate ops position dim pivot x t).1 = true := by
            simp [pivotSplitPredicate, hp]
          have h2 : (pivotSplitPredicate ops position dim pivot x t).2 =
              (t.1, ops.addSample t.2 (position x)) := by
            simp [pivotSplitPredicate, hp]
          rw [if_neg h1, h2]
          obtain ⟨newL, newR, orderR, e1, e2, e3, e4, e5⟩ :=
            ih (some x) rest L R (t.1, ops.addSample t.2 (position x)) hlen
          refine ⟨newL, newR, x :: orderR, e1, e2, ?_, e4, ?_⟩
          · simpa using e3
          · rw [e5]; rfl
    | some x =>
      simp only [stdPartition]
      cases hlast : mid.getLast? with
      | none => exact ⟨[], [x], [], by simp⟩
      | some y =>
        have hmid : mid = mid.dropLast ++ [y] :=
          (List.dropLast_append_getLast? y hlast).symm
        have hlen : mid.dropLast.length + 1 ≤ n := by
          have : mid.length = mid.dropLast.length + 1 := by
            conv_lhs => rw [hmid]
            simp
          omega
        simp only
        by_cases hp : (position y).get dim < pivot
        · have h1 : (pivotSplitPredicate ops position dim pivot y t).1 = true := by
            simp [pivotSplitPredicate, hp]
          have h2 : (pivotSplitPredicate ops position dim pivot y t).2 =
              (ops.addSample t.1 (position y), t.2) := by
            simp [pivotSplitPredicate, hp]
          rw [if_pos h1, h2]
          obtain ⟨newL, newR, orderR, e1, e2, e3, e4, e5⟩ :=
            ih none mid.dropLast (L ++ [y]) (x :: R) (ops.addSample t.1 (position y), t.2) hlen
          refine ⟨y :: newL, newR ++ [x], orderR, ?_, ?_, ?_, ?_, e5⟩
          · rw [e1]; simp
          · rw [e2]; simp
          · simp only [Option.toList, List.nil_append, List.singleton_append] at e3 ⊢
            exact (List.perm_append_comm.trans (List.Perm.cons x e3))
          · rw [e4]; rfl
        · have h1 : ¬ (pivotSplitPredicate ops position dim pivot y t).1 = true := by
            simp [pivotSplitPredicate, hp]
          have h2 : (pivotSplitPredicate ops position dim pivot y t).2 =
              (t.1, ops.addSample t.2 (position y)) := by
            simp [pivotSplitPredicate, hp]
          rw [if_neg h1, h2]
          obtain ⟨newL, newR, orderR, e1, e2, e3, e4, e5⟩ :=
            ih (some x) mid.dropLast L (y :: R) (t.1, ops.addSample t.2 (position y)) hlen
          refine ⟨newL, newR ++ [y], y :: orderR, e1, ?_, ?_, e4, ?_⟩
          · rw [e2]; simp
          · simp only [Option.toList, List.singleton_append] at e3 ⊢
            exact (List.perm_append_comm.trans (List.Perm.cons y e3)).trans
              (List.Perm.swap x y orderR)
          · rw [e5]; rfl

theorem numSamples_foldl (ops : SampleStatisticsOps α S) (position : σ → Vec3 α)
    (hadd : ∀ (s : S) (p : Vec3 α), ops.numSamples (ops.addSample s p) = ops.numSamples s + 1) :
    ∀ (l : List σ) (s : S),
      ops.numSamples (l.foldl (fun s x => ops.addSample s (position x)) s) =
        ops.numSamples s + (l.length : ℚ) := by
  intro l
  induction l with
  | nil => intro s; simp
  | cons x rest ih =>
    intro s
    rw [List.foldl_cons, ih, hadd, List.length_cons]
    push_cast
    ring

/-- The two parts that the partition leaves in the buffer, with their statistics. -/
theorem pivotSplit_stats (ops : SampleStatisticsOps α S) (position : σ → Vec3 α)
    (samples : List σ) (first last : Nat) (dim : Fin 3) (pivot : α) (sl sr : S)
    (h1 : first ≤ last) (h2 : last ≤ samples.length) :
    ∃ newL newR orderR : List σ,
      ((pivotSplitSamplesWithStats ops position samples first last dim pivot sl sr).1.drop
        first).take
        ((pivotSplitSamplesWithStats ops position samples first last dim pivot sl sr).2.1
          - first) = newL ∧
      ((pivotSplitSamplesWithStats ops position samples first last dim pivot sl sr).1.drop
        (pivotSplitSamplesWithStats ops position samples first last dim pivot sl sr).2.1).take
        (last -
          (pivotSplitSamplesWithStats ops position samples first last dim pivot sl sr).2.1)
        = newR ∧
      (pivotSplitSamplesWithStats ops position samples first last dim pivot sl sr).2.1
        = first + newL.length ∧
      first + newL.length + newR.length = last ∧
      orderR.Perm newR ∧
      (pivotSplitSamplesWithStats ops position samples first last dim pivot sl sr).2.2.1
        = newL.foldl (fun s x => ops.addSample s (position x)) sl ∧
      (pivotSplitSamplesWithStats ops position samples first last dim pivot sl sr).2.2.2
        = orderR.foldl (fun s x => ops.addSample s (position x)) sr := by
  have hlen : (List.take (last - first) (List.drop first samples)).length = last - first := by
    simp only [List.length_take, List.length_drop]; omega
  obtain ⟨newL, newR, orderR, e1, e2, e3, e4, e5⟩ := stdPartition_stats ops position dim pivot
    ((List.take (last - first) (List.drop first samples)).length + 1) none
    (List.take (last - first) (List.drop first samples)) [] [] (sl, sr) le_rfl
  have hperm := (stdPartition_perm (pivotSplitPredicate ops position dim pivot)
    ((List.take (last - first) (List.drop first samples)).length + 1) none
    (List.take (last - first) (List.drop first samples)) [] [] (sl, sr)).length_eq
  simp only [List.nil_append, List.append_nil, Option.toList] at e1 e2 e3 hperm
  rw [e1, e2, List.length_append, hlen] at hperm
  have htake : (samples.take first).length = first := by
    simp only [List.length_take]; omega
  simp only [pivotSplitSamplesWithStats, e1, e2, e4, e5]
  generalize samples.drop (first + (List.take (last - first) (List.drop first samples)).length)
    = post
  generalize samples.take first = pre at htake
  refine ⟨newL, newR, orderR, ?_, ?_, rfl, by omega, e3.symm, rfl, rfl⟩
  · rw [Nat.add_sub_cancel_left, ← htake, List.append_assoc, List.drop_left,
      List.append_assoc, List.take_left]
  · have hl : (pre ++ newL).length = first + newL.length := by
      rw [List.length_append, htake]
    rw [show last - (first + newL.length) = newR.length by omega, ← hl,
      ← List.append_assoc, List.append_assoc _ newR, List.drop_left, List.take_left]

/-- The statistics that the partition scan gathers from cleared statistics are those of a
separate pass: the left statistics are the samples of the left sub-range added in buffer
order, the right statistics are the samples of the right sub-range added once each in some
order (in buffer order too when the order of adding does not matter), and when adding a
sample counts one and cleared statistics count nothing, the two sample counts are the
sizes of the two sub-ranges and sum to the size of the range. -/
theorem pivotSplit_separate_pass (ops : SampleStatisticsOps α S) (position : σ → Vec3 α)
    (samples : List σ) (first last : Nat) (dim : Fin 3) (pivot : α)
    (h1 : first ≤ last) (h2 : last ≤ samples.length) :
    (pivotSplitSamplesWithStats ops position samples first last dim pivot
        (ops.clear ops.init) (ops.clear ops.init)).2.2.1 =
      separatePassStatistics ops position
        (pivotSplitSamplesWithStats ops position samples first last dim pivot
          (ops.clear ops.init) (ops.clear ops.init)).1 first
        (pivotSplitSamplesWithStats ops position samples first last dim pivot
          (ops.clear ops.init) (ops.clear ops.init)).2.1 ∧
    (∃ order : List σ,
      order.Perm
        (((pivotSplitSamplesWithStats ops position samples first last dim pivot
          (ops.clear ops.init) (ops.clear ops.init)).1.drop
            (pivotSplitSamplesWithStats ops position samples first last dim pivot
              (ops.clear ops.init) (ops.clear ops.init)).2.1).take
          (last - (pivotSplitSamplesWithStats ops position samples first last dim pivot
              (ops.clear ops.init) (ops.clear ops.init)).2.1)) ∧
      (pivotSplitSamplesWithStats ops position samples first last dim pivot
          (ops.clear ops.init) (ops.clear ops.init)).2.2.2 =
        order.foldl (fun s x => ops.addSample s (position x)) (ops.clear ops.init)) ∧
    ((∀ (s : S) (p q : Vec3 α),
        ops.addSample (ops.addSample s p) q = ops.addSample (ops.addSample s q) p) →
      (pivotSplitSamplesWithStats ops position samples first last dim pivot
          (ops.clear ops.init) (ops.clear ops.init)).2.2.2 =
        separatePassStatistics ops position
          (pivotSplitSamplesWithStats ops position samples first last dim pivot
            (ops.clear ops.init) (ops.clear ops.init)).1
          (pivotSplitSamplesWithStats ops position samples first last dim pivot
            (ops.clear ops.init) (ops.clear ops.init)).2.1 last) ∧
    (ops.numSamples (ops.clear ops.init) = 0 →
      (∀ (s : S) (p : Vec3 α), ops.numSamples (ops.addSample s p) = ops.numSamples s + 1) →
      ops.numSamples (pivotSplitSamplesWithStats ops position samples first last dim pivot
          (ops.clear ops.init) (ops.clear ops.init)).2.2.1 =
        (((pivotSplitSamplesWithStats ops position samples first last dim pivot
          (ops.clear ops.init) (ops.clear ops.init)).2.1 - first : Nat) : ℚ) ∧
      ops.numSamples (pivotSplitSamplesWithStats ops position samples first last dim pivot
          (ops.clear ops.init) (ops.clear ops.init)).2.2.2 =
        ((last - (pivotSplitSamplesWithStats ops position samples first last dim pivot
          (ops.clear ops.init) (ops.clear ops.init)).2.1 : Nat) : ℚ) ∧
      ops.numSamples (pivotSplitSamplesWithStats ops position samples first last dim pivot
          (ops.clear ops.init) (ops.clear ops.init)).2.2.1 +
        ops.numSamples (pivotSplitSamplesWithStats ops position samples first last dim pivot
          (ops.clear ops.init) (ops.clear ops.init)).2.2.2 =
        ((last - first : Nat) : ℚ)) := by
  obtain ⟨newL, newR, order, e1, e2, e3, e4, e5, e6, e7⟩ := pivotSplit_stats ops position
    samples first last dim pivot (ops.clear ops.init) (ops.clear ops.init) h1 h2
  refine ⟨?_, ⟨order, ?_, e7⟩, ?_, ?_⟩
  · rw [separatePassStatistics, e1, e6]
  · rw [e2]; exact e5
  · intro hcomm
    rw [separatePassStatistics, e2, e7]
    exact e5.foldl_eq' (fun x _ y _ z => hcomm z (position x) (position y)) _
  · intro hclear hadd
    have hL := numSamples_foldl ops position hadd newL (ops.clear ops.init)
    have hR := numSamples_foldl ops position hadd order (ops.clear ops.init)
    rw [hclear, zero_add] at hL hR
    rw [e6, e7, hL, hR, e3, e5.length_eq]
    have a1 : first + newL.length - first = newL.length := by omega
    have a2 : last - (first + newL.length) = newR.length := by omega
    have a3 : last - first = newL.length + newR.length := by omega
    rw [a1, a2, a3]
    push_cast
    exact ⟨rfl, rfl, rfl⟩

/-- The step on an inner node: the range is partitioned at the node's plane with two
cleared statistics, and the two parts go to the children with the statistics gathered. -/
theorem updateTreeNode_inner (ops : SampleStatisticsOps α S) (position : σ → Vec3 α)
    (bs : Settings) (fuel : Nat) (st : BuildState α S D σ) (node depth left : Nat)
    (dim : Fin 3) (pos : α) (r : Range) (stats : S)
    (hn : st.kdTree.m_nodes[node]? = some (KDNode.inner dim pos left)) (hr : r.size ≠ 0) :
    updateTreeNode ops position bs (fuel + 1) st node depth r stats =
      match updateTreeNode ops position bs fuel
          { st with samples :=
            (pivotSplitSamplesWithStats ops position st.samples r.start r.stop dim pos
              (ops.clear ops.init) (ops.clear ops.init)).1 }
          left (depth + 1)
          ⟨r.start, (pivotSplitSamplesWithStats ops position st.samples r.start r.stop dim pos
              (ops.clear ops.init) (ops.clear ops.init)).2.1⟩
          (pivotSplitSamplesWithStats ops position st.samples r.start r.stop dim pos
              (ops.clear ops.init) (ops.clear ops.init)).2.2.1 with
      | none => none
      | some st2 =>
        updateTreeNode ops position bs fuel st2 (left + 1) (depth + 1)
          ⟨(pivotSplitSamplesWithStats ops position st.samples r.start r.stop dim pos
              (ops.clear ops.init) (ops.clear ops.init)).2.1, r.stop⟩
          (pivotSplitSamplesWithStats ops position st.samples r.start r.stop dim pos
              (ops.clear ops.init) (ops.clear ops.init)).2.2.2 := by
  conv_lhs => unfold updateTreeNode
  simp only [if_neg hr, visitNode, hn]

/-- The visit of a leaf whose split test holds: the state after the split branch, the
plane chosen and the index of the left child. -/
theorem visitNode_split (ops : SampleStatisticsOps α S) (bs : Settings)
    (st : BuildState α S D σ) (node dataIdx depth : Nat) (entry : Region S D × Range)
    (r : Range) (stats : S)
    (hn : st.kdTree.m_nodes[node]? = some (KDNode.leaf dataIdx))
    (he : st.dataStorage[dataIdx]? = some entry)
    (hc : splitCondition ops bs depth entry.1.sampleStatistics r = true) :
    visitNode ops bs st node depth r stats =
      Visit.descend (splitLeaf ops st node dataIdx entry stats).1
        (getSplitDimensionAndPosition ops stats).1 (getSplitDimensionAndPosition ops stats).2
        st.kdTree.m_nodes.length := by
  simp only [visitNode, hn, he, hc, if_true]
  simp only [(splitLeaf_rest ops st node dataIdx entry stats).2.2.1,
    (splitLeaf_rest ops st node dataIdx entry stats).2.2.2.1,
    (splitLeaf_rest ops st node dataIdx entry stats).2.2.2.2]

/-- The remainder of a step that goes on below a node (an inner node, or a leaf that has
just been split): the range is partitioned at the plane with two cleared statistics, and
the two parts go to the children with the statistics gathered. -/
theorem updateTreeNode_descend (ops : SampleStatisticsOps α S) (position : σ → Vec3 α)
    (bs : Settings) (fuel : Nat) (st st1 : BuildState α S D σ) (node depth left : Nat)
    (dim : Fin 3) (pos : α) (r : Range) (stats : S)
    (hv : visitNode ops bs st node depth r stats = Visit.descend st1 dim pos left)
    (hr : r.size ≠ 0) :
    updateTreeNode ops position bs (fuel + 1) st node depth r stats =
      match updateTreeNode ops position bs fuel
          { st1 with samples :=
            (pivotSplitSamplesWithStats ops position st1.samples r.start r.stop dim pos
              (ops.clear ops.init) (ops.clear ops.init)).1 }
          left (depth + 1)
          ⟨r.start, (pivotSplitSamplesWithStats ops position st1.samples r.start r.stop dim pos
              (ops.clear ops.init) (ops.clear ops.init)).2.1⟩
          (pivotSplitSamplesWithStats ops position st1.samples r.start r.stop dim pos
              (ops.clear ops.init) (ops.clear ops.init)).2.2.1 with
      | none => none
      | some st2 =>
        updateTreeNode ops position bs fuel st2 (left + 1) (depth + 1)
          ⟨(pivotSplitSamplesWithStats ops position st1.samples r.start r.stop dim pos
              (ops.clear ops.init) (ops.clear ops.init)).2.1, r.stop⟩
          (pivotSplitSamplesWithStats ops position st1.samples r.start r.stop dim pos
              (ops.clear ops.init) (ops.clear ops.init)).2.2.2 := by
  conv_lhs => unfold updateTreeNode
  simp only [if_neg hr, hv]

/-- C16: in every step of `updateTreeNode` that goes on below a node (the node is an inner
node, or a leaf that is split in the step), with `buf` the buffer and `p` the position that
the partition of the range `[start, stop)` leaves, the step is the call on the left child
with the range `[start, p)` and the statistics of a separate pass over `[start, p)` of
`buf` (each sample added once, in buffer order, to cleared statistics), followed by the
call on the right child with the range `[p, stop)` and the statistics obtained by adding to
cleared statistics the samples of `[p, stop)` of `buf`, each once (in the order `order`;
the statistics of the separate pass in buffer order when the order of adding does not
matter). When adding a sample counts one and cleared statistics count nothing, the sample
counts of the two statistics handed down are `p - start` and `stop - p` and sum to the
size of the range. -/
theorem scan_statistics (ops : SampleStatisticsOps α S) (position : σ → Vec3 α)
    (bs : Settings) (fuel : Nat) (st st1 : BuildState α S D σ) (node depth left : Nat)
    (dim : Fin 3) (pos : α) (r : Range) (stats : S)
    (hv : visitNode ops bs st node depth r stats = Visit.descend st1 dim pos left)
    (hr : r.size ≠ 0) (hri : r.stop ≤ st1.samples.length) :
    ∃ (buf : List σ) (p : Nat) (order : List σ),
      buf = (pivotSplitSamplesWithStats ops position st1.samples r.start r.stop dim pos
        (ops.clear ops.init) (ops.clear ops.init)).1 ∧
      p = (pivotSplitSamplesWithStats ops position st1.samples r.start r.stop dim pos
        (ops.clear ops.init) (ops.clear ops.init)).2.1 ∧
      r.start ≤ p ∧ p ≤ r.stop ∧
      order.Perm ((buf.drop p).take (r.stop - p)) ∧
      updateTreeNode ops position bs (fuel + 1) st node depth r stats =
        (match updateTreeNode ops position bs fuel { st1 with samples := buf } left
            (depth + 1) ⟨r.start, p⟩ (separatePassStatistics ops position buf r.start p) with
          | none => none
          | some st2 =>
            updateTreeNode ops position bs fuel st2 (left + 1) (depth + 1) ⟨p, r.stop⟩
              (order.foldl (fun s x => ops.addSample s (position x)) (ops.clear ops.init))) ∧
      ((∀ (s : S) (a b : Vec3 α),
          ops.addSample (ops.addSample s a) b = ops.addSample (ops.addSample s b) a) →
        order.foldl (fun s x => ops.addSample s (position x)) (ops.clear ops.init) =
          separatePassStatistics ops position buf p r.stop) ∧
      (ops.numSamples (ops.clear ops.init) = 0 →
        (∀ (s : S) (a : Vec3 α), ops.numSamples (ops.addSample s a) = ops.numSamples s + 1) →
        ops.numSamples (separatePassStatistics ops position buf r.start p) =
          ((p - r.start : Nat) : ℚ) ∧
        ops.numSamples (order.foldl (fun s x => ops.addSample s (position x))
          (ops.clear ops.init)) = ((r.stop - p : Nat) : ℚ) ∧
        ops.numSamples (separatePassStatistics ops position buf r.start p) +
          ops.numSamples (order.foldl (fun s x => ops.addSample s (position x))
            (ops.clear ops.init)) = (r.size : ℚ)) := by
  have hro : r.start ≤ r.stop := by
    have : r.size = r.stop - r.start := rfl
    omega
  have hstep := updateTreeNode_descend ops position bs fuel st st1 node depth left dim pos r
    stats hv hr
  obtain ⟨hL, ⟨order, hperm, hR⟩, hcomm, hcount⟩ := pivotSplit_separate_pass ops position
    st1.samples r.start r.stop dim pos hro hri
  obtain ⟨-, hp1, hp2, -, -⟩ := pivotSplit_frame ops position st1.samples r.start r.stop dim
    pos (ops.clear ops.init) (ops.clear ops.init) hro hri
  refine ⟨_, _, order, rfl, rfl, hp1, hp2, hperm, ?_, ?_, ?_⟩
  · rw [hstep, ← hL, ← hR]
  · intro hc
    rw [← hR]
    exact hcomm hc
  · intro h0 h1
    obtain ⟨c1, c2, c3⟩ := hcount h0 h1
    rw [← hL, ← hR]
    refine ⟨c1, c2, ?_⟩
    rw [c3]
    rfl

/-- C16, at a concrete input: the root leaf of a fresh tree visited at depth 1 with the
five example samples (limit 2 per leaf) is split, and the two statistics handed to its
children are those of the two sub-ranges; their sample counts sum to 5. -/
theorem scan_statistics_witness :
    ∃ (buf : List (Vec3 ℚ)) (p : Nat) (order : List (Vec3 ℚ)),
      0 ≤ p ∧ p ≤ 5 ∧
      order.Perm ((buf.drop p).take (5 - p)) ∧
      exactStatistics.numSamples (separatePassStatistics exactStatistics id buf 0 p) +
        exactStatistics.numSamples
          (order.foldl (fun s x => exactStatistics.addSample s (id x))
            (exactStatistics.clear exactStatistics.init)) = 5 := by
  obtain ⟨buf, p, order, -, -, hp1, hp2, hperm, -, -, hcount⟩ :=
    scan_statistics exactStatistics id exampleBuildSettings 5 exampleStateInit
      (splitLeaf exactStatistics exampleStateInit 0 0 (exampleOps.defaultRegion, ⟨0, 0⟩)
        (rootStatistics exactStatistics id (KDNode.leaf 0) exampleSamples)).1
      0 1 1 _ _ ⟨0, 5⟩ (rootStatistics exactStatistics id (KDNode.leaf 0) exampleSamples)
      (visitNode_split exactStatistics exampleBuildSettings exampleStateInit 0 0 1
        (exampleOps.defaultRegion, ⟨0, 0⟩) ⟨0, 5⟩ _ (by decide!) (by decide!) (by decide!))
      (by decide) (by decide!)
  exact ⟨buf, p, order, hp1, hp2, hperm,
    (hcount rfl (fun _ _ => rfl)).2.2.trans (by decide!)⟩

end

/-! ## Claims C18 and C19: the two outcomes of a leaf visit -/

section
variable {α S D σ K : Type} [LinearOrder α]

/-- C18: when a leaf `N` with data index `i` is split, the storage grows by exactly one
entry, at the index `r` that was the storage size before; entry `r` and entry `i` both are
the old entry `i` with its region decayed (same range), every other entry stays as it is;
two nodes are added, `N` becomes an inner node with the chosen plane whose left child, at
the old node count, is a leaf holding `i` and whose right child, next to it, is a leaf
holding `r`; every other node stays as it is. When the whole step has returned, `N` is
still that inner node. -/
theorem duplicate_on_split (ops : SampleStatisticsOps α S) (position : σ → Vec3 α)
    (bs : Settings) (st : BuildState α S D σ) (node dataIdx depth : Nat)
    (entry : Region S D × Range) (r : Range) (stats : S)
    (hn : st.kdTree.m_nodes[node]? = some (KDNode.leaf dataIdx))
    (he : st.dataStorage[dataIdx]? = some entry)
    (hc : splitCondition ops bs depth entry.1.sampleStatistics r = true) :
    ∃ st1 : BuildState α S D σ,
      visitNode ops bs st node depth r stats =
        Visit.descend st1 (getSplitDimensionAndPosition ops stats).1
          (getSplitDimensionAndPosition ops stats).2 st.kdTree.m_nodes.length ∧
      st1.dataStorage.length = st.dataStorage.length + 1 ∧
      st1.dataStorage[st.dataStorage.length]? =
        some ({ entry.1 with
                sampleStatistics := ops.decay entry.1.sampleStatistics (1 / 2) }, entry.2) ∧
      st1.dataStorage[dataIdx]? =
        some ({ entry.1 with
                sampleStatistics := ops.decay entry.1.sampleStatistics (1 / 2) }, entry.2) ∧
      (∀ j : Nat, j ≠ dataIdx → j < st.dataStorage.length →
        st1.dataStorage[j]? = st.dataStorage[j]?) ∧
      st1.kdTree.m_nodes.length = st.kdTree.m_nodes.length + 2 ∧
      st1.kdTree.m_nodes[node]? =
        some (KDNode.inner (getSplitDimensionAndPosition ops stats).1
          (getSplitDimensionAndPosition ops stats).2 st.kdTree.m_nodes.length) ∧
      st1.kdTree.m_nodes[st.kdTree.m_nodes.length]? = some (KDNode.leaf dataIdx) ∧
      st1.kdTree.m_nodes[st.kdTree.m_nodes.length + 1]? =
        some (KDNode.leaf st.dataStorage.length) ∧
      (∀ j : Nat, j ≠ node → j < st.kdTree.m_nodes.length →
        st1.kdTree.m_nodes[j]? = st.kdTree.m_nodes[j]?) ∧
      st1.samples = st.samples ∧
      (∀ (fuel : Nat) (st' : BuildState α S D σ), r.size ≠ 0 →
        updateTreeNode ops position bs (fuel + 1) st node depth r stats = some st' →
        st'.kdTree.m_nodes[node]? =
          some (KDNode.inner (getSplitDimensionAndPosition ops stats).1
            (getSplitDimensionAndPosition ops stats).2 st.kdTree.m_nodes.length)) := by
  have hnode := get?_lt hn
  have hdata := get?_lt he
  have hdec : (decayTimes ops 1 entry.1 : Region S D) =
      { entry.1 with sampleStatistics := ops.decay entry.1.sampleStatistics (1 / 2) } := by
    simp [decayTimes]
  have hinner := splitLeaf_nodes_get ops st node dataIdx entry stats node hnode
  rw [if_pos rfl] at hinner
  refine ⟨(splitLeaf ops st node dataIdx entry stats).1,
    visitNode_split ops bs st node dataIdx depth entry r stats hn he hc,
    splitLeaf_storage_length ops st node dataIdx entry stats, ?_, ?_, ?_,
    splitLeaf_nodes_length ops st node dataIdx entry stats, hinner, ?_, ?_, ?_,
    (splitLeaf_rest ops st node dataIdx entry stats).1, ?_⟩
  · rw [splitLeaf_storage_get ops st node dataIdx entry stats _ hdata, if_pos (Or.inr rfl),
      hdec]
  · rw [splitLeaf_storage_get ops st node dataIdx entry stats _ hdata, if_pos (Or.inl rfl),
      hdec]
  · intro j hj hlt
    rw [splitLeaf_storage_get ops st node dataIdx entry stats _ hdata, if_neg (by omega)]
  · rw [splitLeaf_nodes_get ops st node dataIdx entry stats _ hnode, if_neg (by omega),
      if_pos rfl]
  · rw [splitLeaf_nodes_get ops st node dataIdx entry stats _ hnode, if_neg (by omega),
      if_neg (by omega), if_pos rfl]
  · intro j hj hlt
    rw [splitLeaf_nodes_get ops st node dataIdx entry stats _ hnode, if_neg hj,
      if_neg (by omega), if_neg (by omega)]
  · intro fuel st' hr h
    rw [updateTreeNode_split_eq ops position bs fuel st node dataIdx depth entry r stats hn he
      hc hr] at h
    exact (updateTreeNode_grows ops position bs _ _ _ _ _ _ _ h).innerKept _ _ _ _ hinner

/-- C18, at a concrete input: the root leaf of a fresh tree, visited at depth 1 with the
five example samples (limit 2 per leaf); the storage has two entries and the pool three
nodes afterwards. -/
theorem duplicate_on_split_witness :
    ∃ st1 : BuildState ℚ RunningStatistics Nat (Vec3 ℚ),
      visitNode exactStatistics exampleBuildSettings exampleStateInit 0 1 ⟨0, 5⟩
          exactStatistics.init =
        Visit.descend st1 (getSplitDimensionAndPosition exactStatistics exactStatistics.init).1
          (getSplitDimensionAndPosition exactStatistics exactStatistics.init).2
          exampleStateInit.kdTree.m_nodes.length ∧
      st1.dataStorage.length = 2 ∧ st1.kdTree.m_nodes.length = 3 ∧
      st1.kdTree.m_nodes[1]? = some (KDNode.leaf 0) ∧
      st1.kdTree.m_nodes[2]? = some (KDNode.leaf 1) := by
  obtain ⟨st1, h1, h2, -, -, -, h6, -, h8, h9, -⟩ :=
    duplicate_on_split exactStatistics id exampleBuildSettings exampleStateInit 0 0 1
      (exampleOps.defaultRegion, ⟨0, 0⟩) ⟨0, 5⟩ exactStatistics.init (by decide!) (by decide!)
      (by decide!)
  exact ⟨st1, h1, h2, h6, h8, h9⟩

/-- C19: a leaf that receives a non-empty range and is not split records the range and the
step stops: afterwards the stored range of its entry is that range, the region of the
entry (statistics included) is the one before, every other storage entry, the storage
size, every tree node, the bounds and the sample buffer are unchanged. -/
theorem non_split_leaf_frame (ops : SampleStatisticsOps α S) (position : σ → Vec3 α)
    (bs : Settings) (fuel : Nat) (st : BuildState α S D σ) (node dataIdx depth : Nat)
    (entry : Region S D × Range) (r : Range) (stats : S)
    (hn : st.kdTree.m_nodes[node]? = some (KDNode.leaf dataIdx))
    (he : st.dataStorage[dataIdx]? = some entry)
    (hc : splitCondition ops bs depth entry.1.sampleStatistics r = false) (hr : r.size ≠ 0) :
    ∃ st' : BuildState α S D σ,
      updateTreeNode ops position bs (fuel + 1) st node depth r stats = some st' ∧
      st'.kdTree = st.kdTree ∧ st'.samples = st.samples ∧
      st'.dataStorage.length = st.dataStorage.length ∧
      st'.dataStorage[dataIdx]? = some (entry.1, r) ∧
      (∀ j : Nat, j ≠ dataIdx → st'.dataStorage[j]? = st.dataStorage[j]?) := by
  refine ⟨_, updateTreeNode_record ops position bs fuel st node dataIdx depth entry r stats hn
    he hc hr, rfl, rfl, by simp, ?_, ?_⟩
  · simp only
    rw [List.getElem?_set_self (get?_lt he)]
  · intro j hj
    simp only
    rw [List.getElem?_set_ne (by omega)]

/-- C19, at a concrete input: the root leaf of a fresh tree visited at depth 1 with the
first two of the example samples (limit 2 per leaf) records the range `[0, 2)`. -/
theorem non_split_leaf_frame_witness :
    ∃ st' : BuildState ℚ RunningStatistics Nat (Vec3 ℚ),
      updateTreeNode exactStatistics id exampleBuildSettings (0 + 1) exampleStateInit 0 1
        ⟨0, 2⟩ exactStatistics.init = some st' ∧
      st'.kdTree = exampleStateInit.kdTree ∧ st'.samples = exampleStateInit.samples ∧
      st'.dataStorage.length = exampleStateInit.dataStorage.length ∧
      st'.dataStorage[0]? = some (exampleOps.defaultRegion, ⟨0, 2⟩) ∧
      (∀ j : Nat, j ≠ 0 → st'.dataStorage[j]? = exampleStateInit.dataStorage[j]?) :=
  non_split_leaf_frame exactStatistics id exampleBuildSettings 0 exampleStateInit 0 0 1
    (exampleOps.defaultRegion, ⟨0, 0⟩) ⟨0, 2⟩ exactStatistics.init (by decide!) (by decide!)
    (by decide!) (by decide!)

end

/-! ## Claim C17: sub-ranges of at most one sample -/

section
variable {α S D σ K : Type} [LinearOrder α]

/-- C17, evaluated on the code: the field built over two samples (limit 2 per leaf, depth
limit 2) has a single root leaf whose region counts 2 samples; an update with a single
sample hands the root leaf a range of size 1, and the root is split: it becomes an inner
node with two leaf children, the storage gets a second entry, and the two sub-ranges handed
to the children hold 0 and 1 samples (the entry of the left leaf keeps the range of the
build, the entry of the right leaf records the range of the one sample). -/
theorem tiny_range_is_split :
    countedField.m_spatialSubdiv.m_nodes = [KDNode.leaf 0] ∧
    countedField.m_regionStorageContainer.map (fun e => e.1.sampleStatistics.count) = [2] ∧
    (countedField.updateSpatialStructure countingOps [(⟨1 / 2, 1 / 2, 1 / 2⟩ : Vec3 ℚ)]).map
      (fun res => res.1.m_spatialSubdiv.m_nodes) =
        some [KDNode.inner 2 (1 / 2) 1, KDNode.leaf 0, KDNode.leaf 1] ∧
    (countedField.updateSpatialStructure countingOps [(⟨1 / 2, 1 / 2, 1 / 2⟩ : Vec3 ℚ)]).map
      (fun res => res.1.m_regionStorageContainer.map Prod.snd) =
        some [⟨0, 2⟩, ⟨0, 1⟩] ∧
    (pivotSplitSamplesWithStats exactStatistics id [(⟨1 / 2, 1 / 2, 1 / 2⟩ : Vec3 ℚ)] 0 1 2
      (1 / 2) (exactStatistics.clear exactStatistics.init)
      (exactStatistics.clear exactStatistics.init)).2.1 = 0 ∧
    (countedField.updateField countingOps [(⟨1 / 2, 1 / 2, 1 / 2⟩ : Vec3 ℚ)]).map
      (fun res => res.1.m_spatialSubdiv.m_nodes) =
        some [KDNode.inner 2 (1 / 2) 1, KDNode.leaf 0, KDNode.leaf 1] := by
  refine ⟨by decide!, by decide!, by decide!, by decide!, by decide!, by decide!⟩

end

/-! ## Claim C11: the decay factor of a split -/

section
variable {α S D σ K : Type} [LinearOrder α]

/-- C11, evaluated on the code: the factor by which a split decays the region statistics
is the constant 1/2 of the builder, not the configured `decayOnSpatialSplit`. An update
leaves the same tree, storage and buffer whatever factor the field holds; and on the field
built with the default factor 1/4 whose single region counts 2 samples, an update with one
sample splits the root and leaves the count 1 = 2 * 1/2 in the split region and in its
appended duplicate, not 1/2 = 2 * 1/4 (and the same counts with the factor set to 1/10). -/
theorem split_decay_ignores_setting :
    (∀ (f : Field ℚ RunningStatistics Nat (List Nat)) (factor : ℚ) (buf : List (Vec3 ℚ)),
      (Field.updateField countingOps { f with m_decayOnSpatialSplit := factor } buf).map
          (fun res => (res.1.m_spatialSubdiv, res.1.m_regionStorageContainer, res.2)) =
        (f.updateField countingOps buf).map
          (fun res => (res.1.m_spatialSubdiv, res.1.m_regionStorageContainer, res.2))) ∧
    countedField.m_decayOnSpatialSplit = 1 / 4 ∧
    countedField.m_spatialSubdiv.m_nodes = [KDNode.leaf 0] ∧
    countedField.m_regionStorageContainer.map (fun e => e.1.sampleStatistics.count) = [2] ∧
    (countedField.updateSpatialStructure countingOps [(⟨1 / 2, 1 / 2, 1 / 2⟩ : Vec3 ℚ)]).map
      (fun res => (res.1.m_spatialSubdiv.m_nodes,
        res.1.m_regionStorageContainer.map (fun e => e.1.sampleStatistics.count))) =
      some ([KDNode.inner 2 (1 / 2) 1, KDNode.leaf 0, KDNode.leaf 1], [1, 1]) ∧
    (Field.updateSpatialStructure countingOps { countedField with m_decayOnSpatialSplit := 1 / 10 }
        [(⟨1 / 2, 1 / 2, 1 / 2⟩ : Vec3 ℚ)]).map
      (fun res => (res.1.m_spatialSubdiv.m_nodes,
        res.1.m_regionStorageContainer.map (fun e => e.1.sampleStatistics.count))) =
      some ([KDNode.inner 2 (1 / 2) 1, KDNode.leaf 0, KDNode.leaf 1], [1, 1]) := by
  refine ⟨?_, by decide!, by decide!, by decide!, by decide!, by decide!⟩
  intro f factor buf
  simp only [Field.updateField, Field.updateSpatialStructure, Field.prepare]
  cases updateTree countingOps.stats countingOps.position f.m_spatialSubdivBuilderSettings
    ⟨f.m_spatialSubdiv, f.m_regionStorageContainer,
      if f.m_deterministic = true then stdSort countingOps.less buf else buf⟩ <;> rfl

end

/-! ## Claim C12: the iteration counter -/

section
variable {α S D σ K : Type} [LinearOrder α]

theorem sppSinceBuild_updates_then_iterations (updates : List (List σ)) (spps : List Nat) :
    (updates.map FieldCall.updateField ++ spps.map FieldCall.addTrainingIteration :
        List (FieldCall α σ)).any FieldCall.isBuildField = false ∧
    sppSinceBuild (updates.map FieldCall.updateField ++
      spps.map FieldCall.addTrainingIteration : List (FieldCall α σ)) = spps := by
  induction updates with
  | nil =>
    induction spps with
    | nil => exact ⟨rfl, rfl⟩
    | cons s rest ih =>
      simp only [List.map_nil, List.nil_append, List.map_cons] at ih ⊢
      refine ⟨?_, ?_⟩
      · simp only [List.any_cons, FieldCall.isBuildField, ih.1, Bool.or_self]
      · simp only [sppSinceBuild, ih.1, ih.2, Bool.false_eq_true, if_false]
  | cons u rest ih =>
    simp only [List.map_cons, List.cons_append]
    refine ⟨?_, ?_⟩
    · simp only [List.any_cons, FieldCall.isBuildField, ih.1, Bool.or_self]
    · simp only [sppSinceBuild, ih.1, ih.2, Bool.false_eq_true, if_false]

theorem getGuidingRegion_before_training (ops : FieldOps α S D σ K) (f : Field α S D K)
    (h : f.m_iteration = 0) (p : Vec3 α) (sampler : Sampler α) :
    f.getGuidingRegion ops p sampler = some RegionPtr.null := by
  simp [Field.getGuidingRegion, h]

/-- C12, as the code has it: the iteration counter counts the `addTrainingIteration` calls
since the last `buildField`, not the build and update passes. After `buildField` followed
by `k ≥ 0` `updateField` calls and then `j ≥ 0` `addTrainingIteration` calls,
`getIteration()` returns `j` (modulo `2^32`); so after `buildField` and `k` `updateField`
calls and no other calls it returns 0, and every position is still answered with
'no region'. -/
theorem iteration_counts_training_calls (ops : FieldOps α S D σ K) (f0 f : Field α S D K)
    (bounds : BBox α) (samples : List σ) (updates : List (List σ)) (spps : List Nat)
    (hrun : Field.run ops f0 (FieldCall.buildField bounds samples ::
      (updates.map FieldCall.updateField ++ spps.map FieldCall.addTrainingIteration)) =
        some f) :
    f.getIteration = spps.length % 2 ^ 32 ∧
    (spps = [] → f.getIteration = 0 ∧
      ∀ (p : Vec3 α) (sampler : Sampler α),
        f.getGuidingRegion ops p sampler = some RegionPtr.null) := by
  have hspp := @sppSinceBuild_updates_then_iterations α σ _ updates spps
  simp only [Field.run, Field.call] at hrun
  cases hb : f0.buildField ops bounds samples with
  | none =>
    rw [hb] at hrun
    exact absurd hrun (by simp)
  | some res =>
    rw [hb] at hrun
    simp only [Option.map_some'] at hrun
    have hc := buildField_counters ops f0 bounds samples res hb
    have h := run_counters ops _ res.1 f (by rw [hc.1]; norm_num) (by rw [hc.2]; norm_num) hrun
    rw [hspp.1, hspp.2, hc.1] at h
    simp only [Bool.false_eq_true, if_false, Nat.zero_add] at h
    have hit : f.getIteration = spps.length % 2 ^ 32 := h.1
    refine ⟨hit, ?_⟩
    intro hnil
    have h0 : f.m_iteration = 0 := by
      rw [h.1, hnil]
      rfl
    exact ⟨h0, fun p sampler => getGuidingRegion_before_training ops f h0 p sampler⟩

/-- C12, at a concrete input: after the build over the example samples and one update,
the iteration counter reads 0. -/
theorem iteration_counts_training_calls_witness :
    ∃ f, Field.run exampleOps exampleFresh (FieldCall.buildField unitCube exampleSamples ::
        ([exampleSamples].map FieldCall.updateField ++
          ([] : List Nat).map FieldCall.addTrainingIteration)) = some f ∧
      f.getIteration = 0 ∧
      f.getGuidingRegion exampleOps ⟨1 / 2, 1 / 2, 1 / 2⟩ ⟨0⟩ = some RegionPtr.null := by
  obtain ⟨f, hf⟩ := Option.isSome_iff_exists.mp
    (show (Field.run exampleOps exampleFresh (FieldCall.buildField unitCube exampleSamples ::
        ([exampleSamples].map FieldCall.updateField ++
          ([] : List Nat).map FieldCall.addTrainingIteration))).isSome = true by decide!)
  have h := iteration_counts_training_calls exampleOps exampleFresh f unitCube exampleSamples
    [exampleSamples] [] hf
  exact ⟨f, hf, (h.2 rfl).1, (h.2 rfl).2 _ _⟩

/-- C12 as stated fails: after `buildField` over the example samples and no `updateField`
call (`k = 0`), `getIteration()` returns 0, not 1, and the position (1/2, 1/2, 1/2) inside
the bounds is answered with 'no region'; after one more `updateField` the counter still
reads 0, not 2. -/
theorem iteration_zero_after_build :
    (exampleFresh.buildField exampleOps unitCube exampleSamples).map
      (fun res => (res.1.getIteration, inside res.1.m_spatialSubdiv.bounds ⟨1 / 2, 1 / 2, 1 / 2⟩,
        res.1.getGuidingRegion exampleOps ⟨1 / 2, 1 / 2, 1 / 2⟩ ⟨0⟩)) =
      some (0, true, some RegionPtr.null) ∧
    (Field.run exampleOps exampleFresh
      [FieldCall.buildField unitCube exampleSamples, FieldCall.updateField exampleSamples]).map
      (fun f => f.getIteration) = some 0 := by
  refine ⟨by decide!, by decide!⟩

end

/-! ## Claim C20: termination and the depth of the recursion -/

section
variable {α S D σ K : Type} [LinearOrder α]

/-- The record of the calls does not change what the step does to the state. -/
theorem updateTreeNodeCalls_state (ops : SampleStatisticsOps α S) (position : σ → Vec3 α)
    (bs : Settings) :
    ∀ (fuel : Nat) (st : BuildState α S D σ) (node d : Nat) (r : Range) (stats : S),
      (updateTreeNodeCalls ops position bs fuel st node d r stats).map Prod.fst =
        updateTreeNode ops position bs fuel st node d r stats := by
  intro fuel
  induction fuel with
  | zero =>
    intro st node d r stats
    unfold updateTreeNodeCalls updateTreeNode
    by_cases hr : r.size = 0
    · simp only [if_pos hr, Option.map_some']
    · simp only [if_neg hr, Option.map_none']
  | succ fuel ih =>
    intro st node d r stats
    unfold updateTreeNodeCalls updateTreeNode
    by_cases hr : r.size = 0
    · simp only [if_pos hr, Option.map_some']
    · simp only [if_neg hr]
      cases visitNode ops bs st node d r stats with
      | fail => rfl
      | done st1 => rfl
      | descend st1 dim pos left =>
        simp only
        rw [← ih]
        cases updateTreeNodeCalls ops position bs fuel
          { st1 with samples := (pivotSplitSamplesWithStats ops position st1.samples r.start
              r.stop dim pos (ops.clear ops.init) (ops.clear ops.init)).1 } left (d + 1)
          ⟨r.start, (pivotSplitSamplesWithStats ops position st1.samples r.start
              r.stop dim pos (ops.clear ops.init) (ops.clear ops.init)).2.1⟩
          (pivotSplitSamplesWithStats ops position st1.samples r.start
              r.stop dim pos (ops.clear ops.init) (ops.clear ops.init)).2.2.1 with
        | none => rfl
        | some resLeft =>
          simp only [Option.map_some']
          rw [← ih]
          cases updateTreeNodeCalls ops position bs fuel resLeft.1 (left + 1) (d + 1)
            ⟨(pivotSplitSamplesWithStats ops position st1.samples r.start
              r.stop dim pos (ops.clear ops.init) (ops.clear ops.init)).2.1, r.stop⟩
            (pivotSplitSamplesWithStats ops position st1.samples r.start
              r.stop dim pos (ops.clear ops.init) (ops.clear ops.init)).2.2.2 with
          | none => rfl
          | some resRight => rfl

theorem updateTreeCalls_state (ops : SampleStatisticsOps α S) (position : σ → Vec3 α)
    (bs : Settings) (st : BuildState α S D σ) :
    (updateTreeCalls ops position bs st).map Prod.fst = updateTree ops position bs st := by
  unfold updateTreeCalls updateTree
  cases st.kdTree.m_nodes[0]? with
  | none => rfl
  | some root => exact updateTreeNodeCalls_state ops position bs _ _ _ _ _ _

/-- The calls made below an inner node at depth `d`, given that the calls made below every
subtree with the fuel left keep within the depth limit. -/
theorem descend_calls (ops : SampleStatisticsOps α S) (position : σ → Vec3 α)
    (bs : Settings) (fuel : Nat)
    (IH : ∀ (st : BuildState α S D σ) (t : Shape α) (d : Nat) (r : Range) (stats : S),
      StepPre bs.maxDepth st t d r → 1 ≤ fuel → bs.maxDepth + 1 ≤ fuel + d →
      ∃ res, updateTreeNodeCalls ops position bs fuel st t.root d r stats = some res ∧
        ∀ c ∈ res.2, d ≤ c.2 ∧ c.2 ≤ max bs.maxDepth d)
    (st1 : BuildState α S D σ) (i : Nat) (dim : Fin 3) (pos : α) (tl tr : Shape α)
    (d : Nat) (r : Range)
    (pre : StepPre bs.maxDepth st1 (Shape.inner i dim pos tl tr) d r)
    (hfuel : bs.maxDepth + 1 ≤ fuel + 1 + d) (sl sr : S) :
    ∃ res,
      (match updateTreeNodeCalls ops position bs fuel
          { st1 with samples :=
            (pivotSplitSamplesWithStats ops position st1.samples r.start r.stop dim pos
              sl sr).1 }
          tl.root (d + 1)
          ⟨r.start, (pivotSplitSamplesWithStats ops position st1.samples r.start r.stop dim pos
              sl sr).2.1⟩
          (pivotSplitSamplesWithStats ops position st1.samples r.start r.stop dim pos
              sl sr).2.2.1 with
        | none => none
        | some resLeft =>
          match updateTreeNodeCalls ops position bs fuel resLeft.1 (tl.root + 1) (d + 1)
            ⟨(pivotSplitSamplesWithStats ops position st1.samples r.start r.stop dim pos
              sl sr).2.1, r.stop⟩
            (pivotSplitSamplesWithStats ops position st1.samples r.start r.stop dim pos
              sl sr).2.2.2 with
          | none => none
          | some resRight => some (resRight.1, (i, d) :: (resLeft.2 ++ resRight.2))) =
        some res ∧
      ∀ c ∈ res.2, d ≤ c.2 ∧ c.2 ≤ max bs.maxDepth d := by
  obtain ⟨hframe, hpv1, hpv2, -, -⟩ :=
    pivotSplit_frame ops position st1.samples r.start r.stop dim pos sl sr
      pre.rangeOrdered pre.rangeInside
  generalize pivotSplitSamplesWithStats ops position st1.samples r.start r.stop dim pos
    sl sr = part at hframe hpv1 hpv2 ⊢
  obtain ⟨buf1, pv, statsL, statsR⟩ := part
  simp only at hframe hpv1 hpv2 ⊢
  have hrep := pre.rep
  simp only [Shape.Rep] at hrep
  obtain ⟨-, hroot, hrepl, hrepr⟩ := hrep
  have hnodup := pre.nodup
  simp only [Shape.indices, List.nodup_cons, List.mem_append, not_or, List.nodup_append] at hnodup
  obtain ⟨-, hnl, hnr, hdisj⟩ := hnodup
  have hbound := pre.bound
  simp only [Shape.indices, List.mem_cons, List.mem_append] at hbound
  have hdn := pre.dataNodup
  simp only [Shape.dataIdxs, List.nodup_append] at hdn
  obtain ⟨hdnl, hdnr, -⟩ := hdn
  have hdb := pre.dataBound
  simp only [Shape.dataIdxs, List.mem_append] at hdb
  have hdepth := pre.depth
  simp only [Shape.DepthOK] at hdepth
  obtain ⟨hdm, hdl, hdr⟩ := hdepth
  have hlen1 : buf1.length = st1.samples.length := hframe.length_eq
  have preL : StepPre bs.maxDepth { st1 with samples := buf1 } tl (d + 1) ⟨r.start, pv⟩ :=
    { rep := hrepl
      nodup := hnl
      bound := fun j hj => hbound j (Or.inr (Or.inl hj))
      dataNodup := hdnl
      dataBound := fun j hj => hdb j (Or.inl hj)
      depth := hdl
      rangeOrdered := hpv1
      rangeInside := by simp only; have := pre.rangeInside; omega }
  obtain ⟨resL, hL, boundL⟩ := IH _ tl (d + 1) ⟨r.start, pv⟩ statsL preL (by omega) (by omega)
  obtain ⟨st2, tl', h2, P2⟩ := updateTreeNode_post ops position bs fuel _ tl (d + 1)
    ⟨r.start, pv⟩ statsL preL (by omega) (by omega)
  have hst2 : resL.1 = st2 := by
    have h := updateTreeNodeCalls_state ops position bs fuel
      ({ st1 with samples := buf1 } : BuildState α S D σ) tl.root (d + 1) ⟨r.start, pv⟩ statsL
    rw [hL, h2] at h
    exact Option.some.inj h
  rw [hL]
  simp only
  have hl2 : st1.kdTree.m_nodes.length ≤ st2.kdTree.m_nodes.length := P2.grows.nodeCount
  have hs2 : st1.dataStorage.length ≤ st2.dataStorage.length := P2.grows.storageSize
  have hb2 : st2.samples.length = buf1.length := P2.grows.bufferSize
  have preR : StepPre bs.maxDepth resL.1 tr (d + 1) ⟨pv, r.stop⟩ := by
    rw [hst2]
    exact
      { rep := by
          refine Shape.Rep_congr tr ?_ hrepr
          intro j hj
          exact P2.nodeFrame j (hbound j (Or.inr (Or.inr hj))) (fun hc => hdisj hc hj)
        nodup := hnr
        bound := fun j hj => lt_of_lt_of_le (hbound j (Or.inr (Or.inr hj))) hl2
        dataNodup := hdnr
        dataBound := fun j hj => lt_of_lt_of_le (hdb j (Or.inr hj)) hs2
        depth := hdr
        rangeOrdered := hpv2
        rangeInside := by simp only; have := pre.rangeInside; omega }
  obtain ⟨resR, hR, boundR⟩ := IH resL.1 tr (d + 1) ⟨pv, r.stop⟩ statsR preR (by omega)
    (by omega)
  rw [← hroot, hR]
  refine ⟨_, rfl, ?_⟩
  intro c hc
  simp only [List.mem_cons, List.mem_append] at hc
  have hmax : max bs.maxDepth (d + 1) = bs.maxDepth := max_eq_left (by omega)
  rcases hc with hc | hc | hc
  · subst hc
    exact ⟨le_rfl, le_max_right _ _⟩
  · have := boundL c hc
    rw [hmax] at this
    exact ⟨by omega, le_trans this.2 (le_max_left _ _)⟩
  · have := boundR c hc
    rw [hmax] at this
    exact ⟨by omega, le_trans this.2 (le_max_left _ _)⟩

/-- On a subtree that satisfies the precondition the recursive step returns whenever the
fuel covers the depth still allowed, and every call it makes is at a depth between the
depth of the subtree and the depth limit (or at the depth of the subtree itself). -/
theorem updateTreeNodeCalls_depth (ops : SampleStatisticsOps α S) (position : σ → Vec3 α)
    (bs : Settings) :
    ∀ (fuel : Nat) (st : BuildState α S D σ) (t : Shape α) (d : Nat) (r : Range) (stats : S),
      StepPre bs.maxDepth st t d r → 1 ≤ fuel → bs.maxDepth + 1 ≤ fuel + d →
      ∃ res, updateTreeNodeCalls ops position bs fuel st t.root d r stats = some res ∧
        ∀ c ∈ res.2, d ≤ c.2 ∧ c.2 ≤ max bs.maxDepth d := by
  intro fuel
  induction fuel with
  | zero => intro st t d r stats _ h; omega
  | succ fuel ih =>
    intro st t d r stats pre _ hfuel
    unfold updateTreeNodeCalls
    by_cases hr : r.size = 0
    · rw [if_pos hr]
      refine ⟨_, rfl, ?_⟩
      intro c hc
      simp only [List.mem_singleton] at hc
      subst hc
      exact ⟨le_rfl, le_max_right _ _⟩
    · rw [if_neg hr]
      simp only
      cases t with
      | leaf i dataIdx =>
        have hn : st.kdTree.m_nodes[i]? = some (KDNode.leaf dataIdx) := pre.rep
        have hdi : dataIdx < st.dataStorage.length :=
          pre.dataBound dataIdx (by simp [Shape.dataIdxs])
        have he : st.dataStorage[dataIdx]? = some (st.dataStorage[dataIdx]) :=
          List.getElem?_eq_getElem hdi
        generalize st.dataStorage[dataIdx] = entry at he
        by_cases hc : splitCondition ops bs d entry.1.sampleStatistics r = true
        · have hd : d < bs.maxDepth := by
            simp only [splitCondition, Bool.and_eq_true, decide_eq_true_eq] at hc
            exact hc.1
          have pre1 := splitLeaf_pre ops bs.maxDepth st i dataIdx entry d r stats pre hd
          obtain ⟨res, h3, hb⟩ := descend_calls ops position bs fuel ih _ _ _ _ _ _ d r pre1
            hfuel (ops.clear ops.init) (ops.clear ops.init)
          refine ⟨res, ?_, hb⟩
          simp only [Shape.root, visitNode, hn, he, hc, if_true]
          simp only [Shape.root, (splitLeaf_rest ops st i dataIdx entry stats).2.2.1,
            (splitLeaf_rest ops st i dataIdx entry stats).2.2.2.1,
            (splitLeaf_rest ops st i dataIdx entry stats).2.2.2.2] at h3 ⊢
          exact h3
        · refine ⟨({ st with dataStorage := st.dataStorage.set dataIdx (entry.1, r) },
            [(i, d)]), ?_, ?_⟩
          · simp only [Shape.root, visitNode, hn, he, hc]
            rfl
          · intro c hc
            simp only [List.mem_singleton] at hc
            subst hc
            exact ⟨le_rfl, le_max_right _ _⟩
      | inner i dim pos tl tr =>
        have hn : st.kdTree.m_nodes[i]? = some (KDNode.inner dim pos tl.root) := pre.rep.1
        obtain ⟨res, h3, hb⟩ := descend_calls ops position bs fuel ih st i dim pos tl tr d r
          pre hfuel (ops.clear ops.init) (ops.clear ops.init)
        refine ⟨res, ?_, hb⟩
        simp only [Shape.root, visitNode, hn]
        exact h3

/-- A pass on a state that satisfies the invariant returns, and every call of the recursive
step is at a depth from 1 to the depth limit (to 1 for a depth limit of 0). -/
theorem updateTreeCalls_depth (ops : SampleStatisticsOps α S) (position : σ → Vec3 α)
    (bs : Settings) (st : BuildState α S D σ) (hinv : TreeInv bs.maxDepth st) :
    ∃ st' calls, updateTreeCalls ops position bs st = some (st', calls) ∧
      updateTree ops position bs st = some st' ∧
      ∀ c ∈ calls, 1 ≤ c.2 ∧ c.2 ≤ max bs.maxDepth 1 ∧ (1 ≤ bs.maxDepth → c.2 ≤ bs.maxDepth) := by
  obtain ⟨t, hrep, hroot, hidx, hdat, hdepth⟩ := hinv
  have pre : StepPre bs.maxDepth st t 1 ⟨0, st.samples.length⟩ :=
    { rep := hrep
      nodup := hidx.nodup_iff.mpr (List.nodup_range _)
      bound := fun j hj => List.mem_range.mp (hidx.subset hj)
      dataNodup := hdat.nodup_iff.mpr (List.nodup_range _)
      dataBound := fun j hj => List.mem_range.mp (hdat.subset hj)
      depth := hdepth
      rangeOrdered := Nat.zero_le _
      rangeInside := le_rfl }
  have h0 : ∃ root, st.kdTree.m_nodes[0]? = some root := by
    have : (0 : Nat) < st.kdTree.m_nodes.length :=
      pre.bound 0 (hroot ▸ Shape.root_mem_indices t)
    exact ⟨_, List.getElem?_eq_getElem this⟩
  obtain ⟨root, h0⟩ := h0
  obtain ⟨res, h, hb⟩ := updateTreeNodeCalls_depth ops position bs
    (st.kdTree.m_nodes.length + bs.maxDepth + 1) st t 1 ⟨0, st.samples.length⟩
    (rootStatistics ops position root st.samples) pre (by omega) (by omega)
  rw [hroot] at h
  have hcalls : updateTreeCalls ops position bs st = some res := by
    simp only [updateTreeCalls, h0]
    exact h
  refine ⟨res.1, res.2, hcalls, ?_, ?_⟩
  · rw [← updateTreeCalls_state, hcalls]
    rfl
  · intro c hc
    have hcb := hb c hc
    refine ⟨hcb.1, hcb.2, fun hm => ?_⟩
    have := hcb.2
    rw [max_eq_left hm] at this
    exact this

/-- C20, as the code has it: on every tree produced by `build` and earlier `updateTree`
passes with the same settings, for every sample buffer, every settings value and all sample
positions, the recursive update step of a pass terminates (the pass returns), and every
call of the step in its recursion is at a depth from 1 to `max(maxDepth, 1)`: the root is
always visited, at depth 1, and for `maxDepth ≥ 1` no node is visited at a depth greater
than `maxDepth`. The same holds for the pass that `build` runs (for `maxSamples > 0`). -/
theorem update_step_terminates (ops : SampleStatisticsOps α S) (position : σ → Vec3 α)
    (dflt : Region S D) (bs : Settings) :
    (∀ (st : BuildState α S D σ) (buf : List σ), Reachable ops position dflt bs st →
      ∃ st' calls,
        updateTreeCalls ops position bs { st with samples := buf } = some (st', calls) ∧
        updateTree ops position bs { st with samples := buf } = some st' ∧
        ∀ c ∈ calls, 1 ≤ c.2 ∧ c.2 ≤ max bs.maxDepth 1 ∧
          (1 ≤ bs.maxDepth → c.2 ≤ bs.maxDepth)) ∧
    (∀ (bound : BBox α) (st0 : BuildState α S D σ), 0 < bs.maxSamples →
      ∃ st' calls,
        updateTreeCalls ops position bs
          { st0 with kdTree := KDTree.init bound,
                     dataStorage := resizeOne (dflt, ⟨0, 0⟩) st0.dataStorage } =
          some (st', calls) ∧
        build ops position dflt bound bs st0 = some st' ∧
        ∀ c ∈ calls, 1 ≤ c.2 ∧ c.2 ≤ max bs.maxDepth 1 ∧
          (1 ≤ bs.maxDepth → c.2 ≤ bs.maxDepth)) := by
  constructor
  · intro st buf hreach
    have hinv : TreeInv bs.maxDepth ({ st with samples := buf } : BuildState α S D σ) :=
      hreach.inv
    exact updateTreeCalls_depth ops position bs _ hinv
  · intro bound st0 hmax
    obtain ⟨st', calls, h1, h2, h3⟩ := updateTreeCalls_depth ops position bs _
      (build_init_inv bs.maxDepth (dflt, ⟨0, 0⟩) bound st0)
    refine ⟨st', calls, h1, ?_, h3⟩
    simp only [build, if_neg (Nat.pos_iff_ne_zero.mp hmax)]
    exact h2

/-- C20, at a concrete input: a second pass over the five example samples on the state
that `build` leaves for them (depth limit 4) returns, and all its calls are at depths from
1 to 4. -/
theorem update_step_terminates_witness :
    ∃ st' calls,
      updateTreeCalls exactStatistics id exampleBuildSettings
        { exampleState1 with samples := exampleSamples } = some (st', calls) ∧
      updateTree exactStatistics id exampleBuildSettings
        { exampleState1 with samples := exampleSamples } = some st' ∧
      ∀ c ∈ calls, 1 ≤ c.2 ∧ c.2 ≤ max exampleBuildSettings.maxDepth 1 ∧
        (1 ≤ exampleBuildSettings.maxDepth → c.2 ≤ exampleBuildSettings.maxDepth) :=
  (update_step_terminates exactStatistics id exampleOps.defaultRegion
    exampleBuildSettings).1 exampleState1 exampleSamples
    (Reachable.build unitCube exampleState0 exampleState1 (by decide!))

/-- C20 as stated fails for the depth limit 0: `build` over the example samples with
`maxDepth = 0` returns a tree of a single root leaf, and a pass over the example samples on
that tree calls the recursive step on the root at depth 1, which is greater than
`maxDepth`. -/
theorem root_visit_exceeds_zero_depth_limit :
    build exactStatistics id exampleOps.defaultRegion unitCube zeroDepthSettings
      exampleState0 = some zeroDepthState ∧
    zeroDepthState.kdTree.m_nodes = [KDNode.leaf 0] ∧
    (updateTreeCalls exactStatistics id zeroDepthSettings
      { zeroDepthState with samples := exampleSamples }).map Prod.snd = some [(0, 1)] ∧
    ¬ (∀ c ∈ [((0 : Nat), (1 : Nat))], c.2 ≤ zeroDepthSettings.maxDepth) := by
  refine ⟨by decide!, by decide!, by decide!, by decide⟩

end

/-! ## Claim C21: samples that all lie at one position -/

section
variable {α S D σ K : Type} [LinearOrder α]

/-- Adding samples that all lie at the position `p` adds `p` once for each of them. -/
theorem foldl_same_position (ops : SampleStatisticsOps α S) (position : σ → Vec3 α)
    (p : Vec3 α) :
    ∀ (l : List σ) (s : S), (∀ x ∈ l, position x = p) →
      l.foldl (fun s x => ops.addSample s (position x)) s =
        (fun s => ops.addSample s p)^[l.length] s := by
  intro l
  induction l with
  | nil => intro s _; rfl
  | cons x rest ih =>
    intro s h
    rw [List.foldl_cons, ih _ (fun y hy => h y (List.mem_cons_of_mem _ hy)),
      h x (List.mem_cons_self _ _), List.length_cons, Function.iterate_succ_apply]

/-- A partition at a plane that no sample of the range lies below puts the whole range to
the right: the position returned is the start of the range. -/
theorem pivotSplit_all_right (ops : SampleStatisticsOps α S) (position : σ → Vec3 α)
    (samples : List σ) (first last : Nat) (dim : Fin 3) (pivot : α) (sl sr : S)
    (h : ∀ (k : Nat) (x : σ), first ≤ k → k < last → samples[k]? = some x →
      ¬ (position x).get dim < pivot) :
    (pivotSplitSamplesWithStats ops position samples first last dim pivot sl sr).2.1 =
      first := by
  rw [pivotSplit_pivot]
  have h0 : ((samples.drop first).take (last - first)).countP
      (fun x => decide ((position x).get dim < pivot)) = 0 := by
    rw [List.countP_eq_zero]
    intro x hx
    obtain ⟨k, hk⟩ := List.mem_iff_getElem?.mp hx
    rw [List.getElem?_take] at hk
    split at hk
    · rw [List.getElem?_drop] at hk
      simpa using h (first + k) x (by omega) (by omega) hk
    · exact absurd hk (by simp)
  rw [h0]
  rfl

theorem mem_slice {β : Type} {l : List β} {a b : Nat} {x : β}
    (hx : x ∈ (l.drop a).take (b - a)) : ∃ k, a ≤ k ∧ k < b ∧ l[k]? = some x := by
  obtain ⟨k, hk⟩ := List.mem_iff_getElem?.mp hx
  rw [List.getElem?_take] at hk
  split at hk
  · rw [List.getElem?_drop] at hk
    exact ⟨a + k, by omega, by omega, hk⟩
  · exact absurd hk (by simp)

/-- The step on a leaf that is split while all samples of its range lie at the position
`p` and the statistics handed in are those of the range: the plane lies at `p`, the left
child gets an empty range, and the step goes on at the right child with the whole range
and the same statistics. -/
theorem updateTreeNode_spine_step (ops : SampleStatisticsOps α S) (position : σ → Vec3 α)
    (bs : Settings) (fuel : Nat) (st : BuildState α S D σ) (i di d : Nat)
    (entry : Region S D × Range) (r : Range) (p : Vec3 α)
    (hn : st.kdTree.m_nodes[i]? = some (KDNode.leaf di))
    (he : st.dataStorage[di]? = some entry)
    (hc : splitCondition ops bs d entry.1.sampleStatistics r = true)
    (hr : r.size ≠ 0) (hri : r.stop ≤ st.samples.length)
    (hp : ∀ (k : Nat) (x : σ), r.start ≤ k → k < r.stop → st.samples[k]? = some x →
      position x = p)
    (hmean : ops.getMean ((fun s => ops.addSample s p)^[r.size] (ops.clear ops.init)) = p) :
    (getSplitDimensionAndPosition ops
      ((fun s => ops.addSample s p)^[r.size] (ops.clear ops.init))).2 =
      p.get (getSplitDimensionAndPosition ops
        ((fun s => ops.addSample s p)^[r.size] (ops.clear ops.init))).1 ∧
    ∃ buf : List σ, buf.length = st.samples.length ∧
      (∀ (k : Nat) (x : σ), r.start ≤ k → k < r.stop → buf[k]? = some x → position x = p) ∧
      updateTreeNode ops position bs (fuel + 1) st i d r
          ((fun s => ops.addSample s p)^[r.size] (ops.clear ops.init)) =
        updateTreeNode ops position bs fuel
          { (splitLeaf ops st i di entry
              ((fun s => ops.addSample s p)^[r.size] (ops.clear ops.init))).1 with
            samples := buf }
          (st.kdTree.m_nodes.length + 1) (d + 1) r
          ((fun s => ops.addSample s p)^[r.size] (ops.clear ops.init)) := by
  generalize hT : (fun s => ops.addSample s p)^[r.size] (ops.clear ops.init) = T at hmean ⊢
  have hpos : (getSplitDimensionAndPosition ops T).2 =
      p.get (getSplitDimensionAndPosition ops T).1 := by
    simp only [getSplitDimensionAndPosition, hmean]
  refine ⟨hpos, ?_⟩
  have hro : r.start ≤ r.stop := by
    have : r.size = r.stop - r.start := rfl
    omega
  have hsize : r.size = r.stop - r.start := rfl
  have hright : ∀ (k : Nat) (x : σ), r.start ≤ k → k < r.stop → st.samples[k]? = some x →
      ¬ (position x).get (getSplitDimensionAndPosition ops T).1 <
        (getSplitDimensionAndPosition ops T).2 := by
    intro k x h1 h2 hx
    rw [hp k x h1 h2 hx, hpos]
    exact lt_irrefl _
  have hpv := pivotSplit_all_right ops position st.samples r.start r.stop
    (getSplitDimensionAndPosition ops T).1 (getSplitDimensionAndPosition ops T).2
    (ops.clear ops.init) (ops.clear ops.init) hright
  obtain ⟨hframe, -, -, -, -⟩ := pivotSplit_frame ops position st.samples r.start r.stop
    (getSplitDimensionAndPosition ops T).1 (getSplitDimensionAndPosition ops T).2
    (ops.clear ops.init) (ops.clear ops.init) hro hri
  obtain ⟨newL, newR, orderR, -, e2, e3, e4, e5, -, e7⟩ := pivotSplit_stats ops position
    st.samples r.start r.stop (getSplitDimensionAndPosition ops T).1
    (getSplitDimensionAndPosition ops T).2 (ops.clear ops.init) (ops.clear ops.init) hro hri
  have hbuf := hframe.forall_in (fun x => position x = p) hp
  generalize hpart : pivotSplitSamplesWithStats ops position st.samples r.start r.stop
    (getSplitDimensionAndPosition ops T).1 (getSplitDimensionAndPosition ops T).2
    (ops.clear ops.init) (ops.clear ops.init) = part at hpv hframe e2 e3 e7 hbuf
  obtain ⟨buf1, pv, statsL, statsR⟩ := part
  simp only at hpv hframe e2 e3 e7 hbuf
  subst hpv
  have hRp : ∀ x ∈ orderR, position x = p := by
    intro x hx
    have hx2 : x ∈ newR := e5.subset hx
    rw [← e2] at hx2
    obtain ⟨k, h1, h2, h3⟩ := mem_slice hx2
    exact hbuf k x h1 h2 h3
  have hlenR : orderR.length = r.size := by
    rw [e5.length_eq]
    omega
  have hstats : statsR = T := by
    rw [e7, foldl_same_position ops position p orderR _ hRp, hlenR, hT]
  refine ⟨buf1, hframe.length_eq, hbuf, ?_⟩
  rw [updateTreeNode_split_eq ops position bs fuel st i di d entry r T hn he hc hr]
  have hn1 := splitLeaf_nodes_get ops st i di entry T i (get?_lt hn)
  rw [if_pos rfl] at hn1
  rw [updateTreeNode_inner ops position bs fuel _ i d _ _ _ r T hn1 hr]
  rw [(splitLeaf_rest ops st i di entry T).1]
  simp only [hpart]
  rw [updateTreeNode_empty ops position bs fuel _ _ _ ⟨r.start, r.start⟩ statsL
    (by simp [Range.size])]
  simp only [hstats]

/-- The step on a leaf at depth `d` whose range holds more than `maxSamples` samples, all at
the position `p`, with a region that counts no samples: the leaf and then each right child
is split until the depth limit is reached, `k = maxDepth - d` times in all. Every plane
lies at `p`, every left child is a leaf that keeps the range of its entry, and the last
right child records the whole range. -/
theorem updateTreeNode_spine (ops : SampleStatisticsOps α S) (position : σ → Vec3 α)
    (bs : Settings) (p : Vec3 α) (r : Range)
    (hzero : ∀ (s : S) (f : ℚ), ops.numSamples s = 0 → ops.numSamples (ops.decay s f) = 0)
    (hadd0 : ∀ x : ℚ, ops.addCounts 0 x = x)
    (hconv : ∀ k : Nat, k ≤ r.size → ops.sizeToCount k = (k : ℚ))
    (hsize : bs.maxSamples < r.size)
    (hmean : ops.getMean ((fun s => ops.addSample s p)^[r.size] (ops.clear ops.init)) = p) :
    ∀ (k fuel : Nat) (st : BuildState α S D σ) (i di d : Nat) (entry : Region S D × Range),
      st.kdTree.m_nodes[i]? = some (KDNode.leaf di) →
      st.dataStorage[di]? = some entry →
      ops.numSamples entry.1.sampleStatistics = 0 →
      d + k = bs.maxDepth → k + 1 ≤ fuel → r.stop ≤ st.samples.length →
      (∀ (j : Nat) (x : σ), r.start ≤ j → j < r.stop → st.samples[j]? = some x →
        position x = p) →
      ∃ st' : BuildState α S D σ,
        updateTreeNode ops position bs fuel st i d r
          ((fun s => ops.addSample s p)^[r.size] (ops.clear ops.init)) = some st' ∧
        st'.kdTree.m_nodes.length = st.kdTree.m_nodes.length + 2 * k ∧
        st'.dataStorage.length = st.dataStorage.length + k ∧
        (∀ j : Nat, j < st.kdTree.m_nodes.length → j ≠ i →
          st'.kdTree.m_nodes[j]? = st.kdTree.m_nodes[j]?) ∧
        (∀ j : Nat, j < st.dataStorage.length → j ≠ di →
          st'.dataStorage[j]? = st.dataStorage[j]?) ∧
        (∀ t : Nat, t < k →
          st'.kdTree.m_nodes[if t = 0 then i else st.kdTree.m_nodes.length + 2 * t - 1]? =
            some (KDNode.inner
              (getSplitDimensionAndPosition ops
                ((fun s => ops.addSample s p)^[r.size] (ops.clear ops.init))).1
              (p.get (getSplitDimensionAndPosition ops
                ((fun s => ops.addSample s p)^[r.size] (ops.clear ops.init))).1)
              (st.kdTree.m_nodes.length + 2 * t)) ∧
          st'.kdTree.m_nodes[st.kdTree.m_nodes.length + 2 * t]? =
            some (KDNode.leaf (if t = 0 then di else st.dataStorage.length + t - 1)) ∧
          st'.dataStorage[if t = 0 then di else st.dataStorage.length + t - 1]? =
            some (decayTimes ops (t + 1) entry.1, entry.2)) ∧
        st'.kdTree.m_nodes[if k = 0 then i else st.kdTree.m_nodes.length + 2 * k - 1]? =
          some (KDNode.leaf (if k = 0 then di else st.dataStorage.length + k - 1)) ∧
        st'.dataStorage[if k = 0 then di else st.dataStorage.length + k - 1]? =
          some (decayTimes ops k entry.1, r) ∧
        st'.kdTree.bounds = st.kdTree.bounds ∧
        st'.samples.length = st.samples.length := by
  have hr : r.size ≠ 0 := by omega
  intro k
  induction k with
  | zero =>
    intro fuel st i di d entry hn he h0 hd hfuel hri hp
    obtain ⟨f, rfl⟩ : ∃ f, fuel = f + 1 := ⟨fuel - 1, by omega⟩
    have hc : splitCondition ops bs d entry.1.sampleStatistics r = false := by
      simp only [splitCondition, Bool.and_eq_false_imp, decide_eq_true_eq]
      intro h
      omega
    refine ⟨_, updateTreeNode_record ops position bs f st i di d entry r _ hn he hc hr,
      rfl, by simp, fun _ _ _ => rfl, ?_, ?_, ?_, ?_, rfl, rfl⟩
    · intro j _ hj
      simp only
      rw [List.getElem?_set_ne (by omega)]
    · intro t ht
      omega
    · simpa using hn
    · simp only [if_pos, decayTimes_zero]
      rw [List.getElem?_set_self (get?_lt he)]
  | succ k ih =>
    intro fuel st i di d entry hn he h0 hd hfuel hri hp
    obtain ⟨f, rfl⟩ : ∃ f, fuel = f + 1 := ⟨fuel - 1, by omega⟩
    have hi := get?_lt hn
    have hdi := get?_lt he
    have hc : splitCondition ops bs d entry.1.sampleStatistics r = true := by
      simp only [splitCondition, Bool.and_eq_true, decide_eq_true_eq, h0, hadd0]
      rw [hconv _ (le_refl _), hconv _ (le_of_lt hsize)]
      exact ⟨by omega, by exact_mod_cast hsize⟩
    obtain ⟨hpos, buf, hbl, hbp, hstep⟩ := updateTreeNode_spine_step ops position bs f st i di
      d entry r p hn he hc hr hri hp hmean
    generalize hT : (fun s => ops.addSample s p)^[r.size] (ops.clear ops.init) = T
      at hpos hstep ⊢
    have hN := splitLeaf_nodes_get ops st i di entry T
    have hS := splitLeaf_storage_get ops st i di entry T
    have hNl := splitLeaf_nodes_length ops st i di entry T
    have hSl := splitLeaf_storage_length ops st i di entry T
    have hb := (splitLeaf_rest ops st i di entry T).2.1
    generalize (splitLeaf ops st i di entry T).1 = st1 at hstep hN hS hNl hSl hb
    have hn1 : ({ st1 with samples := buf } : BuildState α S D σ).kdTree.m_nodes[
        st.kdTree.m_nodes.length + 1]? = some (KDNode.leaf st.dataStorage.length) := by
      simp only
      rw [hN _ hi, if_neg (by omega), if_neg (by omega), if_pos rfl]
    have he1 : ({ st1 with samples := buf } : BuildState α S D σ).dataStorage[
        st.dataStorage.length]? = some (decayTimes ops 1 entry.1, entry.2) := by
      simp only
      rw [hS _ hdi, if_pos (Or.inr rfl)]
    have h01 : ops.numSamples (decayTimes ops 1 entry.1, entry.2).1.sampleStatistics = 0 := by
      simp only [decayTimes, Function.iterate_one]
      exact hzero _ _ h0
    obtain ⟨st', h, hl, hs, hfn, hfs, hsp, hlast, hlaste, hbd, hsl⟩ :=
      ih f ({ st1 with samples := buf } : BuildState α S D σ) (st.kdTree.m_nodes.length + 1)
        st.dataStorage.length (d + 1) (decayTimes ops 1 entry.1, entry.2) hn1 he1 h01
        (by omega) (by omega) (by simp only; omega) hbp
    rw [hT] at h hsp
    simp only [hNl, hSl] at hl hs hfn hfs hsp hlast hlaste
    refine ⟨st', hstep.trans h, by omega, by omega, ?_, ?_, ?_, ?_, ?_, hbd.trans hb,
      hsl.trans hbl⟩
    · intro j hj hji
      rw [hfn j (by omega) (by omega), hN _ hi, if_neg hji, if_neg (by omega),
        if_neg (by omega)]
    · intro j hj hji
      rw [hfs j (by omega) (by omega), hS _ hdi, if_neg (by omega)]
    · intro t ht
      rcases Nat.eq_zero_or_pos t with h0t | h0t
      · subst h0t
        simp only [if_pos, Nat.mul_zero, Nat.add_zero, Nat.zero_add]
        refine ⟨?_, ?_, ?_⟩
        · rw [hfn i (by omega) (by omega), hN _ hi, if_pos rfl, hpos]
        · rw [hfn _ (by omega) (by omega), hN _ hi, if_neg (by omega), if_pos rfl]
        · rw [hfs di (by omega) (by omega), hS _ hdi, if_pos (Or.inl rfl)]
      · obtain ⟨t', rfl⟩ : ∃ t', t = t' + 1 := ⟨t - 1, by omega⟩
        obtain ⟨g1, g2, g3⟩ := hsp t' (by omega)
        have e1 : (if t' = 0 then st.kdTree.m_nodes.length + 1
            else st.kdTree.m_nodes.length + 2 + 2 * t' - 1) =
            st.kdTree.m_nodes.length + 2 * (t' + 1) - 1 := by
          split <;> omega
        have e2 : (if t' = 0 then st.dataStorage.length
            else st.dataStorage.length + 1 + t' - 1) = st.dataStorage.length + (t' + 1) - 1 := by
          split <;> omega
        rw [e1] at g1
        rw [e2] at g2 g3
        rw [if_neg (by omega), if_neg (by omega)]
        refine ⟨?_, ?_, ?_⟩
        · rw [g1]
          congr 2
          omega
        · rw [show st.kdTree.m_nodes.length + 2 * (t' + 1) =
            st.kdTree.m_nodes.length + 2 + 2 * t' by omega, g2]
        · rw [g3, decayTimes_add]
    · have e1 : (if k = 0 then st.kdTree.m_nodes.length + 1
          else st.kdTree.m_nodes.length + 2 + 2 * k - 1) =
          st.kdTree.m_nodes.length + 2 * (k + 1) - 1 := by
        split <;> omega
      have e2 : (if k = 0 then st.dataStorage.length
          else st.dataStorage.length + 1 + k - 1) = st.dataStorage.length + (k + 1) - 1 := by
        split <;> omega
      rw [e1, e2] at hlast
      rw [if_neg (by omega), if_neg (by omega)]
      exact hlast
    · have e2 : (if k = 0 then st.dataStorage.length
          else st.dataStorage.length + 1 + k - 1) = st.dataStorage.length + (k + 1) - 1 := by
        split <;> omega
      rw [e2] at hlaste
      rw [if_neg (by omega), hlaste, decayTimes_add]

/-- In a list of `2 * c + 1` elements whose elements at the even offsets below `2 * c`
satisfy `q`, and no others, `c` elements satisfy `q`. -/
theorem countP_alternating {β : Type} (q : β → Bool) :
    ∀ (c : Nat) (l : List β), l.length = 2 * c + 1 →
      (∀ t : Nat, t < c → (∃ x, l[2 * t]? = some x ∧ q x = true) ∧
        (∃ y, l[2 * t + 1]? = some y ∧ q y = false)) →
      (∃ z, l[2 * c]? = some z ∧ q z = false) → l.countP q = c := by
  intro c
  induction c with
  | zero =>
    intro l hl _ hz
    match l, hl with
    | [z], _ =>
      obtain ⟨z', hz1, hz2⟩ := hz
      simp only [Nat.mul_zero, List.getElem?_cons_zero, Option.some.injEq] at hz1
      subst hz1
      simp [hz2]
  | succ c ih =>
    intro l hl h hz
    match l, hl with
    | a :: b :: rest, hl =>
      obtain ⟨⟨x, hx1, hx2⟩, ⟨y, hy1, hy2⟩⟩ := h 0 (by omega)
      simp only [Nat.mul_zero, List.getElem?_cons_zero, Option.some.injEq] at hx1
      simp only [Nat.mul_zero, Nat.zero_add, List.getElem?_cons_succ, List.getElem?_cons_zero,
        Option.some.injEq] at hy1
      subst hx1 hy1
      have hrest : rest.countP q = c := by
        refine ih rest (by simp only [List.length_cons] at hl; omega) ?_ ?_
        · intro t ht
          have := h (t + 1) (by omega)
          rw [show 2 * (t + 1) = 2 * t + 1 + 1 by omega, List.getElem?_cons_succ,
            List.getElem?_cons_succ, List.getElem?_cons_succ, List.getElem?_cons_succ] at this
          exact this
        · rw [show 2 * (c + 1) = 2 * c + 1 + 1 by omega, List.getElem?_cons_succ,
            List.getElem?_cons_succ] at hz
          exact hz
      rw [List.countP_cons_of_pos _ _ hx2, List.countP_cons_of_neg _ _ (by simp [hy2]), hrest]

/-- C21, as the code has it: a fresh build with `maxDepth ≥ 1` and `maxSamples ≥ 1` over
`n > maxSamples` samples that all lie at one position `p` (exact arithmetic: the mean of
the statistics of the `n` samples being `p`, the count type holding the sizes up to `n`
exactly and adding to zero exactly; a fresh region counting no samples, and decay keeping a
sample count of zero at zero) returns a right spine. Every split places its plane at the
coordinate of `p` on the axis chosen, and a partition at that plane sends every sample to
the right, the left sub-range being empty; exactly `maxDepth - 1` nodes are inner nodes,
namely the nodes `0, 2, ..`, each with a left leaf `2t + 1` whose entry `t` keeps its
empty range; there are `2 * maxDepth - 1` nodes and `maxDepth` storage entries; the last
node is the deepest right leaf, its entry `maxDepth - 1` records the range of all `n`
samples, and the lookup of every sample reaches it. -/
theorem degenerate_right_spine (ops : SampleStatisticsOps α S) (position : σ → Vec3 α)
    (dflt : Region S D) (bound : BBox α) (bs : Settings) (st0 : BuildState α S D σ)
    (p : Vec3 α)
    (hfresh : st0.dataStorage = [])
    (hempty : ops.numSamples dflt.sampleStatistics = 0)
    (hzero : ∀ (s : S) (f : ℚ), ops.numSamples s = 0 → ops.numSamples (ops.decay s f) = 0)
    (hadd0 : ∀ x : ℚ, ops.addCounts 0 x = x)
    (hconv : ∀ k : Nat, k ≤ st0.samples.length → ops.sizeToCount k = (k : ℚ))
    (hmean : ops.getMean
      ((fun s => ops.addSample s p)^[st0.samples.length] (ops.clear ops.init)) = p)
    (hp : ∀ x ∈ st0.samples, position x = p)
    (hdepth : 1 ≤ bs.maxDepth) (hmax : 1 ≤ bs.maxSamples)
    (hn : bs.maxSamples < st0.samples.length) :
    ∃ st' : BuildState α S D σ,
      build ops position dflt bound bs st0 = some st' ∧
      st'.kdTree.m_nodes.length = 2 * bs.maxDepth - 1 ∧
      st'.dataStorage.length = bs.maxDepth ∧
      st'.kdTree.m_nodes.countP (fun nd => !nd.isLeaf) = bs.maxDepth - 1 ∧
      (∀ t : Nat, t < bs.maxDepth - 1 →
        st'.kdTree.m_nodes[2 * t]? =
          some (KDNode.inner
            (getSplitDimensionAndPosition ops
              ((fun s => ops.addSample s p)^[st0.samples.length] (ops.clear ops.init))).1
            (p.get (getSplitDimensionAndPosition ops
              ((fun s => ops.addSample s p)^[st0.samples.length] (ops.clear ops.init))).1)
            (2 * t + 1)) ∧
        st'.kdTree.m_nodes[2 * t + 1]? = some (KDNode.leaf t) ∧
        st'.dataStorage[t]? = some (decayTimes ops (t + 1) dflt, ⟨0, 0⟩)) ∧
      st'.kdTree.m_nodes[2 * (bs.maxDepth - 1)]? = some (KDNode.leaf (bs.maxDepth - 1)) ∧
      st'.dataStorage[bs.maxDepth - 1]? =
        some (decayTimes ops (bs.maxDepth - 1) dflt, ⟨0, st0.samples.length⟩) ∧
      (∀ x ∈ st0.samples,
        st'.kdTree.getDataIdxAtPos (position x) = some (bs.maxDepth - 1)) ∧
      (∀ (buf : List σ) (a b : Nat) (sl sr : S), (∀ x ∈ buf, position x = p) →
        (pivotSplitSamplesWithStats ops position buf a b
          (getSplitDimensionAndPosition ops
            ((fun s => ops.addSample s p)^[st0.samples.length] (ops.clear ops.init))).1
          (p.get (getSplitDimensionAndPosition ops
            ((fun s => ops.addSample s p)^[st0.samples.length] (ops.clear ops.init))).1)
          sl sr).2.1 = a) := by
  have hsz : (⟨0, st0.samples.length⟩ : Range).size = st0.samples.length := rfl
  obtain ⟨st', h, hl, hs, -, -, hsp, hlast, hlaste, -, -⟩ :=
    updateTreeNode_spine ops position bs p ⟨0, st0.samples.length⟩ hzero hadd0 hconv hn hmean
      (bs.maxDepth - 1) (1 + bs.maxDepth + 1)
      (⟨KDTree.init bound, [(dflt, ⟨0, 0⟩)], st0.samples⟩ : BuildState α S D σ) 0 0 1
      (dflt, ⟨0, 0⟩) rfl rfl hempty (by omega) (by omega) (le_refl _)
      (fun j x _ _ hx => hp x (List.getElem?_mem hx))
  rw [hsz] at h hsp
  have hbuild : build ops position dflt bound bs st0 = some st' := by
    simp only [build, if_neg (Nat.pos_iff_ne_zero.mp hmax), hfresh, resizeOne, updateTree,
      KDTree.init, List.getElem?_cons_zero, List.length_singleton, rootStatistics,
      KDNode.isLeaf, if_true]
    rw [foldl_same_position ops position p st0.samples _ hp]
    exact h
  have hlen1 : (⟨KDTree.init bound, [(dflt, ⟨0, 0⟩)], st0.samples⟩ :
      BuildState α S D σ).kdTree.m_nodes.length = 1 := rfl
  have hlen2 : (⟨KDTree.init bound, [(dflt, ⟨0, 0⟩)], st0.samples⟩ :
      BuildState α S D σ).dataStorage.length = 1 := rfl
  rw [hlen1] at hl hsp hlast
  rw [hlen2] at hs hsp hlast hlaste
  have hspine : ∀ t : Nat, t < bs.maxDepth - 1 →
      st'.kdTree.m_nodes[2 * t]? =
        some (KDNode.inner
          (getSplitDimensionAndPosition ops
            ((fun s => ops.addSample s p)^[st0.samples.length] (ops.clear ops.init))).1
          (p.get (getSplitDimensionAndPosition ops
            ((fun s => ops.addSample s p)^[st0.samples.length] (ops.clear ops.init))).1)
          (2 * t + 1)) ∧
      st'.kdTree.m_nodes[2 * t + 1]? = some (KDNode.leaf t) ∧
      st'.dataStorage[t]? = some (decayTimes ops (t + 1) dflt, ⟨0, 0⟩) := by
    intro t ht
    obtain ⟨g1, g2, g3⟩ := hsp t ht
    have e1 : (if t = 0 then 0 else 1 + 2 * t - 1) = 2 * t := by split <;> omega
    have e2 : (if t = 0 then 0 else 1 + t - 1) = t := by split <;> omega
    rw [e1, Nat.add_comm 1 (2 * t)] at g1
    rw [e2, Nat.add_comm 1 (2 * t)] at g2
    rw [e2] at g3
    exact ⟨g1, g2, g3⟩
  have e1 : (if bs.maxDepth - 1 = 0 then 0 else 1 + 2 * (bs.maxDepth - 1) - 1) =
      2 * (bs.maxDepth - 1) := by split <;> omega
  have e2 : (if bs.maxDepth - 1 = 0 then 0 else 1 + (bs.maxDepth - 1) - 1) =
      bs.maxDepth - 1 := by split <;> omega
  rw [e1, e2] at hlast
  rw [e2] at hlaste
  have hlookup : ∀ x ∈ st0.samples,
      st'.kdTree.getDataIdxAtPos (position x) = some (bs.maxDepth - 1) := by
    obtain ⟨st'', hb, -, hperm, hcons, -, -⟩ :=
      build_post ops position dflt bound bs st0 hmax
    rw [hbuild] at hb
    have hst : st' = st'' := Option.some.inj hb
    subst hst
    have hpos : 0 < st'.samples.length := by
      rw [hperm.length_eq]
      omega
    obtain ⟨dIdx, e, hd1, hd2, hd3, hd4, -, -⟩ := hcons 0 (st'.samples[0])
      (List.getElem?_eq_getElem hpos)
    have hx0 : position (st'.samples[0]) = p :=
      hp _ (hperm.subset (List.getElem_mem _))
    have hdlt : dIdx < bs.maxDepth := by
      have := get?_lt hd2
      omega
    have hdeq : dIdx = bs.maxDepth - 1 := by
      by_contra hne
      have hent := (hspine dIdx (by omega)).2.2
      rw [hd2] at hent
      have : e.2.stop = 0 := by
        rw [Option.some.inj hent]
      omega
    intro x hx
    rw [hp x hx, ← hx0, hd1, hdeq]
  refine ⟨st', hbuild, by omega, by omega, ?_, hspine, hlast, hlaste, hlookup, ?_⟩
  · refine countP_alternating _ (bs.maxDepth - 1) _ (by omega) ?_ ⟨_, hlast, rfl⟩
    intro t ht
    exact ⟨⟨_, (hspine t ht).1, rfl⟩, ⟨_, (hspine t ht).2.1, rfl⟩⟩
  · intro buf a b sl sr hbuf
    refine pivotSplit_all_right ops position buf a b _ _ sl sr ?_
    intro k x _ _ hx
    rw [hbuf x (List.getElem?_mem hx)]
    exact lt_irrefl _

/-- C21, at a concrete input: three samples at the centre of the unit cube, at most 2
samples per leaf and the depth limit 3 give 5 nodes, of which 2 are inner nodes, and 3
storage entries; node 4 is the deepest right leaf and its entry 2 records all three
samples. -/
theorem degenerate_right_spine_witness :
    ∃ st' : BuildState ℚ RunningStatistics Nat (Vec3 ℚ),
      build exactStatistics id exampleOps.defaultRegion unitCube spineSettings spineState0
        = some st' ∧
      st'.kdTree.m_nodes.length = 5 ∧
      st'.dataStorage.length = 3 ∧
      st'.kdTree.m_nodes.countP (fun nd => !nd.isLeaf) = 2 ∧
      st'.kdTree.m_nodes[4]? = some (KDNode.leaf 2) ∧
      st'.dataStorage[2]? =
        some (decayTimes exactStatistics 2 exampleOps.defaultRegion, ⟨0, 3⟩) ∧
      st'.kdTree.getDataIdxAtPos ⟨1 / 2, 1 / 2, 1 / 2⟩ = some 2 := by
  obtain ⟨st', h, h1, h2, h3, -, h5, h6, h7, -⟩ :=
    degenerate_right_spine exactStatistics id exampleOps.defaultRegion unitCube spineSettings
      spineState0 ⟨1 / 2, 1 / 2, 1 / 2⟩ rfl rfl
      (fun s f h => by
        simp only [exactStatistics] at h ⊢
        rw [h, zero_mul])
      (fun _ => by simp only [exactStatistics, zero_add]) (fun _ _ => rfl)
      (by decide!)
      (fun x hx => by
        simp only [spineState0, List.mem_replicate] at hx
        exact hx.2)
      (by decide) (by decide) (by decide)
  exact ⟨st', h, h1, h2, h3, h5, h6,
    h7 ⟨1 / 2, 1 / 2, 1 / 2⟩ (by simp [spineState0, List.mem_replicate])⟩

/-- C21 as stated fails for `maxSamples = 0`: with the depth limit 2 and three samples at
the centre of the unit cube (`n = 3 > maxSamples`, the mean of their statistics being
their position), `build` has no result, because its estimate of the number of leaves
divides by `maxSamples`; the pass alone, run on the tree as `build` initialises it, would
leave the spine of three nodes. -/
theorem build_fails_for_zero_maxSamples :
    1 ≤ zeroSamplesSettings.maxDepth ∧
    zeroSamplesSettings.maxSamples < spineState0.samples.length ∧
    spineState0.samples = List.replicate 3 (⟨1 / 2, 1 / 2, 1 / 2⟩ : Vec3 ℚ) ∧
    exactStatistics.getMean
      ((fun s => exactStatistics.addSample s ⟨1 / 2, 1 / 2, 1 / 2⟩)^[3]
        (exactStatistics.clear exactStatistics.init)) = ⟨1 / 2, 1 / 2, 1 / 2⟩ ∧
    build exactStatistics id exampleOps.defaultRegion unitCube zeroSamplesSettings spineState0
      = none ∧
    (updateTree exactStatistics id zeroSamplesSettings
      ⟨KDTree.init unitCube, [(exampleOps.defaultRegion, ⟨0, 0⟩)], spineState0.samples⟩).map
      (fun st => st.kdTree.m_nodes) =
      some [KDNode.inner 2 (1 / 2) 1, KDNode.leaf 0, KDNode.leaf 1] := by
  refine ⟨by decide, by decide, rfl, by decide!, by decide!, by decide!⟩

end

end rkguide
